import Mathlib

/-! goliteflow: resolver, executor, validation, scheduler and facade

A shallow embedding of `internal/parser/models.go`,
`internal/executor/runner.go`, `internal/parser/yaml_parser.go`,
`internal/scheduler/scheduler.go` and `goliteflow.go`.

Conventions of the embedding.

* A Go `map[string]T` that is only read through `m[k]` is a total function
  `String → T` whose default is the zero value of `T`; `m[k] = v` is
  `Function.update m k v`.
* Go `int` (on a 64-bit platform) and `time.Duration` are 64-bit signed
  integers: they are `Int`, and the operations that can overflow wrap
  explicitly (`wrapInt64`).
* Wall-clock fields (`StartTime`, `EndTime`, `Duration`) are not modelled.
* What the operating system decides (the outcome of a spawned process, whether
  the task context completes during a backoff wait) is an explicit argument.
-/

namespace GoLiteFlow

/-! ## Data model (`internal/parser/models.go`) -/

/-- Task represents a single task within a workflow. -/
structure Task where
  ID : String
  Command : String
  Retry : Int
  DependsOn : List String
  Timeout : String
  deriving DecidableEq, Repr

/-- The zero value of `Task`, which is what a Go map lookup returns for a key
that is absent. -/
def Task.zero : Task :=
  { ID := "", Command := "", Retry := 0, DependsOn := [], Timeout := "" }

instance : Inhabited Task := ⟨Task.zero⟩

/-- Workflow represents a single workflow definition. -/
structure Workflow where
  Name : String
  Schedule : String
  Tasks : List Task
  deriving DecidableEq, Repr

/-- ExecutionResult represents the result of a task execution (time fields
omitted). -/
structure ExecutionResult where
  TaskID : String
  WorkflowID : String
  ExitCode : Int
  Success : Bool
  RetryCount : Int
  Stdout : String
  Stderr : String
  Error : String
  deriving DecidableEq, Repr

/-- WorkflowExecution represents the execution state of a workflow (time fields
omitted). -/
structure WorkflowExecution where
  WorkflowID : String
  Status : String
  TaskResults : List ExecutionResult
  ErrorMessage : String
  deriving DecidableEq, Repr

/-! ## Dependency resolver (`sortTasksByDependencies`) -/

/-- The map `deps` after the first loop of `sortTasksByDependencies`:
`deps[task.ID] = task.DependsOn` for each task in order, so a later task with
the same id overwrites an earlier one. -/
def depsOf (tasks : List Task) : String → List String :=
  tasks.foldl (fun m t => Function.update m t.ID t.DependsOn) (fun _ => [])

/-- The map `taskMap` after the first loop of `sortTasksByDependencies`:
`taskMap[task.ID] = task`. -/
def taskMapOf (tasks : List Task) : String → Task :=
  tasks.foldl (fun m t => Function.update m t.ID t) (fun _ => Task.zero)

/-- The variables captured by the closure `visit`: the two marker maps and the
result slice. -/
structure SortState where
  visited : String → Bool
  temp : String → Bool
  result : List Task

/-- What a call of the closure `visit` produces: it returns `nil` with the
captured variables updated, or it returns the circular-dependency error. The
third constructor is the embedding's own: the recursion budget ran out. -/
inductive VisitOutcome where
  | done (s : SortState)
  | failed (msg : String)
  | outOfFuel

/-- The text of `fmt.Errorf("circular dependency detected involving task '%s'", taskID)`. -/
def cycleError (taskID : String) : String :=
  "circular dependency detected involving task '" ++ taskID ++ "'"

/-- The loop `for _, dep := range deps[taskID] { if err := visit(dep); err != nil { return err } }`
with the recursive call passed in. -/
def visitDeps (visit : String → SortState → VisitOutcome) :
    List String → SortState → VisitOutcome
  | [], s => .done s
  | dep :: rest, s =>
    match visit dep s with
    | .done s1 => visitDeps visit rest s1
    | .failed msg => .failed msg
    | .outOfFuel => .outOfFuel

/-- The closure `visit` of `sortTasksByDependencies`; the first argument bounds
the depth of the recursion. -/
def visit (deps : String → List String) (taskMap : String → Task) :
    Nat → String → SortState → VisitOutcome
  | 0, _, _ => .outOfFuel
  | fuel + 1, taskID, s =>
    if s.temp taskID = true then
      .failed (cycleError taskID)
    else if s.visited taskID = true then
      .done s
    else
      match visitDeps (visit deps taskMap fuel) (deps taskID)
          { s with temp := Function.update s.temp taskID true } with
      | .done s1 =>
        .done { temp := Function.update s1.temp taskID false
                visited := Function.update s1.visited taskID true
                result := s1.result ++ [taskMap taskID] }
      | .failed msg => .failed msg
      | .outOfFuel => .outOfFuel

/-- The second loop of `sortTasksByDependencies`:
`for _, task := range workflow.Tasks { if !visited[task.ID] { if err := visit(task.ID); err != nil { return nil, err } } }`. -/
def visitTasks (deps : String → List String) (taskMap : String → Task) (fuel : Nat) :
    List Task → SortState → VisitOutcome
  | [], s => .done s
  | task :: rest, s =>
    if s.visited task.ID = true then
      visitTasks deps taskMap fuel rest s
    else
      match visit deps taskMap fuel task.ID s with
      | .done s1 => visitTasks deps taskMap fuel rest s1
      | .failed msg => .failed msg
      | .outOfFuel => .outOfFuel

/-- What `sortTasksByDependencies` returns: `(result, nil)` or `(nil, err)`; the
third constructor is the embedding's own. -/
inductive SortResult where
  | order (tasks : List Task)
  | error (msg : String)
  | outOfFuel
  deriving DecidableEq, Repr

/-- The recursion budget given to `visit`: one more than the number of tasks. -/
def sortFuel (w : Workflow) : Nat := w.Tasks.length + 1

/-- Function `sortTasksByDependencies` sorts tasks by their dependencies using
topological sort. -/
def sortTasksByDependencies (w : Workflow) : SortResult :=
  match visitTasks (depsOf w.Tasks) (taskMapOf w.Tasks) (sortFuel w) w.Tasks
      { visited := fun _ => false, temp := fun _ => false, result := [] } with
  | .done s => .order s.result
  | .failed msg => .error msg
  | .outOfFuel => .outOfFuel

/-- The dependency graph as the resolver records it: `a` depends on `b` when
`b` is listed in `deps[a]`. -/
def DependsOn (w : Workflow) (a b : String) : Prop := b ∈ depsOf w.Tasks a

/-- Membership in a list decides the edge relation. -/
instance (w : Workflow) (a b : String) : Decidable (DependsOn w a b) := by
  unfold DependsOn; infer_instance

/-! ## Task executor (`ExecuteTask`, `executeCommand`, `calculateBackoff`) -/

/-- Go's `unicode.IsSpace`: the white-space characters that `strings.Fields`
splits on. -/
def isSpace (c : Char) : Bool :=
  let n := c.toNat
  n = 0x09 || n = 0x0A || n = 0x0B || n = 0x0C || n = 0x0D || n = 0x20 ||
  n = 0x85 || n = 0xA0 || n = 0x1680 || (0x2000 ≤ n && n ≤ 0x200A) ||
  n = 0x2028 || n = 0x2029 || n = 0x202F || n = 0x205F || n = 0x3000

/-- The scan of `strings.Fields`: `cur` holds the characters of the field being
read, last one first. -/
def fieldsFrom : List Char → List Char → List String
  | [], cur => if cur = [] then [] else [String.mk cur.reverse]
  | c :: cs, cur =>
    if isSpace c then
      if cur = [] then fieldsFrom cs [] else String.mk cur.reverse :: fieldsFrom cs []
    else fieldsFrom cs (c :: cur)

/-- Go's `strings.Fields`: the maximal runs of non-space characters. -/
def fields (s : String) : List String := fieldsFrom s.data []

/-- CommandResult represents the result of a single command execution. -/
structure CommandResult where
  ExitCode : Int
  Stdout : String
  Stderr : String
  Error : String
  deriving DecidableEq, Repr

/-- What `cmd.Output()` gives back for a spawned command: no error with the
captured standard output, an `*exec.ExitError` with its exit code and captured
standard error, or any other error with its text. -/
inductive ProcOutcome where
  | ok (stdout : String)
  | exitError (code : Int) (stderr : String)
  | otherError (msg : String)
  deriving DecidableEq, Repr

/-- Function `executeCommand` executes a single command; `proc` is what the
process does if it is spawned. -/
def executeCommand (proc : ProcOutcome) (command : String) : CommandResult :=
  let parts := fields command
  if parts.length = 0 then
    { ExitCode := 1, Stdout := "", Stderr := "", Error := "empty command" }
  else
    match proc with
    | .ok stdout => { ExitCode := 0, Stdout := stdout, Stderr := "", Error := "" }
    | .exitError code stderr => { ExitCode := code, Stdout := "", Stderr := stderr, Error := "" }
    | .otherError msg => { ExitCode := 1, Stdout := "", Stderr := "", Error := msg }

/-- Conversion to Go's `int64`: the value modulo `2^64`, taken in
`[-2^63, 2^63)`. -/
def wrapInt64 (x : Int) : Int := (x + 2 ^ 63) % 2 ^ 64 - 2 ^ 63

/-- Go's `time.Second`, in nanoseconds. -/
def second : Int := 1000000000

/-- Go's `time.Minute`, in nanoseconds. -/
def minute : Int := 60 * second

/-- The shift `1 << uint(attempt)` on `time.Duration` (an `int64`): a count of
64 or more gives 0, and `uint` of a negative `int` is at least `2^63`. -/
def shiftOne (attempt : Int) : Int :=
  let count := attempt % 2 ^ 64
  if count < 64 then wrapInt64 (2 ^ count.toNat) else 0

/-- Function `calculateBackoff` calculates the backoff duration for retries, in
nanoseconds. -/
def calculateBackoff (attempt : Int) : Int :=
  let baseDelay := second
  let backoff := wrapInt64 (shiftOne attempt * baseDelay)
  let maxBackoff := 5 * minute
  if backoff > maxBackoff then maxBackoff else backoff

/-- What the outside world does during one call of `ExecuteTask`: `proc i` is
the outcome of the process of attempt `i`, and `ctxDone i` tells whether
`taskCtx.Done()` is the case taken by the `select` that follows attempt `i`. -/
structure TaskEnv where
  proc : Nat → ProcOutcome
  ctxDone : Nat → Bool

/-- The variables of the retry loop of `ExecuteTask`, and two counters of the
embedding: how many times `executeCommand` was called and the backoff durations
computed so far, in order. -/
structure RetryState where
  result : ExecutionResult
  lastErr : Option String
  attempts : Nat
  backoffs : List Int
  deriving DecidableEq, Repr

/-- The loop `for attempt := 0; attempt < maxRetries; attempt++` of
`ExecuteTask`, entered at `attempt`; the first argument bounds the number of
iterations. The `break` under `case <-taskCtx.Done()` leaves the `select`
statement only, so the loop goes on to the next attempt. -/
def retryLoop (env : TaskEnv) (command : String) (maxRetries : Int) :
    Nat → Nat → RetryState → RetryState
  | 0, _, st => st
  | n + 1, attempt, st =>
    if (attempt : Int) < maxRetries then
      let cmdResult := executeCommand (env.proc attempt) command
      let result : ExecutionResult :=
        { st.result with
          RetryCount := attempt
          ExitCode := cmdResult.ExitCode
          Stdout := cmdResult.Stdout
          Stderr := cmdResult.Stderr
          Error := cmdResult.Error
          Success := decide (cmdResult.ExitCode = 0) }
      if result.Success = true then
        { st with result := result, attempts := st.attempts + 1 }
      else
        let lastErr := "command failed with exit code " ++ toString cmdResult.ExitCode
          ++ ": " ++ cmdResult.Error
        if (attempt : Int) < maxRetries - 1 then
          let backoffDuration := calculateBackoff attempt
          if env.ctxDone attempt = true then
            retryLoop env command maxRetries n (attempt + 1)
              { result := { result with Error := "task cancelled or timed out", Success := false }
                lastErr := some lastErr
                attempts := st.attempts + 1
                backoffs := st.backoffs ++ [backoffDuration] }
          else
            retryLoop env command maxRetries n (attempt + 1)
              { result := result
                lastErr := some lastErr
                attempts := st.attempts + 1
                backoffs := st.backoffs ++ [backoffDuration] }
        else
          retryLoop env command maxRetries n (attempt + 1)
            { result := result
              lastErr := some lastErr
              attempts := st.attempts + 1
              backoffs := st.backoffs }
    else st

/-- The value of `maxRetries` in `ExecuteTask`. -/
def maxRetriesOf (task : Task) : Int := if task.Retry = 0 then 1 else task.Retry

/-- The variables of `ExecuteTask` when the retry loop is entered: `result`
holds the two ids and zero values, `lastErr` is `nil`. -/
def initialState (task : Task) (workflowID : String) : RetryState :=
  { result :=
      { TaskID := task.ID, WorkflowID := workflowID, ExitCode := 0, Success := false
        RetryCount := 0, Stdout := "", Stderr := "", Error := "" }
    lastErr := none
    attempts := 0
    backoffs := [] }

/-- The body of `ExecuteTask`, returning the loop variables together with the
result. -/
def runTask (env : TaskEnv) (task : Task) (workflowID : String) : RetryState :=
  let maxRetries := maxRetriesOf task
  let st := retryLoop env task.Command maxRetries maxRetries.toNat 0
    (initialState task workflowID)
  match st.lastErr with
  | some e => if st.result.Success = false then { st with result := { st.result with Error := e } } else st
  | none => st

/-- Function `ExecuteTask` executes a single task with retry logic. -/
def ExecuteTask (env : TaskEnv) (task : Task) (workflowID : String) : ExecutionResult :=
  (runTask env task workflowID).result

/-! ## Workflow executor (`ExecuteWorkflow`) -/

/-- The loop `for _, depID := range task.DependsOn` of
`areDependenciesCompleted`. -/
def dependenciesCompleted (completedTasks : String → Bool) : List String → Bool
  | [] => true
  | depID :: rest =>
    if completedTasks depID = false then false else dependenciesCompleted completedTasks rest

/-- Function `areDependenciesCompleted` checks if all dependencies for a task
are completed. -/
def areDependenciesCompleted (task : Task) (completedTasks : String → Bool) : Bool :=
  dependenciesCompleted completedTasks task.DependsOn

/-- The loop `for _, task := range sortedTasks` of `ExecuteWorkflow` together
with the code after it; `k` counts the tasks executed so far and `envs k` is
the outside world of the next call of `ExecuteTask`. -/
def runTasks (envs : Nat → TaskEnv) (workflowName : String) :
    List Task → Nat → (String → Bool) → WorkflowExecution → WorkflowExecution
  | [], _, _, execution => { execution with Status := "completed" }
  | task :: rest, k, completedTasks, execution =>
    if areDependenciesCompleted task completedTasks = false then
      { execution with
        Status := "failed"
        ErrorMessage := "dependency check failed for task '" ++ task.ID ++ "'" }
    else
      let result := ExecuteTask (envs k) task workflowName
      let execution := { execution with TaskResults := execution.TaskResults ++ [result] }
      let completedTasks := Function.update completedTasks task.ID true
      if result.Success = false then
        { execution with
          Status := "failed"
          ErrorMessage := "task '" ++ task.ID ++ "' failed: " ++ result.Error }
      else
        runTasks envs workflowName rest (k + 1) completedTasks execution

/-- Function `ExecuteWorkflow` executes all tasks in a workflow in dependency
order. The value is `none` only if the resolver ran out of recursion budget. -/
def ExecuteWorkflow (envs : Nat → TaskEnv) (w : Workflow) : Option WorkflowExecution :=
  let execution : WorkflowExecution :=
    { WorkflowID := w.Name, Status := "running", TaskResults := [], ErrorMessage := "" }
  match sortTasksByDependencies w with
  | .error err =>
    some { execution with Status := "failed", ErrorMessage := "failed to sort tasks: " ++ err }
  | .order sortedTasks => some (runTasks envs w.Name sortedTasks 0 (fun _ => false) execution)
  | .outOfFuel => none

/-! ## Configuration validation (`internal/parser/yaml_parser.go`)

The standard-library function `time.ParseDuration` is an argument of the
validation functions: `parseDuration s` is `none` when the call returns no
error and the text of the error otherwise. An error returned by a validation
function is its message, `none` standing for `nil`. -/

/-- WorkflowConfig represents the root configuration structure. -/
structure WorkflowConfig where
  Version : String
  Workflows : List Workflow
  deriving DecidableEq, Repr

/-- The text `workflow[%d].task[%d]` that starts the task-level messages. -/
def taskPath (workflowIndex taskIndex : Nat) : String :=
  "workflow[" ++ toString workflowIndex ++ "].task[" ++ toString taskIndex ++ "]"

/-- Function `ValidateTask` validates a single task. -/
def ValidateTask (parseDuration : String → Option String) (task : Task)
    (taskIndex workflowIndex : Nat) : Option String :=
  if task.ID = "" then
    some (taskPath workflowIndex taskIndex ++ ": id is required")
  else if task.Command = "" then
    some (taskPath workflowIndex taskIndex ++ ": command is required")
  else if task.Retry < 0 then
    some (taskPath workflowIndex taskIndex ++ ": retry count cannot be negative")
  else if task.Timeout ≠ "" then
    match parseDuration task.Timeout with
    | some err =>
      some (taskPath workflowIndex taskIndex ++ ": invalid timeout format '" ++ task.Timeout
        ++ "': " ++ err)
    | none => none
  else none

/-- The first loop of `ValidateWorkflow`: each task is validated and its id is
recorded in the set `taskIDs`; `i` is the index of the first task of the list. -/
def validateTaskList (parseDuration : String → Option String) (workflowIndex : Nat) :
    List Task → Nat → (String → Bool) → Except String (String → Bool)
  | [], _, taskIDs => .ok taskIDs
  | task :: rest, i, taskIDs =>
    match ValidateTask parseDuration task i workflowIndex with
    | some err => .error err
    | none =>
      validateTaskList parseDuration workflowIndex rest (i + 1)
        (Function.update taskIDs task.ID true)

/-- The inner loop `for _, depID := range task.DependsOn` of `ValidateWorkflow`. -/
def validateDependsOn (workflowIndex i : Nat) (taskIDs : String → Bool) :
    List String → Option String
  | [] => none
  | depID :: rest =>
    if taskIDs depID = false then
      some (taskPath workflowIndex i ++ ": dependency '" ++ depID ++ "' not found")
    else validateDependsOn workflowIndex i taskIDs rest

/-- The second loop of `ValidateWorkflow`, over the tasks from index `i` on. -/
def validateDependencies (workflowIndex : Nat) (taskIDs : String → Bool) :
    List Task → Nat → Option String
  | [], _ => none
  | task :: rest, i =>
    match validateDependsOn workflowIndex i taskIDs task.DependsOn with
    | some err => some err
    | none => validateDependencies workflowIndex taskIDs rest (i + 1)

/-- Function `ValidateWorkflow` validates a single workflow. -/
def ValidateWorkflow (parseDuration : String → Option String) (workflow : Workflow)
    (index : Nat) : Option String :=
  if workflow.Name = "" then
    some ("workflow[" ++ toString index ++ "]: name is required")
  else if workflow.Schedule = "" then
    some ("workflow[" ++ toString index ++ "]: schedule is required")
  else if workflow.Tasks.length = 0 then
    some ("workflow[" ++ toString index ++ "]: at least one task is required")
  else
    match validateTaskList parseDuration index workflow.Tasks 0 (fun _ => false) with
    | .error err => some err
    | .ok taskIDs => validateDependencies index taskIDs workflow.Tasks 0

/-- The loop `for i, workflow := range config.Workflows` of `ValidateConfig`,
from index `i` on. -/
def validateWorkflows (parseDuration : String → Option String) :
    List Workflow → Nat → Option String
  | [], _ => none
  | workflow :: rest, i =>
    match ValidateWorkflow parseDuration workflow i with
    | some err => some err
    | none => validateWorkflows parseDuration rest (i + 1)

/-- Function `ValidateConfig` validates the workflow configuration. -/
def ValidateConfig (parseDuration : String → Option String) (config : WorkflowConfig) :
    Option String :=
  if config.Version = "" then some "version is required"
  else if config.Workflows.length = 0 then some "at least one workflow is required"
  else validateWorkflows parseDuration config.Workflows 0

/-- Function `GetTaskDependencies` returns a map of task dependencies for
topological sorting. -/
def GetTaskDependencies (w : Workflow) : String → List String :=
  w.Tasks.foldl (fun deps task => Function.update deps task.ID task.DependsOn) (fun _ => [])

/-- The loop of the parser's `visit` that finds the task and adds it to the
result: `for _, task := range workflow.Tasks { if task.ID == taskID { result = append(result, task); break } }`. -/
def appendTask (taskID : String) : List Task → List Task → List Task
  | [], result => result
  | task :: rest, result =>
    if task.ID = taskID then result ++ [task] else appendTask taskID rest result

/-- The closure `visit` of `TopologicalSort`; the first argument bounds the
depth of the recursion. -/
def TopologicalSort.visit (deps : String → List String) (tasks : List Task) :
    Nat → String → SortState → VisitOutcome
  | 0, _, _ => .outOfFuel
  | fuel + 1, taskID, s =>
    if s.temp taskID = true then
      .failed (cycleError taskID)
    else if s.visited taskID = true then
      .done s
    else
      match visitDeps (TopologicalSort.visit deps tasks fuel) (deps taskID)
          { s with temp := Function.update s.temp taskID true } with
      | .done s1 =>
        .done { temp := Function.update s1.temp taskID false
                visited := Function.update s1.visited taskID true
                result := appendTask taskID tasks s1.result }
      | .failed msg => .failed msg
      | .outOfFuel => .outOfFuel

/-- The last loop of `TopologicalSort`:
`for _, task := range workflow.Tasks { if !visited[task.ID] { if err := visit(task.ID); err != nil { return nil, err } } }`. -/
def TopologicalSort.visitTasks (deps : String → List String) (tasks : List Task) (fuel : Nat) :
    List Task → SortState → VisitOutcome
  | [], s => .done s
  | task :: rest, s =>
    if s.visited task.ID = true then
      TopologicalSort.visitTasks deps tasks fuel rest s
    else
      match TopologicalSort.visit deps tasks fuel task.ID s with
      | .done s1 => TopologicalSort.visitTasks deps tasks fuel rest s1
      | .failed msg => .failed msg
      | .outOfFuel => .outOfFuel

/-- Function `TopologicalSort` sorts tasks by their dependencies. -/
def TopologicalSort (w : Workflow) : SortResult :=
  match TopologicalSort.visitTasks (GetTaskDependencies w) w.Tasks (sortFuel w) w.Tasks
      { visited := fun _ => false, temp := fun _ => false, result := [] } with
  | .done s => .order s.result
  | .failed msg => .error msg
  | .outOfFuel => .outOfFuel

/-! ## Scheduler (`internal/scheduler/scheduler.go`)

Each method is a function on the state of the scheduler, run from start to
end without another method running in between. The library function
`cron.ParseStandard` is an argument: `parseStandard spec` is `none` when the
call returns no error and the text of the error otherwise; `cron.New()` gives a
driver that parses with the same standard parser. -/

/-- The value returned by the call `s.runner.ExecuteWorkflow(s.ctx, &workflow)`.
The resolver never exhausts its recursion budget, so the second branch is never
taken. -/
def runWorkflow (envs : Nat → TaskEnv) (w : Workflow) : WorkflowExecution :=
  match ExecuteWorkflow envs w with
  | some execution => execution
  | none => { WorkflowID := w.Name, Status := "running", TaskResults := [], ErrorMessage := "" }

/-- The map `executions` of the scheduler, a `map[string][]parser.WorkflowExecution`:
its entries, each key once. -/
abbrev ExecutionStore := List (String × List WorkflowExecution)

/-- The lookup `m[key]`, the nil slice when the key is absent. -/
def storeGet : ExecutionStore → String → List WorkflowExecution
  | [], _ => []
  | (k, v) :: rest, key => if k = key then v else storeGet rest key

/-- The assignment `m[key] = value`. -/
def storeSet : ExecutionStore → String → List WorkflowExecution → ExecutionStore
  | [], key, value => [(key, value)]
  | (k, v) :: rest, key, value =>
    if k = key then (k, value) :: rest else (k, v) :: storeSet rest key value

/-- The keys of the store. -/
def storeKeys (m : ExecutionStore) : List String := m.map Prod.fst

/-- All the execution records held in the store. -/
def storeRecords : ExecutionStore → List WorkflowExecution
  | [] => []
  | (_, v) :: rest => v ++ storeRecords rest

/-- The capacity of `reportChan`: `make(chan parser.WorkflowExecution, 100)`. -/
def reportChanCapacity : Nat := 100

/-- The buffered channel `reportChan`: the values queued in it, oldest first,
and whether it has been closed. -/
structure ReportChan where
  buf : List WorkflowExecution
  closed : Bool
  deriving DecidableEq, Repr

/-- A step of the program that can end in a run-time panic. -/
inductive Outcome (α : Type) where
  | ok (a : α)
  | panic (msg : String)
  deriving DecidableEq, Repr

/-- The statement `select { case s.reportChan <- execution: default: }`: the
value is queued when the buffer has room and skipped when it is full; a send on
a closed channel panics. -/
def trySend (ch : ReportChan) (execution : WorkflowExecution) : Outcome ReportChan :=
  if ch.closed = true then .panic "send on closed channel"
  else if ch.buf.length < reportChanCapacity then
    .ok { ch with buf := ch.buf ++ [execution] }
  else .ok ch

/-- Scheduler manages workflow execution based on cron schedules. The field
`cronJobs` lists the entries of the cron driver, each by the workflow its job
passes to `executeWorkflow`; `cronRunning` tells whether the driver is started
and `cancelled` whether `cancel` was called on the shared context. -/
structure Scheduler where
  cronJobs : List Workflow
  cronRunning : Bool
  workflows : List Workflow
  executions : ExecutionStore
  cancelled : Bool
  reportChan : ReportChan
  deriving DecidableEq, Repr

/-- Function `NewScheduler` creates a new scheduler instance. -/
def NewScheduler : Scheduler :=
  { cronJobs := [], cronRunning := false, workflows := [], executions := []
    cancelled := false, reportChan := { buf := [], closed := false } }

/-- The call `s.cron.AddFunc(workflow.Schedule, func() { s.executeWorkflow(workflow) })`:
the driver parses the schedule and adds an entry for the job. -/
def cronAddFunc (parseStandard : String → Option String) (workflow : Workflow)
    (entries : List Workflow) : Except String (List Workflow) :=
  match parseStandard workflow.Schedule with
  | some err => .error err
  | none => .ok (entries ++ [workflow])

/-- The loop `for _, workflow := range workflows` of `AddWorkflows`: the error
it returns, if any, and the scheduler as the loop leaves it. -/
def addJobs (parseStandard : String → Option String) :
    List Workflow → Scheduler → Option String × Scheduler
  | [], s => (none, s)
  | workflow :: rest, s =>
    match parseStandard workflow.Schedule with
    | some err =>
      (some ("invalid cron expression for workflow '" ++ workflow.Name ++ "': " ++ err), s)
    | none =>
      match cronAddFunc parseStandard workflow s.cronJobs with
      | .error err =>
        (some ("failed to add workflow '" ++ workflow.Name ++ "' to scheduler: " ++ err), s)
      | .ok entries => addJobs parseStandard rest { s with cronJobs := entries }

/-- Function `AddWorkflows` adds workflows to the scheduler: the error it
returns, if any, and the scheduler afterwards. -/
def AddWorkflows (parseStandard : String → Option String) (workflows : List Workflow)
    (s : Scheduler) : Option String × Scheduler :=
  match addJobs parseStandard workflows s with
  | (some err, s1) => (some err, s1)
  | (none, s1) => (none, { s1 with workflows := s1.workflows ++ workflows })

/-- The statement `s.executions[name] = append(s.executions[name], execution)`. -/
def storeExecution (name : String) (execution : WorkflowExecution) (s : Scheduler) :
    Scheduler :=
  { s with executions := storeSet s.executions name (storeGet s.executions name ++ [execution]) }

/-- Function `executeWorkflow` executes a single workflow: the scheduled path. -/
def executeWorkflow (envs : Nat → TaskEnv) (workflow : Workflow) (s : Scheduler) :
    Outcome Scheduler :=
  let execution := runWorkflow envs workflow
  let s1 := storeExecution workflow.Name execution s
  match trySend s1.reportChan execution with
  | .ok ch => .ok { s1 with reportChan := ch }
  | .panic msg => .panic msg

/-- The loop of `ExecuteWorkflowNow` that looks for the first workflow of the
given name. -/
def findWorkflow : List Workflow → String → Option Workflow
  | [], _ => none
  | workflow :: rest, workflowName =>
    if workflow.Name = workflowName then some workflow else findWorkflow rest workflowName

/-- Function `ExecuteWorkflowNow` executes a workflow immediately: what it
returns, the execution or the error, and the scheduler afterwards. -/
def ExecuteWorkflowNow (envs : Nat → TaskEnv) (workflowName : String) (s : Scheduler) :
    Except String WorkflowExecution × Scheduler :=
  match findWorkflow s.workflows workflowName with
  | none => (.error ("workflow '" ++ workflowName ++ "' not found"), s)
  | some targetWorkflow =>
    let execution := runWorkflow envs targetWorkflow
    (.ok execution, storeExecution workflowName execution s)

/-- SchedulerStats represents statistics about the scheduler (the map
`NextRuns` of clock times omitted). -/
structure SchedulerStats where
  TotalWorkflows : Nat
  TotalExecutions : Nat
  SuccessfulExecutions : Nat
  FailedExecutions : Nat
  deriving DecidableEq, Repr

/-- The loop `for _, execution := range executions` of `GetStats`. -/
def countExecutions : List WorkflowExecution → SchedulerStats → SchedulerStats
  | [], stats => stats
  | execution :: rest, stats =>
    if execution.Status = "completed" then
      countExecutions rest { stats with SuccessfulExecutions := stats.SuccessfulExecutions + 1 }
    else
      countExecutions rest { stats with FailedExecutions := stats.FailedExecutions + 1 }

/-- The loop `for _, workflow := range s.workflows` of `GetStats`. -/
def statsLoop (store : ExecutionStore) : List Workflow → SchedulerStats → SchedulerStats
  | [], stats => stats
  | workflow :: rest, stats =>
    let executions := storeGet store workflow.Name
    statsLoop store rest
      (countExecutions executions
        { stats with TotalExecutions := stats.TotalExecutions + executions.length })

/-- Function `GetStats` returns scheduler statistics. -/
def GetStats (s : Scheduler) : SchedulerStats :=
  statsLoop s.executions s.workflows
    { TotalWorkflows := s.workflows.length, TotalExecutions := 0
      SuccessfulExecutions := 0, FailedExecutions := 0 }

/-- The scheduled executions of a list of jobs, one after the other: each job
is a workflow with the outside world of its run. -/
def runScheduled : List (Workflow × (Nat → TaskEnv)) → Scheduler → Outcome Scheduler
  | [], s => .ok s
  | job :: rest, s =>
    match executeWorkflow job.2 job.1 s with
    | .ok s1 => runScheduled rest s1
    | .panic msg => .panic msg

/-- The states of the scheduler reached from `NewScheduler` through calls of
`AddWorkflows` that return no error, scheduled runs of the jobs held by the
cron driver, and calls of `ExecuteWorkflowNow`. -/
inductive Reached (parseStandard : String → Option String) : Scheduler → Prop where
  | init : Reached parseStandard NewScheduler
  | add (s : Scheduler) (batch : List Workflow) :
      Reached parseStandard s → (AddWorkflows parseStandard batch s).1 = none →
      Reached parseStandard (AddWorkflows parseStandard batch s).2
  | fire (s s1 : Scheduler) (envs : Nat → TaskEnv) (w : Workflow) :
      Reached parseStandard s → w ∈ s.cronJobs → executeWorkflow envs w s = .ok s1 →
      Reached parseStandard s1
  | now (s : Scheduler) (envs : Nat → TaskEnv) (workflowName : String) :
      Reached parseStandard s →
      Reached parseStandard (ExecuteWorkflowNow envs workflowName s).2

/-- Function `Start` of the scheduler starts the cron driver; the driver of a
scheduler made by `NewScheduler` is never nil, so no error is returned. -/
def Start (s : Scheduler) : Scheduler := { s with cronRunning := true }

/-- The call `close(s.reportChan)`: closing a channel that is already closed
panics. -/
def closeChan (ch : ReportChan) : Outcome ReportChan :=
  if ch.closed = true then .panic "close of closed channel"
  else .ok { ch with closed := true }

/-- Function `Stop` stops the scheduler: the cron driver is stopped, which
starts no new job and does not wait for the jobs that are running, the shared
context is cancelled and the report channel is closed. -/
def Stop (s : Scheduler) : Outcome Scheduler :=
  match closeChan s.reportChan with
  | .ok ch => .ok { s with cronRunning := false, cancelled := true, reportChan := ch }
  | .panic msg => .panic msg

/-- The statements of `executeWorkflow` that follow the call of the runner: the
execution it returned is stored and then sent to the report channel. -/
def finishExecution (workflow : Workflow) (execution : WorkflowExecution) (s : Scheduler) :
    Outcome Scheduler :=
  let s1 := storeExecution workflow.Name execution s
  match trySend s1.reportChan execution with
  | .ok ch => .ok { s1 with reportChan := ch }
  | .panic msg => .panic msg

/-- Function `GetExecutions` returns all executions for a workflow: the
contents of the slice it returns. -/
def GetExecutions (s : Scheduler) (workflowName : String) : List WorkflowExecution :=
  storeGet s.executions workflowName

/-- Function `GetAllExecutions` returns all executions across all workflows:
the contents of the map it returns. -/
def GetAllExecutions (s : Scheduler) : ExecutionStore := s.executions

/-! ## The library facade (`goliteflow.go`)

What `ParseFile` makes of the configuration file is an argument of
`LoadConfig`; the logger is left out. -/

/-- GoliteFlow represents the main library interface: the fields `config` and
`scheduler`, `none` standing for nil. -/
structure GoliteFlow where
  config : Option WorkflowConfig
  scheduler : Option Scheduler
  deriving DecidableEq, Repr

/-- Function `New` creates a new GoliteFlow instance. -/
def New : GoliteFlow := { config := none, scheduler := none }

/-- Function `LoadConfig` loads workflow configuration from a YAML file: the
error it returns, if any, and the instance afterwards. -/
def GoliteFlow.LoadConfig (parsed : Except String WorkflowConfig) (gf : GoliteFlow) :
    Option String × GoliteFlow :=
  match parsed with
  | .error err => (some ("failed to load configuration: " ++ err), gf)
  | .ok config => (none, { gf with config := some config })

/-- Function `Start` of the facade starts the workflow scheduler: a new
scheduler is stored in the instance, the workflows of the configuration are
added to it and it is started. -/
def GoliteFlow.Start (parseStandard : String → Option String) (gf : GoliteFlow) :
    Option String × GoliteFlow :=
  match gf.config with
  | none => (some "configuration not loaded, call LoadConfig first", gf)
  | some config =>
    match AddWorkflows parseStandard config.Workflows NewScheduler with
    | (some err, s1) =>
      (some ("failed to add workflows to scheduler: " ++ err), { gf with scheduler := some s1 })
    | (none, s1) => (none, { gf with scheduler := some (GoLiteFlow.Start s1) })

/-- The loop `for _, workflow := range gf.config.Workflows` of `Run`: each
workflow is added to a temporary scheduler of its own and triggered there. The
value is the list of the executions performed, which the code only logs;
`envs n` is the outside world of the run of the workflow at position `n`. -/
def runOnce (parseStandard : String → Option String) (envs : Nat → Nat → TaskEnv) :
    List Workflow → Nat → List WorkflowExecution
  | [], _ => []
  | workflow :: rest, n =>
    let tempScheduler := NewScheduler
    match AddWorkflows parseStandard [workflow] tempScheduler with
    | (some _, _) => runOnce parseStandard envs rest (n + 1)
    | (none, tempScheduler1) =>
      match ExecuteWorkflowNow (envs n) workflow.Name tempScheduler1 with
      | (.error _, _) => runOnce parseStandard envs rest (n + 1)
      | (.ok execution, _) => execution :: runOnce parseStandard envs rest (n + 1)

/-- Function `Run` executes workflows once (non-daemon mode): the error it
returns, if any, the executions performed, and the instance afterwards. -/
def GoliteFlow.Run (parseStandard : String → Option String) (envs : Nat → Nat → TaskEnv)
    (gf : GoliteFlow) : Option String × List WorkflowExecution × GoliteFlow :=
  match gf.config with
  | none => (some "configuration not loaded, call LoadConfig first", [], gf)
  | some config => (none, runOnce parseStandard envs config.Workflows 0, gf)

/-- Function `GetStats` of the facade returns scheduler statistics, nil when
no scheduler was started. -/
def GoliteFlow.GetStats (gf : GoliteFlow) : Option SchedulerStats :=
  match gf.scheduler with
  | none => none
  | some s => some (GoLiteFlow.GetStats s)

/-- Function `GetExecutions` of the facade returns execution history for a
specific workflow, the nil slice when no scheduler was started. -/
def GoliteFlow.GetExecutions (gf : GoliteFlow) (workflowName : String) :
    List WorkflowExecution :=
  match gf.scheduler with
  | none => []
  | some s => GoLiteFlow.GetExecutions s workflowName

/-- Function `GenerateReport` generates an HTML report of execution history:
the error returned when no scheduler was started, or the data handed to the
reporter. -/
def GoliteFlow.GenerateReport (gf : GoliteFlow) : Except String ExecutionStore :=
  match gf.scheduler with
  | none => .error "scheduler not started, call Start first"
  | some s => .ok (GetAllExecutions s)

/-! ## The queries of the scheduler, with slices in memory

A Go slice is a header that points to a backing array. The statement
`copy(result, executions)` copies the elements of one backing array into
another; an element of type `WorkflowExecution` holds the header of its
`TaskResults`, not the array behind it. The definitions of this part keep the
backing arrays in an explicit memory, so that two headers with the same address
name the same storage. -/

/-- A `WorkflowExecution` as it lies in a backing array: the field
`TaskResults` is a slice header, given by the address of its backing array. -/
structure ExecutionCell where
  WorkflowID : String
  Status : String
  TaskResults : Nat
  ErrorMessage : String
  deriving DecidableEq, Repr

/-- The backing arrays of the slices of type `[]ExecutionResult` and
`[]WorkflowExecution`, by address, and the first address not yet in use. -/
structure Memory where
  results : Nat → List ExecutionResult
  cells : Nat → List ExecutionCell
  next : Nat

/-- The lookup `s.executions[workflowName]` in the map of slice headers; `none`
is the nil slice of an absent key. -/
def headerOf : List (String × Nat) → String → Option Nat
  | [], _ => none
  | (k, a) :: rest, workflowName => if k = workflowName then some a else headerOf rest workflowName

/-- The elements of the slice with the given header. -/
def Memory.cellsAt (m : Memory) : Option Nat → List ExecutionCell
  | none => []
  | some a => m.cells a

/-- The statements `result := make([]parser.WorkflowExecution, len(executions))`
and `copy(result, executions)`: a new backing array receives the elements; the
header of the new slice and the memory afterwards. -/
def Memory.copyCells (m : Memory) (executions : List ExecutionCell) : Nat × Memory :=
  (m.next, { m with cells := Function.update m.cells m.next executions, next := m.next + 1 })

/-- Function `GetExecutions` with slices in memory: the header of the slice it
returns and the memory afterwards. -/
def Memory.GetExecutions (m : Memory) (executions : List (String × Nat))
    (workflowName : String) : Nat × Memory :=
  m.copyCells (m.cellsAt (headerOf executions workflowName))

/-- Function `GetAllExecutions` with slices in memory: the loop
`for workflowName, executions := range s.executions` over the entries of the
map; the map it returns and the memory afterwards. -/
def Memory.GetAllExecutions (m : Memory) : List (String × Nat) → List (String × Nat) × Memory
  | [] => ([], m)
  | (workflowName, a) :: rest =>
    let copied := m.copyCells (m.cells a)
    let others := Memory.GetAllExecutions copied.2 rest
    ((workflowName, copied.1) :: others.1, others.2)

/-- The value of the slice of executions at an address: each element with the
contents of its `TaskResults`. -/
def Memory.read (m : Memory) (a : Nat) : List WorkflowExecution :=
  (m.cells a).map fun c =>
    { WorkflowID := c.WorkflowID, Status := c.Status
      TaskResults := m.results c.TaskResults, ErrorMessage := c.ErrorMessage }

/-- The assignment `executions[i].TaskResults[j] = r` by a holder of the slice
at address `a`. -/
def Memory.setTaskResult (m : Memory) (a i j : Nat) (r : ExecutionResult) : Memory :=
  match (m.cells a).get? i with
  | none => m
  | some c =>
    { m with results := Function.update m.results c.TaskResults
                          ((m.results c.TaskResults).set j r) }

/-- The assignment `executions[i] = c` by a holder of the slice at address `a`. -/
def Memory.setExecution (m : Memory) (a i : Nat) (c : ExecutionCell) : Memory :=
  { m with cells := Function.update m.cells a ((m.cells a).set i c) }

/-! ## The conditions of acceptance, as the specification words them -/

/-- A task has a non-empty id, a non-empty command, a retry count that is not
negative and a timeout that is empty or a parseable duration. -/
def TaskAcceptable (parseDuration : String → Option String) (t : Task) : Prop :=
  t.ID ≠ "" ∧ t.Command ≠ "" ∧ 0 ≤ t.Retry ∧ (t.Timeout = "" ∨ parseDuration t.Timeout = none)

/-- A workflow has a non-empty name, a non-empty schedule and at least one
task, every task is acceptable, and every `dependsOn` id is the id of some task
of the workflow. -/
def WorkflowAcceptable (parseDuration : String → Option String) (w : Workflow) : Prop :=
  w.Name ≠ "" ∧ w.Schedule ≠ "" ∧ w.Tasks ≠ [] ∧
  (∀ t ∈ w.Tasks, TaskAcceptable parseDuration t) ∧
  ∀ t ∈ w.Tasks, ∀ d ∈ t.DependsOn, ∃ u ∈ w.Tasks, u.ID = d

/-- A configuration has a non-empty version and at least one workflow, and
every workflow is acceptable. -/
def ConfigAcceptable (parseDuration : String → Option String) (c : WorkflowConfig) : Prop :=
  c.Version ≠ "" ∧ c.Workflows ≠ [] ∧ ∀ w ∈ c.Workflows, WorkflowAcceptable parseDuration w

/-- An error message names the workflow of index `i`: it starts with
`workflow[i]`. -/
def NamesWorkflow (i : Nat) (msg : String) : Prop :=
  ∃ rest, msg = "workflow[" ++ toString i ++ "]" ++ rest

/-! ## Notions of the workflow-level statements -/

/-- The results the tasks of `tasks` would have if every one of them were run,
the first of them as the `k`-th call of `ExecuteTask` of the run. -/
def allResults (envs : Nat → TaskEnv) (workflowName : String) :
    List Task → Nat → List ExecutionResult
  | [], _ => []
  | task :: rest, k =>
    ExecuteTask (envs k) task workflowName :: allResults envs workflowName rest (k + 1)

/-- The prefix of a list of results up to and including the first one with
`Success = false`, or the whole list when there is none. -/
def throughFirstFailure : List ExecutionResult → List ExecutionResult
  | [] => []
  | r :: rest => if r.Success = false then [r] else r :: throughFirstFailure rest

/-- Every dependency of a task of the list is the id of an earlier element of
the list, or else an earlier element is the zero task. -/
def DepsEarlier (sorted : List Task) : Prop :=
  ∀ pre t post, sorted = pre ++ t :: post →
    ∀ d ∈ t.DependsOn, ∃ u ∈ pre, u.ID = d ∨ u = Task.zero

/-- Every dependency of a task of the list is the id of a task that stands
earlier in the list. -/
def DependenciesEarlier (tasks : List Task) : Prop :=
  ∀ pre t post, tasks = pre ++ t :: post → ∀ d ∈ t.DependsOn, d ∈ pre.map Task.ID

/-- The dependency graph as the tasks declare it: `a` depends on `b` when some
task of the workflow with id `a` lists `b` in its `dependsOn`. -/
def Declares (w : Workflow) (a b : String) : Prop :=
  ∃ t ∈ w.Tasks, t.ID = a ∧ b ∈ t.DependsOn

/-! ## Example inputs -/

/-- The first task of the workflow of `TestTaskRunner_ExecuteWorkflow`. -/
def task1 : Task :=
  { ID := "task1", Command := "echo task1", Retry := 0, DependsOn := [], Timeout := "" }

/-- The second task of the workflow of `TestTaskRunner_ExecuteWorkflow`. -/
def task2 : Task :=
  { ID := "task2", Command := "echo task2", Retry := 0, DependsOn := ["task1"], Timeout := "" }

/-- The workflow of `TestTaskRunner_ExecuteWorkflow`. -/
def testWorkflow : Workflow :=
  { Name := "test-workflow", Schedule := "0 0 * * *", Tasks := [task1, task2] }

/-- The workflow of `TestYAMLParser_TopologicalSort_CircularDependency`. -/
def circularWorkflow : Workflow :=
  { Name := "test", Schedule := "0 0 * * *"
    Tasks := [{ task1 with DependsOn := ["task2"] }, { task2 with DependsOn := ["task1"] }] }

/-- An outside world in which every process exits with code 1 and the context
never completes. -/
def alwaysFailing : TaskEnv :=
  { proc := fun _ => .exitError 1 "", ctxDone := fun _ => false }

/-- The task `command with retry` of `TestTaskRunner_ExecuteTask`. -/
def retryTask : Task :=
  { ID := "test3", Command := "echo retry test", Retry := 3, DependsOn := [], Timeout := "" }

/-- An outside world in which the first process exits with code 1 and the
later ones succeed. -/
def failingOnce : TaskEnv :=
  { proc := fun i => if i = 0 then .exitError 1 "" else .ok "retry test"
    ctxDone := fun _ => false }

/-- An outside world in which the first process exits with code 1 and the
context completes during the first backoff: the later `select` statements take
the `Done` case and the later commands are not started, `cmd.Output()`
returning the error of the context. -/
def timedOut : TaskEnv :=
  { proc := fun i => if i = 0 then .exitError 1 "" else .otherError "context deadline exceeded"
    ctxDone := fun _ => true }

/-- An outside world in which every process succeeds. -/
def alwaysOk : TaskEnv :=
  { proc := fun _ => .ok "", ctxDone := fun _ => false }

/-- A task whose only dependency names no task of its workflow. -/
def danglingTask : Task :=
  { ID := "task1", Command := "echo task1", Retry := 0, DependsOn := ["missing"], Timeout := "" }

/-- A workflow in which a dependency names no task. -/
def danglingWorkflow : Workflow :=
  { Name := "test", Schedule := "0 0 * * *", Tasks := [danglingTask] }

/-- A task whose command consists of white space only. -/
def blankTask : Task :=
  { ID := "task1", Command := " \t ", Retry := 2, DependsOn := [], Timeout := "" }

/-- A stand-in for `cron.ParseStandard` that accepts the two schedules of the
scheduler tests and rejects every other string. -/
def sampleParseStandard (spec : String) : Option String :=
  if spec = "0 0 * * *" ∨ spec = "0 1 * * *" then none
  else some "expected exactly 5 fields"

/-- The first workflow of `TestScheduler_AddWorkflows`. -/
def test1 : Workflow :=
  { Name := "test1", Schedule := "0 0 * * *"
    Tasks := [{ ID := "task1", Command := "echo hello", Retry := 0, DependsOn := [], Timeout := "" }] }

/-- The workflow of `TestScheduler_AddWorkflows_InvalidCron`. -/
def invalidCronWorkflow : Workflow :=
  { Name := "test", Schedule := "invalid cron expression"
    Tasks := [{ ID := "task1", Command := "echo hello", Retry := 0, DependsOn := [], Timeout := "" }] }

/-- A configuration whose workflow has two tasks with the same id. -/
def duplicateIdConfig : WorkflowConfig :=
  { Version := "1.0"
    Workflows := [{ Name := "test", Schedule := "0 0 * * *", Tasks := [task1, task1] }] }

/-- The configuration `valid config` of `TestYAMLParser_ValidateConfig`. -/
def validConfig : WorkflowConfig :=
  { Version := "1.0"
    Workflows := [{ Name := "test", Schedule := "0 0 * * *", Tasks := [task1] }] }

/-- One scheduled run of the workflow `test1` in which every process succeeds. -/
def okJob : Workflow × (Nat → TaskEnv) := (test1, fun _ => alwaysOk)

/-- The scheduler after the workflow `test1` was registered twice in one batch
and then triggered manually once. -/
def duplicateNameState : Scheduler :=
  (ExecuteWorkflowNow (fun _ => alwaysOk) "test1"
    (AddWorkflows sampleParseStandard [test1, test1] NewScheduler).2).2

/-- The scheduler of `TestScheduler_GetStats` when `GetStats` is called: the
workflow `test1` was registered and then triggered manually once. -/
def statsTestState : Scheduler :=
  (ExecuteWorkflowNow (fun _ => alwaysOk) "test1"
    (AddWorkflows sampleParseStandard [test1] NewScheduler).2).2

/-- A task with a valid command and a negative retry count. -/
def negativeRetryTask : Task :=
  { ID := "task1", Command := "echo hello", Retry := -1, DependsOn := [], Timeout := "" }

/-- A task whose command is a single space. -/
def spaceTask : Task :=
  { ID := "task1", Command := " ", Retry := 0, DependsOn := [], Timeout := "" }

/-- A configuration with an empty version whose only workflow has no name. -/
def noVersionConfig : WorkflowConfig :=
  { Version := ""
    Workflows := [{ Name := "", Schedule := "0 0 * * *", Tasks := [task1] }] }

/-- The scheduler of `TestScheduler_StartStop` after `Start`: the workflow
`test1` is registered and the cron driver runs. -/
def startedState : Scheduler :=
  Start (AddWorkflows sampleParseStandard [test1] NewScheduler).2

/-- The instance of `TestGoliteFlow_GetStats` after `LoadConfig` and `Start`,
with the configuration `validConfig` in the place of the file. -/
def startedInstance : GoliteFlow :=
  (GoliteFlow.Start sampleParseStandard (GoliteFlow.LoadConfig (.ok validConfig) New).2).2

/-- The third task of the workflow of `TestYAMLParser_TopologicalSort`. -/
def task3 : Task :=
  { ID := "task3", Command := "echo task3", Retry := 0, DependsOn := ["task2"], Timeout := "" }

/-- The workflow of `TestYAMLParser_TopologicalSort`. -/
def chainWorkflow : Workflow :=
  { Name := "test", Schedule := "0 0 * * *", Tasks := [task1, task2, task3] }

/-- A second task with the id of `task1` and another command. -/
def task1Again : Task :=
  { ID := "task1", Command := "echo again", Retry := 0, DependsOn := [], Timeout := "" }

/-- A workflow whose two tasks have the same id. -/
def duplicateIdWorkflow : Workflow :=
  { Name := "test", Schedule := "0 0 * * *", Tasks := [task1, task1Again] }

/-- The result of the only task of `test1` when its process succeeds. -/
def okResult : ExecutionResult :=
  { TaskID := "task1", WorkflowID := "test1", ExitCode := 0, Success := true
    RetryCount := 0, Stdout := "", Stderr := "", Error := "" }

/-- The result `okResult` turned into a failure. -/
def alteredResult : ExecutionResult :=
  { okResult with ExitCode := 1, Success := false, Error := "altered" }

/-- The memory of a scheduler that stored one execution of `test1`: the task
results lie at address 0 and the history of `test1` at address 1. -/
def storedMemory : Memory :=
  { results := fun a => if a = 0 then [okResult] else []
    cells := fun a =>
      if a = 1 then
        [{ WorkflowID := "test1", Status := "completed", TaskResults := 0, ErrorMessage := "" }]
      else []
    next := 2 }

/-- The map `s.executions` of that scheduler. -/
def storedHeaders : List (String × Nat) := [("test1", 1)]

/-- The only workflow of `namelessConfig`: it has no name. -/
def namelessWorkflow : Workflow :=
  { Name := "", Schedule := "0 0 * * *", Tasks := [task1] }

/-- A configuration with a version whose only workflow has no name. -/
def namelessConfig : WorkflowConfig :=
  { Version := "1.0", Workflows := [namelessWorkflow] }

/-- A task with the id of `task1` that depends on itself. -/
def selfTask : Task :=
  { ID := "task1", Command := "echo self", Retry := 0, DependsOn := ["task1"], Timeout := "" }

/-- A workflow in which a task that depends on itself is followed by a task
with the same id and no dependency. -/
def shadowedCycleWorkflow : Workflow :=
  { Name := "test", Schedule := "0 0 * * *", Tasks := [selfTask, task1] }

/-! ## Notions used in the statements and proofs -/

/-- The resolver's bookkeeping is consistent with the list `ids` of the task
ids finished so far, in the order in which they were finished. -/
structure SortInv (deps : String → List String) (taskMap : String → Task)
    (s : SortState) (ids : List String) : Prop where
  result_eq : s.result = ids.map taskMap
  visited_iff : ∀ x, s.visited x = true ↔ x ∈ ids
  nodup : ids.Nodup
  topo : ∀ a ∈ ids, ∀ b ∈ deps a, ids.indexOf b < ids.indexOf a
  temp_fresh : ∀ x, s.temp x = true → x ∉ ids

/-- The number of keys that are not marked in `temp`. -/
def freeCount (keys : List String) (temp : String → Bool) : Nat :=
  (keys.filter (fun k => temp k = false)).length

/-! ## The maps built by the resolver -/

theorem depsOf_concat (l : List Task) (t : Task) :
    depsOf (l ++ [t]) = Function.update (depsOf l) t.ID t.DependsOn := by
  simp [depsOf, List.foldl_append]

theorem taskMapOf_concat (l : List Task) (t : Task) :
    taskMapOf (l ++ [t]) = Function.update (taskMapOf l) t.ID t := by
  simp [taskMapOf, List.foldl_append]

theorem taskMapOf_dependsOn (tasks : List Task) (x : String) :
    (taskMapOf tasks x).DependsOn = depsOf tasks x := by
  induction tasks using List.reverseRecOn with
  | nil => rfl
  | append_singleton l t ih =>
    rw [depsOf_concat, taskMapOf_concat]
    by_cases h : x = t.ID
    · subst h; simp
    · simp [Function.update_noteq h, ih]

theorem taskMapOf_of_not_mem (tasks : List Task) (x : String)
    (h : x ∉ tasks.map Task.ID) : taskMapOf tasks x = Task.zero := by
  induction tasks using List.reverseRecOn with
  | nil => rfl
  | append_singleton l t ih =>
    rw [taskMapOf_concat]
    simp only [List.map_append, List.map_cons, List.map_nil, List.mem_append,
      List.mem_singleton, not_or] at h
    rw [Function.update_noteq h.2]
    exact ih h.1

theorem taskMapOf_of_mem (tasks : List Task) (x : String)
    (h : x ∈ tasks.map Task.ID) : taskMapOf tasks x ∈ tasks ∧ (taskMapOf tasks x).ID = x := by
  induction tasks using List.reverseRecOn with
  | nil => simp at h
  | append_singleton l t ih =>
    rw [taskMapOf_concat]
    by_cases hx : x = t.ID
    · subst hx; simp
    · rw [Function.update_noteq hx]
      simp only [List.map_append, List.map_cons, List.map_nil, List.mem_append,
        List.mem_singleton] at h
      rcases h with h | h
      · exact ⟨List.mem_append_left _ (ih h).1, (ih h).2⟩
      · exact absurd h hx

theorem taskMapOf_of_nodup (tasks : List Task) (hnd : (tasks.map Task.ID).Nodup)
    (t : Task) (ht : t ∈ tasks) : taskMapOf tasks t.ID = t := by
  induction tasks using List.reverseRecOn with
  | nil => simp at ht
  | append_singleton l u ih =>
    rw [taskMapOf_concat]
    simp only [List.map_append, List.map_cons, List.map_nil] at hnd
    have hnd1 := (List.nodup_append.mp hnd).1
    have hdisj := (List.nodup_append.mp hnd).2.2
    rcases List.mem_append.mp ht with h | h
    · have hne : t.ID ≠ u.ID := by
        intro he
        exact hdisj (List.mem_map_of_mem _ h) (by simp [he])
      rw [Function.update_noteq hne]
      exact ih hnd1 h
    · have : t = u := by simpa using h
      subst this; simp

theorem depsOf_ne_nil (tasks : List Task) (x : String) (h : depsOf tasks x ≠ []) :
    x ∈ tasks.map Task.ID := by
  by_contra hx
  apply h
  rw [← taskMapOf_dependsOn, taskMapOf_of_not_mem tasks x hx]
  rfl

theorem depsOf_of_nodup (tasks : List Task) (hnd : (tasks.map Task.ID).Nodup)
    (t : Task) (ht : t ∈ tasks) : depsOf tasks t.ID = t.DependsOn := by
  rw [← taskMapOf_dependsOn, taskMapOf_of_nodup tasks hnd t ht]

/-! ## The depth-first traversal -/

section Traversal

variable (deps : String → List String) (taskMap : String → Task)

/-- A general principle for the loop over the dependencies: a property of the
state kept by every successful visit holds after the loop, and a failure or an
exhausted budget of the loop is that of one visit made in a state that has the
property. -/
theorem visitDeps_cases (v : String → SortState → VisitOutcome) (P : SortState → Prop)
    (ds : List String)
    (hstep : ∀ d ∈ ds, ∀ s s1, P s → v d s = .done s1 → P s1) :
    ∀ s, P s →
      (∀ s1, visitDeps v ds s = .done s1 → P s1) ∧
      (∀ msg, visitDeps v ds s = .failed msg → ∃ d ∈ ds, ∃ s0, P s0 ∧ v d s0 = .failed msg) ∧
      (visitDeps v ds s = .outOfFuel → ∃ d ∈ ds, ∃ s0, P s0 ∧ v d s0 = .outOfFuel) := by
  induction ds with
  | nil =>
    intro s hs
    refine ⟨?_, ?_, ?_⟩
    · intro s1 h
      simp only [visitDeps, VisitOutcome.done.injEq] at h
      exact h ▸ hs
    · intro msg h; simp [visitDeps] at h
    · intro h; simp [visitDeps] at h
  | cons d rest ih =>
    intro s hs
    have ih1 := ih (fun e he => hstep e (List.mem_cons_of_mem _ he))
    cases hv : v d s with
    | done s1 =>
      have hs1 : P s1 := hstep d (List.mem_cons_self _ _) s s1 hs hv
      obtain ⟨h1, h2, h3⟩ := ih1 s1 hs1
      refine ⟨?_, ?_, ?_⟩
      · intro s2 h
        simp only [visitDeps, hv] at h
        exact h1 s2 h
      · intro msg h
        simp only [visitDeps, hv] at h
        obtain ⟨e, he, s0, hs0, hf⟩ := h2 msg h
        exact ⟨e, List.mem_cons_of_mem _ he, s0, hs0, hf⟩
      · intro h
        simp only [visitDeps, hv] at h
        obtain ⟨e, he, s0, hs0, hf⟩ := h3 h
        exact ⟨e, List.mem_cons_of_mem _ he, s0, hs0, hf⟩
    | failed m =>
      refine ⟨?_, ?_, ?_⟩
      · intro s2 h; simp [visitDeps, hv] at h
      · intro msg h
        simp only [visitDeps, hv, VisitOutcome.failed.injEq] at h
        exact ⟨d, List.mem_cons_self _ _, s, hs, h ▸ hv⟩
      · intro h; simp [visitDeps, hv] at h
    | outOfFuel =>
      refine ⟨?_, ?_, ?_⟩
      · intro s2 h; simp [visitDeps, hv] at h
      · intro msg h; simp [visitDeps, hv] at h
      · intro _
        exact ⟨d, List.mem_cons_self _ _, s, hs, hv⟩

/-- A successful visit leaves the `temp` markers as it found them. -/
theorem visit_temp : ∀ (fuel : Nat) (taskID : String) (s s1 : SortState),
    visit deps taskMap fuel taskID s = .done s1 → s1.temp = s.temp := by
  intro fuel
  induction fuel with
  | zero => intro taskID s s1 h; simp [visit] at h
  | succ f ih =>
    intro taskID s s1 h
    unfold visit at h
    split_ifs at h with h1 h2
    · simp only [VisitOutcome.done.injEq] at h
      rw [← h]
    · cases hd : visitDeps (visit deps taskMap f) (deps taskID)
          { s with temp := Function.update s.temp taskID true } with
      | done s2 =>
        rw [hd] at h
        simp only [VisitOutcome.done.injEq] at h
        have key := (visitDeps_cases (visit deps taskMap f)
          (fun t => t.temp = Function.update s.temp taskID true) (deps taskID)
          (fun d _ t t1 ht hv => (ih d t t1 hv).trans ht) _ rfl).1 s2 hd
        rw [← h]
        simp only
        rw [key]
        funext x
        by_cases hx : x = taskID
        · subst hx
          simp only [Function.update_same]
          cases hh : s.temp x with
          | true => exact absurd hh h1
          | false => rfl
        · simp [Function.update_noteq hx]
      | failed m => rw [hd] at h; simp at h
      | outOfFuel => rw [hd] at h; simp at h

theorem freeCount_update_le (keys : List String) (temp : String → Bool) (x : String) :
    freeCount keys (Function.update temp x true) ≤ freeCount keys temp := by
  induction keys with
  | nil => simp [freeCount]
  | cons k ks ih =>
    simp only [freeCount] at ih ⊢
    by_cases hk : k = x
    · subst hk
      simp only [List.filter_cons, Function.update_same, Bool.true_eq_false, decide_False,
        Bool.false_eq_true, ↓reduceIte]
      split_ifs
      · simp only [List.length_cons]; omega
      · exact ih
    · simp only [List.filter_cons, Function.update_noteq hk]
      split_ifs
      · simp only [List.length_cons]; omega
      · exact ih

theorem freeCount_update_lt (keys : List String) (temp : String → Bool) (x : String)
    (hx : x ∈ keys) (ht : temp x = false) :
    freeCount keys (Function.update temp x true) < freeCount keys temp := by
  induction keys with
  | nil => simp at hx
  | cons k ks ih =>
    by_cases hk : k = x
    · subst hk
      have hle := freeCount_update_le ks temp k
      simp only [freeCount] at hle ⊢
      simp only [List.filter_cons, Function.update_same, Bool.true_eq_false, decide_False,
        Bool.false_eq_true, ↓reduceIte, ht, decide_True, List.length_cons]
      omega
    · have hx1 : x ∈ ks := by
        rcases List.mem_cons.mp hx with h | h
        · exact absurd h.symm hk
        · exact h
      have := ih hx1
      simp only [freeCount] at this ⊢
      simp only [List.filter_cons, Function.update_noteq hk]
      split_ifs
      · simp only [List.length_cons]; omega
      · exact this

/-- A visit never exhausts a budget larger than the number of unmarked keys. -/
theorem visit_fuel (keys : List String) (hkeys : ∀ x, deps x ≠ [] → x ∈ keys) :
    ∀ (fuel : Nat) (taskID : String) (s : SortState),
      freeCount keys s.temp < fuel → visit deps taskMap fuel taskID s ≠ .outOfFuel := by
  intro fuel
  induction fuel with
  | zero => intro taskID s h; omega
  | succ f ih =>
    intro taskID s hlt
    unfold visit
    split_ifs with h1 h2
    · simp
    · simp
    · have ht : s.temp taskID = false := by
        cases hh : s.temp taskID with
        | true => exact absurd hh h1
        | false => rfl
      cases hd : visitDeps (visit deps taskMap f) (deps taskID)
          { s with temp := Function.update s.temp taskID true } with
      | done s2 => simp
      | failed m => simp
      | outOfFuel =>
        exfalso
        have hne : deps taskID ≠ [] := by
          intro he
          rw [he] at hd
          simp [visitDeps] at hd
        have hlt2 := freeCount_update_lt keys s.temp taskID (hkeys _ hne) ht
        obtain ⟨d, _, s0, hs0, hv⟩ := (visitDeps_cases (visit deps taskMap f)
          (fun t => t.temp = Function.update s.temp taskID true) (deps taskID)
          (fun d _ t t1 ht hv => (visit_temp deps taskMap f d t t1 hv).trans ht) _ rfl).2.2 hd
        refine ih d s0 ?_ hv
        rw [hs0]
        omega

/-- The error of a visit names a task that depends on itself, directly or
transitively, provided every task marked in `temp` depends on the visited one. -/
theorem visit_failed : ∀ (fuel : Nat) (taskID : String) (s : SortState) (msg : String),
    (∀ x, s.temp x = true → Relation.TransGen (fun a b => b ∈ deps a) x taskID) →
    visit deps taskMap fuel taskID s = .failed msg →
    ∃ c, msg = cycleError c ∧ Relation.TransGen (fun a b => b ∈ deps a) c c := by
  intro fuel
  induction fuel with
  | zero => intro taskID s msg _ h; simp [visit] at h
  | succ f ih =>
    intro taskID s msg hpath h
    unfold visit at h
    split_ifs at h with h1 h2
    · simp only [VisitOutcome.failed.injEq] at h
      exact ⟨taskID, h.symm, hpath taskID h1⟩
    · cases hd : visitDeps (visit deps taskMap f) (deps taskID)
          { s with temp := Function.update s.temp taskID true } with
      | done s2 => rw [hd] at h; simp at h
      | outOfFuel => rw [hd] at h; simp at h
      | failed m =>
        rw [hd] at h
        simp only [VisitOutcome.failed.injEq] at h
        subst h
        obtain ⟨d, hdmem, s0, hs0, hv⟩ := (visitDeps_cases (visit deps taskMap f)
          (fun t => t.temp = Function.update s.temp taskID true) (deps taskID)
          (fun d _ t t1 ht hv => (visit_temp deps taskMap f d t t1 hv).trans ht) _ rfl).2.1 m hd
        refine ih d s0 m ?_ hv
        intro x hx
        rw [hs0] at hx
        by_cases hxe : x = taskID
        · subst hxe
          exact Relation.TransGen.single hdmem
        · rw [Function.update_noteq hxe] at hx
          exact Relation.TransGen.tail (hpath x hx) hdmem

/-- A successful visit marks the visited task and unmarks nothing. -/
theorem visit_visited : ∀ (fuel : Nat) (taskID : String) (s s1 : SortState),
    visit deps taskMap fuel taskID s = .done s1 →
    s1.visited taskID = true ∧ ∀ x, s.visited x = true → s1.visited x = true := by
  intro fuel
  induction fuel with
  | zero => intro taskID s s1 h; simp [visit] at h
  | succ f ih =>
    intro taskID s s1 h
    unfold visit at h
    split_ifs at h with h1 h2
    · simp only [VisitOutcome.done.injEq] at h
      subst h
      exact ⟨h2, fun _ hx => hx⟩
    · cases hd : visitDeps (visit deps taskMap f) (deps taskID)
          { s with temp := Function.update s.temp taskID true } with
      | failed m => rw [hd] at h; simp at h
      | outOfFuel => rw [hd] at h; simp at h
      | done s2 =>
        rw [hd] at h
        simp only [VisitOutcome.done.injEq] at h
        subst h
        have key := (visitDeps_cases (visit deps taskMap f)
          (fun t => ∀ x, s.visited x = true → t.visited x = true) (deps taskID)
          (fun d _ t t1 ht hv x hx => (ih d t t1 hv).2 x (ht x hx))
          { s with temp := Function.update s.temp taskID true }
          (fun _ hx => hx)).1 s2 hd
        refine ⟨by simp, ?_⟩
        intro x hx
        by_cases hxe : x = taskID
        · subst hxe; simp
        · simp only [Function.update_noteq hxe]
          exact key x hx

/-- After the loop over the dependencies every one of them is marked visited. -/
theorem visitDeps_visited (v : String → SortState → VisitOutcome)
    (hv : ∀ d s s1, v d s = .done s1 →
      s1.visited d = true ∧ ∀ x, s.visited x = true → s1.visited x = true) :
    ∀ (ds : List String) (s s1 : SortState), visitDeps v ds s = .done s1 →
      (∀ d ∈ ds, s1.visited d = true) ∧ ∀ x, s.visited x = true → s1.visited x = true := by
  intro ds
  induction ds with
  | nil =>
    intro s s1 h
    simp only [visitDeps, VisitOutcome.done.injEq] at h
    subst h
    exact ⟨by simp, fun _ hx => hx⟩
  | cons d rest ih =>
    intro s s1 h
    cases hd : v d s with
    | failed m => simp [visitDeps, hd] at h
    | outOfFuel => simp [visitDeps, hd] at h
    | done s2 =>
      simp only [visitDeps, hd] at h
      obtain ⟨h1, h2⟩ := hv d s s2 hd
      obtain ⟨h3, h4⟩ := ih s2 s1 h
      refine ⟨?_, fun x hx => h4 x (h2 x hx)⟩
      intro e he
      rcases List.mem_cons.mp he with he | he
      · subst he; exact h4 _ h1
      · exact h3 e he

/-- Marking a task that is not finished keeps the bookkeeping consistent. -/
theorem SortInv.mark {deps : String → List String} {taskMap : String → Task}
    {s : SortState} {ids : List String} (h : SortInv deps taskMap s ids)
    (taskID : String) (hv : ¬ s.visited taskID = true) :
    SortInv deps taskMap { s with temp := Function.update s.temp taskID true } ids where
  result_eq := h.result_eq
  visited_iff := h.visited_iff
  nodup := h.nodup
  topo := h.topo
  temp_fresh := by
    intro x hx
    by_cases hxe : x = taskID
    · subst hxe
      exact fun hm => hv ((h.visited_iff x).mpr hm)
    · simp only [Function.update_noteq hxe] at hx
      exact h.temp_fresh x hx

/-- Finishing a marked task whose dependencies are all finished keeps the
bookkeeping consistent, with the task appended to the finished ones. -/
theorem SortInv.finish {deps : String → List String} {taskMap : String → Task}
    {s : SortState} {ids : List String} (h : SortInv deps taskMap s ids)
    (taskID : String) (ht : s.temp taskID = true) (hd : ∀ d ∈ deps taskID, d ∈ ids) :
    SortInv deps taskMap
      { temp := Function.update s.temp taskID false
        visited := Function.update s.visited taskID true
        result := s.result ++ [taskMap taskID] } (ids ++ [taskID]) where
  result_eq := by simp [h.result_eq]
  visited_iff := by
    intro x
    by_cases hxe : x = taskID
    · subst hxe; simp
    · simp [Function.update_noteq hxe, h.visited_iff x, hxe]
  nodup := by
    have hn := h.temp_fresh taskID ht
    exact List.nodup_append.mpr ⟨h.nodup, List.nodup_singleton _, by
      intro a ha hb
      rw [List.mem_singleton] at hb
      subst hb
      exact hn ha⟩
  topo := by
    have hn := h.temp_fresh taskID ht
    intro a ha b hb
    rcases List.mem_append.mp ha with ha | ha
    · have hlt := h.topo a ha b hb
      have hbm : b ∈ ids :=
        List.indexOf_lt_length.mp (lt_of_lt_of_le hlt List.indexOf_le_length)
      rw [List.indexOf_append_of_mem ha, List.indexOf_append_of_mem hbm]
      exact hlt
    · rw [List.mem_singleton] at ha
      subst ha
      have hbm := hd b hb
      rw [List.indexOf_append_of_mem hbm, List.indexOf_append_of_not_mem hn]
      have := List.indexOf_lt_length.mpr hbm
      simp only [List.indexOf_cons_self]
      omega
  temp_fresh := by
    intro x hx
    by_cases hxe : x = taskID
    · subst hxe; simp at hx
    · simp only [Function.update_noteq hxe] at hx
      simp only [List.mem_append, List.mem_singleton, not_or]
      exact ⟨h.temp_fresh x hx, hxe⟩

/-- A successful visit keeps the bookkeeping consistent: it extends the
finished ids, and every id it adds is the visited one or a dependency of some
task. -/
theorem visit_inv : ∀ (fuel : Nat) (taskID : String) (s s1 : SortState) (ids : List String),
    SortInv deps taskMap s ids → visit deps taskMap fuel taskID s = .done s1 →
    ∃ ids1, SortInv deps taskMap s1 ids1 ∧ ids <+: ids1 ∧
      ∀ x ∈ ids1, x ∈ ids ∨ x = taskID ∨ ∃ a, x ∈ deps a := by
  intro fuel
  induction fuel with
  | zero => intro taskID s s1 ids _ h; simp [visit] at h
  | succ f ih =>
    intro taskID s s1 ids hinv h
    unfold visit at h
    split_ifs at h with h1 h2
    · simp only [VisitOutcome.done.injEq] at h
      subst h
      exact ⟨ids, hinv, List.prefix_refl _, fun x hx => Or.inl hx⟩
    · cases hd : visitDeps (visit deps taskMap f) (deps taskID)
          { s with temp := Function.update s.temp taskID true } with
      | failed m => rw [hd] at h; simp at h
      | outOfFuel => rw [hd] at h; simp at h
      | done s2 =>
        rw [hd] at h
        simp only [VisitOutcome.done.injEq] at h
        subst h
        have key := (visitDeps_cases (visit deps taskMap f)
          (fun t => t.temp = Function.update s.temp taskID true ∧
            ∃ ids1, SortInv deps taskMap t ids1 ∧ ids <+: ids1 ∧
              ∀ x ∈ ids1, x ∈ ids ∨ ∃ a, x ∈ deps a) (deps taskID)
          (by
            rintro d hdm t t1 ⟨htt, ids1, hi1, hp1, ho1⟩ hv
            refine ⟨(visit_temp deps taskMap f d t t1 hv).trans htt, ?_⟩
            obtain ⟨ids2, hi2, hp2, ho2⟩ := ih d t t1 ids1 hi1 hv
            refine ⟨ids2, hi2, hp1.trans hp2, ?_⟩
            intro x hx
            rcases ho2 x hx with hx | hx | hx
            · exact ho1 x hx
            · exact Or.inr ⟨taskID, hx ▸ hdm⟩
            · exact Or.inr hx) _
          ⟨rfl, ids, hinv.mark taskID h2, List.prefix_refl _, fun x hx => Or.inl hx⟩).1 s2 hd
        obtain ⟨htemp, ids2, hi2, hp2, ho2⟩ := key
        have hvis := (visitDeps_visited (visit deps taskMap f)
          (visit_visited deps taskMap f) (deps taskID) _ s2 hd).1
        have hfin := hi2.finish taskID (by rw [htemp]; simp)
          (fun d hdm => (hi2.visited_iff d).mp (hvis d hdm))
        refine ⟨ids2 ++ [taskID], hfin, hp2.trans (List.prefix_append _ _), ?_⟩
        intro x hx
        rcases List.mem_append.mp hx with hx | hx
        · rcases ho2 x hx with hx | hx
          · exact Or.inl hx
          · exact Or.inr (Or.inr hx)
        · exact Or.inr (Or.inl (List.mem_singleton.mp hx))

/-- The loop over the tasks of the workflow, started with no `temp` marker and
a budget larger than the number of keys: it never exhausts the budget, its
error names a task on a cycle, and on success the bookkeeping is consistent
and covers every task. -/
theorem visitTasks_spec (keys : List String) (hkeys : ∀ x, deps x ≠ [] → x ∈ keys)
    (fuel : Nat) (hfuel : keys.length < fuel) :
    ∀ (tasks : List Task) (s : SortState) (ids : List String),
      s.temp = (fun _ => false) → SortInv deps taskMap s ids →
      visitTasks deps taskMap fuel tasks s ≠ .outOfFuel ∧
      (∀ msg, visitTasks deps taskMap fuel tasks s = .failed msg →
        ∃ c, msg = cycleError c ∧ Relation.TransGen (fun a b => b ∈ deps a) c c) ∧
      (∀ s1, visitTasks deps taskMap fuel tasks s = .done s1 →
        ∃ ids1, SortInv deps taskMap s1 ids1 ∧ ids <+: ids1 ∧
          (∀ t ∈ tasks, t.ID ∈ ids1) ∧
          ∀ x ∈ ids1, x ∈ ids ∨ x ∈ tasks.map Task.ID ∨ ∃ a, x ∈ deps a) := by
  intro tasks
  induction tasks with
  | nil =>
    intro s ids _ hinv
    refine ⟨by simp [visitTasks], by simp [visitTasks], ?_⟩
    intro s1 h
    simp only [visitTasks, VisitOutcome.done.injEq] at h
    subst h
    exact ⟨ids, hinv, List.prefix_refl _, by simp, fun x hx => Or.inl hx⟩
  | cons t rest ih =>
    intro s ids htemp hinv
    by_cases hvis : s.visited t.ID = true
    · obtain ⟨h1, h2, h3⟩ := ih s ids htemp hinv
      have he : visitTasks deps taskMap fuel (t :: rest) s
          = visitTasks deps taskMap fuel rest s := by
        simp [visitTasks, hvis]
      rw [he]
      refine ⟨h1, h2, ?_⟩
      intro s1 h
      obtain ⟨ids1, hi1, hp1, hm1, ho1⟩ := h3 s1 h
      refine ⟨ids1, hi1, hp1, ?_, ?_⟩
      · intro u hu
        rcases List.mem_cons.mp hu with hu | hu
        · subst hu
          exact hp1.subset ((hinv.visited_iff _).mp hvis)
        · exact hm1 u hu
      · intro x hx
        rcases ho1 x hx with hx | hx | hx
        · exact Or.inl hx
        · exact Or.inr (Or.inl (by simp only [List.map_cons, List.mem_cons]; exact Or.inr hx))
        · exact Or.inr (Or.inr hx)
    · have hlt : freeCount keys s.temp < fuel := by
        rw [htemp]; simpa [freeCount] using hfuel
      cases hv : visit deps taskMap fuel t.ID s with
      | outOfFuel => exact absurd hv (visit_fuel deps taskMap keys hkeys fuel t.ID s hlt)
      | failed m =>
        have he : visitTasks deps taskMap fuel (t :: rest) s = .failed m := by
          simp [visitTasks, hvis, hv]
        rw [he]
        refine ⟨by simp, ?_, by simp⟩
        intro msg hmsg
        simp only [VisitOutcome.failed.injEq] at hmsg
        subst hmsg
        exact visit_failed deps taskMap fuel t.ID s m (by rw [htemp]; simp) hv
      | done s2 =>
        have he : visitTasks deps taskMap fuel (t :: rest) s
            = visitTasks deps taskMap fuel rest s2 := by
          simp [visitTasks, hvis, hv]
        rw [he]
        obtain ⟨ids2, hi2, hp2, ho2⟩ := visit_inv deps taskMap fuel t.ID s s2 ids hinv hv
        have htemp2 : s2.temp = (fun _ => false) :=
          (visit_temp deps taskMap fuel t.ID s s2 hv).trans htemp
        have htm : t.ID ∈ ids2 :=
          (hi2.visited_iff _).mp (visit_visited deps taskMap fuel t.ID s s2 hv).1
        obtain ⟨h1, h2, h3⟩ := ih s2 ids2 htemp2 hi2
        refine ⟨h1, h2, ?_⟩
        intro s1 h
        obtain ⟨ids1, hi1, hp1, hm1, ho1⟩ := h3 s1 h
        refine ⟨ids1, hi1, hp2.trans hp1, ?_, ?_⟩
        · intro u hu
          rcases List.mem_cons.mp hu with hu | hu
          · subst hu
            exact hp1.subset htm
          · exact hm1 u hu
        · intro x hx
          rcases ho1 x hx with hx | hx | hx
          · rcases ho2 x hx with hx | hx | hx
            · exact Or.inl hx
            · exact Or.inr (Or.inl (by simp [hx]))
            · exact Or.inr (Or.inr hx)
          · exact Or.inr (Or.inl (by simp only [List.map_cons, List.mem_cons]; exact Or.inr hx))
          · exact Or.inr (Or.inr hx)

end Traversal

/-! ## The resolver as a whole -/

theorem SortInv.init (deps : String → List String) (taskMap : String → Task) :
    SortInv deps taskMap { visited := fun _ => false, temp := fun _ => false, result := [] } [] where
  result_eq := rfl
  visited_iff := by simp
  nodup := List.nodup_nil
  topo := by simp
  temp_fresh := by simp

/-- The three facts about the run of the resolver on a workflow. -/
theorem sort_spec (w : Workflow) :
    sortTasksByDependencies w ≠ .outOfFuel ∧
    (∀ msg, sortTasksByDependencies w = .error msg →
      ∃ c, msg = cycleError c ∧ Relation.TransGen (DependsOn w) c c) ∧
    (∀ order, sortTasksByDependencies w = .order order →
      ∃ ids : List String, order = ids.map (taskMapOf w.Tasks) ∧ ids.Nodup ∧
        (∀ a ∈ ids, ∀ b ∈ depsOf w.Tasks a, ids.indexOf b < ids.indexOf a) ∧
        (∀ t ∈ w.Tasks, t.ID ∈ ids) ∧
        ∀ x ∈ ids, x ∈ w.Tasks.map Task.ID ∨ ∃ a, x ∈ depsOf w.Tasks a) := by
  have hkeys : ∀ x, depsOf w.Tasks x ≠ [] → x ∈ w.Tasks.map Task.ID := depsOf_ne_nil w.Tasks
  have hfuel : (w.Tasks.map Task.ID).length < sortFuel w := by simp [sortFuel]
  obtain ⟨h1, h2, h3⟩ := visitTasks_spec (depsOf w.Tasks) (taskMapOf w.Tasks)
    (w.Tasks.map Task.ID) hkeys (sortFuel w) hfuel w.Tasks
    { visited := fun _ => false, temp := fun _ => false, result := [] } [] rfl
    (SortInv.init _ _)
  unfold sortTasksByDependencies
  cases hv : visitTasks (depsOf w.Tasks) (taskMapOf w.Tasks) (sortFuel w) w.Tasks
      { visited := fun _ => false, temp := fun _ => false, result := [] } with
  | outOfFuel => exact absurd hv h1
  | failed m =>
    refine ⟨by simp, ?_, by simp⟩
    intro msg hmsg
    simp only [SortResult.error.injEq] at hmsg
    subst hmsg
    exact h2 m hv
  | done s1 =>
    refine ⟨by simp, by simp, ?_⟩
    intro order ho
    simp only [SortResult.order.injEq] at ho
    subst ho
    obtain ⟨ids1, hi1, _, hm1, ho1⟩ := h3 s1 hv
    refine ⟨ids1, hi1.result_eq, hi1.nodup, hi1.topo, hm1, ?_⟩
    intro x hx
    rcases ho1 x hx with hx | hx | hx
    · simp at hx
    · exact Or.inl hx
    · exact Or.inr hx

/-- Along a chain of dependencies the position in a resolved order decreases. -/
theorem indexOf_lt_of_transGen (w : Workflow) (ids : List String)
    (htopo : ∀ a ∈ ids, ∀ b ∈ depsOf w.Tasks a, ids.indexOf b < ids.indexOf a)
    (hall : ∀ t ∈ w.Tasks, t.ID ∈ ids) (a b : String)
    (h : Relation.TransGen (DependsOn w) a b) : ids.indexOf b < ids.indexOf a := by
  have hmem : ∀ x y, DependsOn w x y → x ∈ ids := by
    intro x y hxy
    have hne : depsOf w.Tasks x ≠ [] := by
      intro he
      unfold DependsOn at hxy
      rw [he] at hxy
      simp at hxy
    obtain ⟨t, ht, hte⟩ := List.mem_map.mp (depsOf_ne_nil w.Tasks x hne)
    exact hte ▸ hall t ht
  induction h with
  | single hab => exact htopo a (hmem a _ hab) _ hab
  | tail _ hbc ih => exact lt_trans (htopo _ (hmem _ _ hbc) _ hbc) ih

/-- For pairwise distinct task ids the recorded graph is the one the tasks
declare: `a` depends on `b` exactly when the task with id `a` lists `b`. -/
theorem dependsOn_iff_of_nodup (w : Workflow) (hnd : (w.Tasks.map Task.ID).Nodup)
    (a b : String) : DependsOn w a b ↔ ∃ t ∈ w.Tasks, t.ID = a ∧ b ∈ t.DependsOn := by
  constructor
  · intro h
    have hne : depsOf w.Tasks a ≠ [] := by
      intro he
      unfold DependsOn at h
      rw [he] at h
      simp at h
    obtain ⟨t, ht, hte⟩ := List.mem_map.mp (depsOf_ne_nil w.Tasks a hne)
    refine ⟨t, ht, hte, ?_⟩
    unfold DependsOn at h
    rw [← hte, depsOf_of_nodup w.Tasks hnd t ht] at h
    exact h
  · rintro ⟨t, ht, hte, hb⟩
    unfold DependsOn
    rw [← hte, depsOf_of_nodup w.Tasks hnd t ht]
    exact hb

/-- A graph whose edges all decrease a rank has no cycle. -/
theorem acyclic_of_rank (w : Workflow) (r : String → Nat)
    (h : ∀ a b, DependsOn w a b → r b < r a) (a : String) :
    ¬ Relation.TransGen (DependsOn w) a a := by
  have key : ∀ x y, Relation.TransGen (DependsOn w) x y → r y < r x := by
    intro x y hxy
    induction hxy with
    | single hab => exact h _ _ hab
    | tail _ hbc ih => exact lt_trans (h _ _ hbc) ih
  intro hc
  exact lt_irrefl _ (key a a hc)

/-- In a workflow whose dependencies all name tasks, every id of a resolved
order is the id of a task. -/
theorem ids_subset_keys (w : Workflow)
    (hclosed : ∀ t ∈ w.Tasks, ∀ d ∈ t.DependsOn, d ∈ w.Tasks.map Task.ID)
    (ids : List String)
    (horigin : ∀ x ∈ ids, x ∈ w.Tasks.map Task.ID ∨ ∃ a, x ∈ depsOf w.Tasks a) :
    ∀ x ∈ ids, x ∈ w.Tasks.map Task.ID := by
  intro x hx
  rcases horigin x hx with h | ⟨a, ha⟩
  · exact h
  · have hne : depsOf w.Tasks a ≠ [] := by
      intro he
      rw [he] at ha
      simp at ha
    have hmem := taskMapOf_of_mem w.Tasks a (depsOf_ne_nil w.Tasks a hne)
    rw [← taskMapOf_dependsOn] at ha
    exact hclosed _ hmem.1 x ha

/-- The test workflow has no dependency cycle. -/
theorem testWorkflow_acyclic (a : String) :
    ¬ Relation.TransGen (DependsOn testWorkflow) a a := by
  apply acyclic_of_rank testWorkflow (fun x => if x = "task2" then 1 else 0)
  intro x y hxy
  simp only [DependsOn, depsOf, testWorkflow, task1, task2, List.foldl_cons, List.foldl_nil,
    Function.update_apply] at hxy
  split_ifs at hxy with h1 h2 <;> simp at hxy
  subst h1 hxy
  decide

/-! ## The task executor: first facts -/

theorem retryLoop_taskID (env : TaskEnv) (command : String) (maxRetries : Int) :
    ∀ (n attempt : Nat) (st : RetryState),
      (retryLoop env command maxRetries n attempt st).result.TaskID = st.result.TaskID := by
  intro n
  induction n with
  | zero => intro attempt st; rfl
  | succ n ih =>
    intro attempt st
    unfold retryLoop
    dsimp only
    split_ifs <;> simp [ih]

/-- The iteration bound of the retry loop is enough: once it covers the
attempts that remain, a larger bound gives the same result. -/
theorem retryLoop_bound_enough (env : TaskEnv) (command : String) (maxRetries : Int) :
    ∀ (n extra attempt : Nat) (st : RetryState), maxRetries ≤ (attempt : Int) + n →
      retryLoop env command maxRetries (n + extra) attempt st
        = retryLoop env command maxRetries n attempt st := by
  intro n
  induction n with
  | zero =>
    intro extra attempt st h
    have hg : ¬ (attempt : Int) < maxRetries := by
      simp only [Nat.cast_zero, add_zero] at h
      omega
    cases extra with
    | zero => rfl
    | succ e =>
      rw [Nat.zero_add, retryLoop, retryLoop]
      simp [hg]
  | succ n ih =>
    intro extra attempt st h
    have hstep : ∀ st1, retryLoop env command maxRetries (n + extra) (attempt + 1) st1
        = retryLoop env command maxRetries n (attempt + 1) st1 :=
      fun st1 => ih extra (attempt + 1) st1 (by push_cast at h ⊢; omega)
    rw [show n + 1 + extra = (n + extra) + 1 by omega, retryLoop, retryLoop]
    dsimp only
    simp only [hstep]

theorem ExecuteTask_taskID (env : TaskEnv) (task : Task) (workflowID : String) :
    (ExecuteTask env task workflowID).TaskID = task.ID := by
  unfold ExecuteTask runTask
  simp only
  split
  · split_ifs <;> simp [retryLoop_taskID, initialState]
  · simp [retryLoop_taskID, initialState]

/-- Running the zero task fails: its command is empty. -/
theorem ExecuteTask_zero (env : TaskEnv) (workflowID : String) :
    (ExecuteTask env Task.zero workflowID).Success = false := by
  rfl

/-- One iteration of the retry loop whose command exits with code 0: the loop
is left with the merged result. -/
theorem retryLoop_success (env : TaskEnv) (command : String) (maxRetries : Int)
    (n attempt : Nat) (st : RetryState) (hg : (attempt : Int) < maxRetries)
    (h0 : (executeCommand (env.proc attempt) command).ExitCode = 0) :
    retryLoop env command maxRetries (n + 1) attempt st =
      { st with
        result :=
          { st.result with
            RetryCount := attempt
            ExitCode := 0
            Stdout := (executeCommand (env.proc attempt) command).Stdout
            Stderr := (executeCommand (env.proc attempt) command).Stderr
            Error := (executeCommand (env.proc attempt) command).Error
            Success := true }
        attempts := st.attempts + 1 } := by
  unfold retryLoop
  simp [hg, h0]

/-- One iteration of the retry loop whose command exits with a code other than
0: the loop goes on with the next attempt, whether or not the context
completed during the backoff. -/
theorem retryLoop_failure (env : TaskEnv) (command : String) (maxRetries : Int)
    (n attempt : Nat) (st : RetryState) (hg : (attempt : Int) < maxRetries)
    (hne : (executeCommand (env.proc attempt) command).ExitCode ≠ 0) :
    ∃ st1 : RetryState,
      retryLoop env command maxRetries (n + 1) attempt st
        = retryLoop env command maxRetries n (attempt + 1) st1 ∧
      st1.attempts = st.attempts + 1 ∧
      st1.backoffs = st.backoffs ++
        (if (attempt : Int) < maxRetries - 1 then [calculateBackoff attempt] else []) ∧
      st1.result.Success = false ∧
      st1.lastErr = some ("command failed with exit code "
        ++ toString (executeCommand (env.proc attempt) command).ExitCode
        ++ ": " ++ (executeCommand (env.proc attempt) command).Error) ∧
      st1.result.ExitCode = (executeCommand (env.proc attempt) command).ExitCode ∧
      st1.result.RetryCount = attempt ∧
      st1.result.TaskID = st.result.TaskID ∧
      st1.result.WorkflowID = st.result.WorkflowID := by
  rw [retryLoop]
  dsimp only
  by_cases hb : (attempt : Int) < maxRetries - 1
  · by_cases hc : env.ctxDone attempt = true
    · simp only [hg, hne, hb, hc, decide_False, Bool.false_eq_true, ↓reduceIte]
      refine ⟨_, rfl, ?_⟩
      simp
    · simp only [hg, hne, hb, hc, decide_False, Bool.false_eq_true, ↓reduceIte]
      refine ⟨_, rfl, ?_⟩
      simp [hne]
  · simp only [hg, hne, hb, decide_False, Bool.false_eq_true, ↓reduceIte]
    refine ⟨_, rfl, ?_⟩
    simp [hne]

/-- The retry loop when every attempt fails: it uses all its iterations and
computes the backoff of every attempt but the last. -/
theorem retryLoop_all_fail (env : TaskEnv) (command : String) (maxRetries : Int)
    (hfail : ∀ i, (executeCommand (env.proc i) command).ExitCode ≠ 0) :
    ∀ (n attempt : Nat) (st : RetryState), (attempt : Int) + n = maxRetries →
      (retryLoop env command maxRetries n attempt st).attempts = st.attempts + n ∧
      (retryLoop env command maxRetries n attempt st).backoffs
        = st.backoffs ++ (List.range' attempt (n - 1)).map (fun i => calculateBackoff (i : Nat)) ∧
      (0 < n → (retryLoop env command maxRetries n attempt st).result.Success = false) := by
  intro n
  induction n with
  | zero => intro attempt st _; simp [retryLoop]
  | succ n ih =>
    intro attempt st hsum
    have hg : (attempt : Int) < maxRetries := by omega
    obtain ⟨st1, heq, hatt, hback, hsucc, _, _, _, _, _⟩ :=
      retryLoop_failure env command maxRetries n attempt st hg (hfail attempt)
    obtain ⟨ih1, ih2, ih3⟩ := ih (attempt + 1) st1 (by push_cast; omega)
    rw [heq]
    refine ⟨by rw [ih1, hatt]; omega, ?_, ?_⟩
    · rw [ih2, hback]
      cases n with
      | zero =>
        have : ¬ (attempt : Int) < maxRetries - 1 := by omega
        simp [this]
      | succ n =>
        have : (attempt : Int) < maxRetries - 1 := by push_cast at hsum; omega
        simp [this, List.range'_succ]
    · intro _
      cases n with
      | zero => simpa [retryLoop] using hsucc
      | succ n => exact ih3 (by omega)

/-- The retry loop when attempt `k` is the first to exit with code 0: it stops
there, with the merged result of that attempt. -/
theorem retryLoop_first_success (env : TaskEnv) (command : String) (maxRetries : Int)
    (k : Nat) (hk : (k : Int) < maxRetries)
    (hsucc : (executeCommand (env.proc k) command).ExitCode = 0) :
    ∀ (n attempt : Nat) (st : RetryState), (attempt : Int) + n = maxRetries → attempt ≤ k →
      (∀ i, attempt ≤ i → i < k → (executeCommand (env.proc i) command).ExitCode ≠ 0) →
      (retryLoop env command maxRetries n attempt st).attempts = st.attempts + (k + 1 - attempt) ∧
      (retryLoop env command maxRetries n attempt st).result =
        { st.result with
          RetryCount := k
          ExitCode := 0
          Stdout := (executeCommand (env.proc k) command).Stdout
          Stderr := (executeCommand (env.proc k) command).Stderr
          Error := (executeCommand (env.proc k) command).Error
          Success := true } := by
  intro n
  induction n with
  | zero => intro attempt st hsum hle _; omega
  | succ n ih =>
    intro attempt st hsum hle hfail
    have hg : (attempt : Int) < maxRetries := by omega
    by_cases hak : attempt = k
    · subst hak
      rw [retryLoop_success env command maxRetries n attempt st hg hsucc]
      exact ⟨by simp, rfl⟩
    · have hlt : attempt < k := lt_of_le_of_ne hle hak
      obtain ⟨st1, heq, hatt, _, _, _, _, _, hT, hW⟩ :=
        retryLoop_failure env command maxRetries n attempt st hg (hfail attempt le_rfl hlt)
      obtain ⟨ih1, ih2⟩ := ih (attempt + 1) st1 (by push_cast; omega) hlt
        (fun i hi hik => hfail i (by omega) hik)
      rw [heq]
      refine ⟨by rw [ih1, hatt]; omega, ?_⟩
      rw [ih2]
      simp only [hT, hW]

theorem runTask_attempts (env : TaskEnv) (task : Task) (workflowID : String) :
    (runTask env task workflowID).attempts
      = (retryLoop env task.Command (maxRetriesOf task) (maxRetriesOf task).toNat 0
          (initialState task workflowID)).attempts := by
  unfold runTask
  simp only
  split
  · split_ifs <;> rfl
  · rfl

theorem runTask_backoffs (env : TaskEnv) (task : Task) (workflowID : String) :
    (runTask env task workflowID).backoffs
      = (retryLoop env task.Command (maxRetriesOf task) (maxRetriesOf task).toNat 0
          (initialState task workflowID)).backoffs := by
  unfold runTask
  simp only
  split
  · split_ifs <;> rfl
  · rfl

theorem runTask_success (env : TaskEnv) (task : Task) (workflowID : String) :
    (runTask env task workflowID).result.Success
      = (retryLoop env task.Command (maxRetriesOf task) (maxRetriesOf task).toNat 0
          (initialState task workflowID)).result.Success := by
  unfold runTask
  simp only
  split
  · split_ifs <;> rfl
  · rfl

/-- A result with `Success = true` is returned as the loop left it. -/
theorem runTask_result_of_success (env : TaskEnv) (task : Task) (workflowID : String)
    (h : (retryLoop env task.Command (maxRetriesOf task) (maxRetriesOf task).toNat 0
          (initialState task workflowID)).result.Success = true) :
    (runTask env task workflowID).result
      = (retryLoop env task.Command (maxRetriesOf task) (maxRetriesOf task).toNat 0
          (initialState task workflowID)).result := by
  unfold runTask
  simp only
  split
  · split_ifs with hf
    · rw [h] at hf; exact absurd hf (by simp)
    · rfl
  · rfl

/-- A command that exits with code 0 reports no error. -/
theorem executeCommand_error_of_exitCode_zero (proc : ProcOutcome) (command : String)
    (h : (executeCommand proc command).ExitCode = 0) : (executeCommand proc command).Error = "" := by
  unfold executeCommand at h ⊢
  simp only at h ⊢
  split_ifs at h ⊢ with hp
  · simp at h
  · cases proc with
    | ok stdout => rfl
    | exitError code stderr => rfl
    | otherError msg => simp at h

/-- Below the point of overflow the backoff is the minimum of `2^n` seconds and
five minutes. -/
theorem calculateBackoff_of_le (n : Nat) (h : n ≤ 33) :
    calculateBackoff n = min (2 ^ n * second) (5 * minute) := by
  interval_cases n <;> decide

/-! ## The workflow executor: the loop over the resolved order -/

theorem allResults_length (envs : Nat → TaskEnv) (name : String) :
    ∀ (tasks : List Task) (k : Nat), (allResults envs name tasks k).length = tasks.length := by
  intro tasks
  induction tasks with
  | nil => intro k; rfl
  | cons t rest ih => intro k; simp [allResults, ih]

theorem allResults_append (envs : Nat → TaskEnv) (name : String) :
    ∀ (pre rest : List Task) (k : Nat),
      allResults envs name (pre ++ rest) k
        = allResults envs name pre k ++ allResults envs name rest (k + pre.length) := by
  intro pre
  induction pre with
  | nil => intro rest k; simp [allResults]
  | cons t pre ih =>
    intro rest k
    have h := ih rest (k + 1)
    have e : k + 1 + pre.length = k + (pre.length + 1) := by omega
    rw [e] at h
    show ExecuteTask (envs k) t name :: allResults envs name (pre ++ rest) (k + 1) = _
    rw [h]
    simp [allResults]

theorem allResults_map_taskID (envs : Nat → TaskEnv) (name : String) :
    ∀ (tasks : List Task) (k : Nat),
      (allResults envs name tasks k).map ExecutionResult.TaskID = tasks.map Task.ID := by
  intro tasks
  induction tasks with
  | nil => intro k; rfl
  | cons t rest ih => intro k; simp [allResults, ih, ExecuteTask_taskID]

theorem dependenciesCompleted_eq_true (completedTasks : String → Bool) :
    ∀ ds : List String, (∀ d ∈ ds, completedTasks d = true) →
      dependenciesCompleted completedTasks ds = true := by
  intro ds
  induction ds with
  | nil => intro _; rfl
  | cons d rest ih =>
    intro h
    have hd := h d (List.mem_cons_self _ _)
    simp only [dependenciesCompleted, hd, Bool.true_eq_false, ↓reduceIte]
    exact ih (fun e he => h e (List.mem_cons_of_mem _ he))

theorem dependenciesCompleted_true (completedTasks : String → Bool) :
    ∀ ds : List String, dependenciesCompleted completedTasks ds = true →
      ∀ d ∈ ds, completedTasks d = true := by
  intro ds
  induction ds with
  | nil => intro _ d hd; simp at hd
  | cons e rest ih =>
    intro h d hd
    simp only [dependenciesCompleted] at h
    split_ifs at h with he
    have he' : completedTasks e = true := by simpa using he
    rcases List.mem_cons.mp hd with hd | hd
    · exact hd ▸ he'
    · exact ih h d hd

/-- The loop of `ExecuteWorkflow`, entered after the tasks of `pre` have all run
with success: the dependency check never stops it, it appends the results up
to and including the first failure, and the status is `completed` exactly when
no result fails. -/
theorem runTasks_spec (envs : Nat → TaskEnv) (name : String) :
    ∀ (rest pre : List Task) (completedTasks : String → Bool) (e : WorkflowExecution),
      DepsEarlier (pre ++ rest) →
      (∀ x, completedTasks x = true ↔ x ∈ pre.map Task.ID) →
      (∀ r ∈ allResults envs name pre 0, r.Success = true) →
      (runTasks envs name rest pre.length completedTasks e).TaskResults
          = e.TaskResults ++ throughFirstFailure (allResults envs name rest pre.length) ∧
      (runTasks envs name rest pre.length completedTasks e).WorkflowID = e.WorkflowID ∧
      ((∀ r ∈ allResults envs name rest pre.length, r.Success = true) →
        (runTasks envs name rest pre.length completedTasks e).Status = "completed") ∧
      ((∃ r ∈ allResults envs name rest pre.length, r.Success = false) →
        (runTasks envs name rest pre.length completedTasks e).Status = "failed" ∧
        ∃ t ∈ rest, ∃ err, (runTasks envs name rest pre.length completedTasks e).ErrorMessage
          = "task '" ++ t.ID ++ "' failed: " ++ err) := by
  intro rest
  induction rest with
  | nil =>
    intro pre c e _ _ _
    simp [runTasks, allResults, throughFirstFailure]
  | cons t rest ih =>
    intro pre c e hdeps hc hpre
    have hcheck : areDependenciesCompleted t c = true := by
      unfold areDependenciesCompleted
      apply dependenciesCompleted_eq_true
      intro d hd
      obtain ⟨u, hu, hud⟩ := hdeps pre t rest rfl d hd
      rcases hud with hud | hud
      · exact (hc d).mpr (hud ▸ List.mem_map_of_mem _ hu)
      · exfalso
        subst hud
        obtain ⟨p1, p2, hp⟩ := List.append_of_mem hu
        have hmem : ExecuteTask (envs p1.length) Task.zero name ∈ allResults envs name pre 0 := by
          rw [hp, allResults_append]
          simp [allResults]
        have := hpre _ hmem
        rw [ExecuteTask_zero] at this
        exact Bool.false_ne_true this
    by_cases hsucc : (ExecuteTask (envs pre.length) t name).Success = false
    · simp only [runTasks, hcheck, Bool.true_eq_false, ↓reduceIte, hsucc, allResults,
        throughFirstFailure, true_and]
      refine ⟨?_, ?_⟩
      · intro h
        have := h _ (List.mem_cons_self _ _)
        rw [hsucc] at this
        exact absurd this Bool.false_ne_true
      · intro _
        exact ⟨t, List.mem_cons_self _ _, _, rfl⟩
    · have hsucc' : (ExecuteTask (envs pre.length) t name).Success = true := by
        simpa using hsucc
      have hdeps' : DepsEarlier ((pre ++ [t]) ++ rest) := by simpa using hdeps
      have hc' : ∀ x, Function.update c t.ID true x = true ↔ x ∈ (pre ++ [t]).map Task.ID := by
        intro x
        by_cases hx : x = t.ID
        · subst hx; simp
        · simp [Function.update_noteq hx, hc x, hx]
      have hpre' : ∀ r ∈ allResults envs name (pre ++ [t]) 0, r.Success = true := by
        intro r hr
        rw [allResults_append] at hr
        rcases List.mem_append.mp hr with hr | hr
        · exact hpre r hr
        · simp only [allResults, zero_add, List.mem_singleton] at hr
          exact hr ▸ hsucc'
      have hlen : (pre ++ [t]).length = pre.length + 1 := by simp
      obtain ⟨h1, h2, h3, h4⟩ := ih (pre ++ [t]) (Function.update c t.ID true)
        { e with TaskResults := e.TaskResults ++ [ExecuteTask (envs pre.length) t name] }
        hdeps' hc' hpre'
      rw [hlen] at h1 h2 h3 h4
      simp only [runTasks, hcheck, Bool.true_eq_false, ↓reduceIte, hsucc', allResults,
        throughFirstFailure]
      refine ⟨by rw [h1]; simp, h2, ?_, ?_⟩
      · intro h
        exact h3 (fun r hr => h r (List.mem_cons_of_mem _ hr))
      · rintro ⟨r, hr, hrf⟩
        rcases List.mem_cons.mp hr with hr | hr
        · rw [hr, hsucc'] at hrf
          exact absurd hrf (by simp)
        · obtain ⟨hs, u, hu, err, herr⟩ := h4 ⟨r, hr, hrf⟩
          exact ⟨hs, u, List.mem_cons_of_mem _ hu, err, herr⟩

/-- The order returned by the resolver lists, before each task, a task for
every dependency of it: the task with that id, or the zero task when no task
has that id. -/
theorem sort_depsEarlier (w : Workflow) (order : List Task)
    (hs : sortTasksByDependencies w = .order order) : DepsEarlier order := by
  obtain ⟨ids, hres, hnodup, htopo, _, _⟩ := (sort_spec w).2.2 order hs
  intro pre t post hsplit d hd
  rw [hres] at hsplit
  obtain ⟨l1, l2, hids, hl1, hl2⟩ := List.map_eq_append_iff.mp hsplit
  cases l2 with
  | nil => simp at hl2
  | cons x q =>
    simp only [List.map_cons, List.cons.injEq] at hl2
    obtain ⟨hx, _⟩ := hl2
    have hxnot : x ∉ l1 := by
      rw [hids] at hnodup
      intro hm
      exact (List.nodup_append.mp hnodup).2.2 hm (List.mem_cons_self _ _)
    have hxidx : ids.indexOf x = l1.length := by
      rw [hids, List.indexOf_append_of_not_mem hxnot]
      simp
    have hdx : d ∈ depsOf w.Tasks x := by
      rw [← taskMapOf_dependsOn, hx]; exact hd
    have hlt := htopo x (by rw [hids]; simp) d hdx
    rw [hxidx] at hlt
    have hdl1 : d ∈ l1 := by
      by_contra hn
      rw [hids, List.indexOf_append_of_not_mem hn] at hlt
      omega
    refine ⟨taskMapOf w.Tasks d, hl1 ▸ List.mem_map_of_mem _ hdl1, ?_⟩
    by_cases hk : d ∈ w.Tasks.map Task.ID
    · exact Or.inl (taskMapOf_of_mem w.Tasks d hk).2
    · exact Or.inr (taskMapOf_of_not_mem w.Tasks d hk)

theorem throughFirstFailure_prefix :
    ∀ rs : List ExecutionResult, throughFirstFailure rs <+: rs := by
  intro rs
  induction rs with
  | nil => exact List.prefix_refl _
  | cons r rest ih =>
    unfold throughFirstFailure
    split_ifs
    · exact ⟨rest, rfl⟩
    · exact (List.prefix_cons_inj r).mpr ih

theorem throughFirstFailure_of_success :
    ∀ rs : List ExecutionResult, (∀ r ∈ rs, r.Success = true) → throughFirstFailure rs = rs := by
  intro rs
  induction rs with
  | nil => intro _; rfl
  | cons r rest ih =>
    intro h
    have hr := h r (List.mem_cons_self _ _)
    simp only [throughFirstFailure, hr, Bool.true_eq_false, ↓reduceIte, List.cons.injEq, true_and]
    exact ih (fun x hx => h x (List.mem_cons_of_mem _ hx))

/-- Every result but the last of the attempted prefix is a success. -/
theorem throughFirstFailure_success_of_lt :
    ∀ (rs : List ExecutionResult) (j : Nat) (r : ExecutionResult),
      (throughFirstFailure rs)[j]? = some r → j + 1 < (throughFirstFailure rs).length →
      r.Success = true := by
  intro rs
  induction rs with
  | nil => intro j r h; simp [throughFirstFailure] at h
  | cons x rest ih =>
    intro j r h hlt
    unfold throughFirstFailure at h hlt
    split_ifs at h hlt with hx
    · simp at hlt
    · cases j with
      | zero =>
        simp only [List.getElem?_cons_zero, Option.some.injEq] at h
        subst h
        simpa using hx
      | succ j =>
        simp only [List.getElem?_cons_succ] at h
        simp only [List.length_cons] at hlt
        exact ih j r h (by omega)

/-- A failure among the results shows in the attempted prefix, whose length
then tells where the first failure is. -/
theorem throughFirstFailure_length_eq :
    ∀ rs : List ExecutionResult, (throughFirstFailure rs).length = rs.length →
      (∀ r ∈ throughFirstFailure rs, r.Success = true) → ∀ r ∈ rs, r.Success = true := by
  intro rs hlen hall
  have hp := throughFirstFailure_prefix rs
  have : throughFirstFailure rs = rs := by
    rw [List.prefix_iff_eq_take.mp hp, hlen, List.take_length]
  rw [this] at hall
  exact hall

theorem allResults_getElem? (envs : Nat → TaskEnv) (name : String) :
    ∀ (tasks : List Task) (k i : Nat),
      (allResults envs name tasks k)[i]?
        = (tasks[i]?).map (fun t => ExecuteTask (envs (k + i)) t name) := by
  intro tasks
  induction tasks with
  | nil => intro k i; simp [allResults]
  | cons t rest ih =>
    intro k i
    cases i with
    | zero => simp [allResults]
    | succ i =>
      simp only [allResults, List.getElem?_cons_succ, ih]
      rw [show k + 1 + i = k + (i + 1) by omega]

theorem allResults_forall₂ (envs : Nat → TaskEnv) (name : String) :
    ∀ (tasks : List Task) (k : Nat), (∀ r ∈ allResults envs name tasks k, r.Success = true) →
      List.Forall₂ (fun (t : Task) (r : ExecutionResult) => r.TaskID = t.ID ∧ r.Success = true)
        tasks (allResults envs name tasks k) := by
  intro tasks
  induction tasks with
  | nil => intro k _; exact List.Forall₂.nil
  | cons t rest ih =>
    intro k h
    simp only [allResults] at h ⊢
    exact List.Forall₂.cons ⟨ExecuteTask_taskID _ _ _, h _ (List.mem_cons_self _ _)⟩
      (ih (k + 1) (fun r hr => h r (List.mem_cons_of_mem _ hr)))

theorem forall₂_success {tasks : List Task} {rs : List ExecutionResult}
    (h : List.Forall₂ (fun (t : Task) (r : ExecutionResult) => r.TaskID = t.ID ∧ r.Success = true)
      tasks rs) : ∀ r ∈ rs, r.Success = true := by
  induction h with
  | nil => simp
  | cons hab _ ih =>
    intro r hr
    rcases List.mem_cons.mp hr with hr | hr
    · exact hr ▸ hab.2
    · exact ih r hr

/-- The execution returned when the resolver returns an order. -/
theorem ExecuteWorkflow_of_order (envs : Nat → TaskEnv) (w : Workflow) (order : List Task)
    (hs : sortTasksByDependencies w = .order order) :
    ExecuteWorkflow envs w = some (runTasks envs w.Name order 0 (fun _ => false)
      { WorkflowID := w.Name, Status := "running", TaskResults := [], ErrorMessage := "" }) := by
  simp only [ExecuteWorkflow, hs]

/-- The execution returned when the resolver returns an error. -/
theorem ExecuteWorkflow_of_error (envs : Nat → TaskEnv) (w : Workflow) (msg : String)
    (hs : sortTasksByDependencies w = .error msg) :
    ExecuteWorkflow envs w = some
      { WorkflowID := w.Name, Status := "failed", TaskResults := []
        ErrorMessage := "failed to sort tasks: " ++ msg } := by
  simp only [ExecuteWorkflow, hs]

/-- The facts about the loop of `ExecuteWorkflow` run on a resolved order. -/
theorem runTasks_of_order (envs : Nat → TaskEnv) (w : Workflow) (order : List Task)
    (hs : sortTasksByDependencies w = .order order) (e : WorkflowExecution) :
    (runTasks envs w.Name order 0 (fun _ => false) e).TaskResults
        = e.TaskResults ++ throughFirstFailure (allResults envs w.Name order 0) ∧
    ((∀ r ∈ allResults envs w.Name order 0, r.Success = true) →
      (runTasks envs w.Name order 0 (fun _ => false) e).Status = "completed") ∧
    ((∃ r ∈ allResults envs w.Name order 0, r.Success = false) →
      (runTasks envs w.Name order 0 (fun _ => false) e).Status = "failed") := by
  obtain ⟨h1, _, h3, h4⟩ := runTasks_spec envs w.Name order [] (fun _ => false) e
    (by simpa using sort_depsEarlier w order hs) (by simp) (by simp [allResults])
  exact ⟨h1, h3, fun h => (h4 h).1⟩

/-! ## Helper facts for the later claims -/

/-- A cycle in the recorded graph makes the resolver return the
circular-dependency error for a task that lies on a cycle. -/
theorem sort_error_of_cycle (w : Workflow)
    (hcyc : ∃ a, Relation.TransGen (DependsOn w) a a) :
    ∃ c, sortTasksByDependencies w = .error (cycleError c) ∧
      Relation.TransGen (DependsOn w) c c := by
  obtain ⟨h1, h2, h3⟩ := sort_spec w
  cases hs : sortTasksByDependencies w with
  | outOfFuel => exact absurd hs h1
  | error msg =>
    obtain ⟨c, hmsg, hc⟩ := h2 msg hs
    exact ⟨c, by rw [hmsg], hc⟩
  | order order =>
    exfalso
    obtain ⟨ids, _, _, htopo, hall, _⟩ := h3 order hs
    obtain ⟨a, ha⟩ := hcyc
    exact lt_irrefl _ (indexOf_lt_of_transGen w ids htopo hall a a ha)

/-- Without a cycle the resolver returns an order. -/
theorem sort_order_of_acyclic (w : Workflow)
    (hacyc : ∀ a, ¬ Relation.TransGen (DependsOn w) a a) :
    ∃ order, sortTasksByDependencies w = .order order := by
  obtain ⟨h1, h2, _⟩ := sort_spec w
  cases hs : sortTasksByDependencies w with
  | outOfFuel => exact absurd hs h1
  | error msg =>
    obtain ⟨c, _, hc⟩ := h2 msg hs
    exact absurd hc (hacyc c)
  | order order => exact ⟨order, rfl⟩

/-- The workflow with a dangling dependency has no dependency cycle. -/
theorem danglingWorkflow_acyclic (a : String) :
    ¬ Relation.TransGen (DependsOn danglingWorkflow) a a := by
  apply acyclic_of_rank danglingWorkflow (fun x => if x = "task1" then 1 else 0)
  intro x y hxy
  simp only [DependsOn, depsOf, danglingWorkflow, danglingTask, List.foldl_cons, List.foldl_nil,
    Function.update_apply] at hxy
  split_ifs at hxy with h1 <;> simp at hxy
  subst h1 hxy
  decide

/-- The white-space scan yields no field on a string of white space. -/
theorem fieldsFrom_of_space : ∀ cs : List Char, (∀ c ∈ cs, isSpace c = true) →
    fieldsFrom cs [] = [] := by
  intro cs
  induction cs with
  | nil => intro _; rfl
  | cons c rest ih =>
    intro h
    have hc := h c (List.mem_cons_self _ _)
    simp only [fieldsFrom, hc, ↓reduceIte]
    exact ih (fun x hx => h x (List.mem_cons_of_mem _ hx))

/-- A command of white space only is not run: whatever the process would do,
the result is exit code 1 with the error `empty command`. -/
theorem executeCommand_of_space (proc : ProcOutcome) (command : String)
    (h : ∀ c ∈ command.data, isSpace c = true) :
    executeCommand proc command
      = { ExitCode := 1, Stdout := "", Stderr := "", Error := "empty command" } := by
  unfold executeCommand
  simp [fields, fieldsFrom_of_space command.data h]

/-- One failing iteration of the retry loop, with the output fields of the
state the loop goes on with. -/
theorem retryLoop_failure_output (env : TaskEnv) (command : String) (maxRetries : Int)
    (n attempt : Nat) (st : RetryState) (hg : (attempt : Int) < maxRetries)
    (hne : (executeCommand (env.proc attempt) command).ExitCode ≠ 0) :
    ∃ st1 : RetryState,
      retryLoop env command maxRetries (n + 1) attempt st
        = retryLoop env command maxRetries n (attempt + 1) st1 ∧
      st1.attempts = st.attempts + 1 ∧
      st1.result.Success = false ∧
      st1.lastErr = some ("command failed with exit code "
        ++ toString (executeCommand (env.proc attempt) command).ExitCode
        ++ ": " ++ (executeCommand (env.proc attempt) command).Error) ∧
      st1.result.ExitCode = (executeCommand (env.proc attempt) command).ExitCode ∧
      st1.result.RetryCount = attempt ∧
      st1.result.Stdout = (executeCommand (env.proc attempt) command).Stdout ∧
      st1.result.Stderr = (executeCommand (env.proc attempt) command).Stderr := by
  rw [retryLoop]
  dsimp only
  by_cases hb : (attempt : Int) < maxRetries - 1
  · by_cases hc : env.ctxDone attempt = true
    · simp only [hg, hne, hb, hc, decide_False, Bool.false_eq_true, ↓reduceIte]
      refine ⟨_, rfl, ?_⟩
      simp
    · simp only [hg, hne, hb, hc, decide_False, Bool.false_eq_true, ↓reduceIte]
      refine ⟨_, rfl, ?_⟩
      simp [hne]
  · simp only [hg, hne, hb, decide_False, Bool.false_eq_true, ↓reduceIte]
    refine ⟨_, rfl, ?_⟩
    simp [hne]

/-- The state in which the retry loop ends, in terms of the last attempt made:
attempt `j`. Either it exits with code 0, or it is the last one allowed and
`lastErr` holds the text composed from it. -/
theorem retryLoop_last (env : TaskEnv) (command : String) (maxRetries : Int) :
    ∀ (n attempt : Nat) (st : RetryState), (attempt : Int) + n = maxRetries → 0 < n →
      ∃ j : Nat, attempt ≤ j ∧ (j : Int) < maxRetries ∧
        (retryLoop env command maxRetries n attempt st).attempts = st.attempts + (j + 1 - attempt) ∧
        (retryLoop env command maxRetries n attempt st).result.ExitCode
          = (executeCommand (env.proc j) command).ExitCode ∧
        (retryLoop env command maxRetries n attempt st).result.Stdout
          = (executeCommand (env.proc j) command).Stdout ∧
        (retryLoop env command maxRetries n attempt st).result.Stderr
          = (executeCommand (env.proc j) command).Stderr ∧
        (retryLoop env command maxRetries n attempt st).result.RetryCount = j ∧
        (retryLoop env command maxRetries n attempt st).result.Success
          = decide ((executeCommand (env.proc j) command).ExitCode = 0) ∧
        ((executeCommand (env.proc j) command).ExitCode ≠ 0 →
          (retryLoop env command maxRetries n attempt st).lastErr
            = some ("command failed with exit code "
              ++ toString (executeCommand (env.proc j) command).ExitCode
              ++ ": " ++ (executeCommand (env.proc j) command).Error)) := by
  intro n
  induction n with
  | zero => intro attempt st _ h; omega
  | succ n ih =>
    intro attempt st hsum _
    have hg : (attempt : Int) < maxRetries := by omega
    by_cases h0 : (executeCommand (env.proc attempt) command).ExitCode = 0
    · refine ⟨attempt, le_rfl, hg, ?_⟩
      rw [retryLoop_success env command maxRetries n attempt st hg h0]
      simp [h0]
    · obtain ⟨st1, heq, hatt, hsucc, hlast, hexit, hcount, hout, herr⟩ :=
        retryLoop_failure_output env command maxRetries n attempt st hg h0
      rw [heq]
      cases n with
      | zero =>
        refine ⟨attempt, le_rfl, hg, ?_⟩
        simp only [retryLoop]
        refine ⟨by rw [hatt]; omega, hexit, hout, herr, hcount, ?_, fun _ => hlast⟩
        rw [hsucc]; simp [h0]
      | succ n =>
        obtain ⟨j, hj1, hj2, ha, hrest⟩ := ih (attempt + 1) st1 (by push_cast at hsum ⊢; omega)
          (by omega)
        exact ⟨j, by omega, hj2, by rw [ha, hatt]; omega, hrest⟩

/-- The fields of the returned result other than the error text are those the
retry loop left. -/
theorem runTask_result_fields (env : TaskEnv) (task : Task) (workflowID : String) :
    (runTask env task workflowID).result.ExitCode
      = (retryLoop env task.Command (maxRetriesOf task) (maxRetriesOf task).toNat 0
          (initialState task workflowID)).result.ExitCode ∧
    (runTask env task workflowID).result.Stdout
      = (retryLoop env task.Command (maxRetriesOf task) (maxRetriesOf task).toNat 0
          (initialState task workflowID)).result.Stdout ∧
    (runTask env task workflowID).result.Stderr
      = (retryLoop env task.Command (maxRetriesOf task) (maxRetriesOf task).toNat 0
          (initialState task workflowID)).result.Stderr ∧
    (runTask env task workflowID).result.RetryCount
      = (retryLoop env task.Command (maxRetriesOf task) (maxRetriesOf task).toNat 0
          (initialState task workflowID)).result.RetryCount := by
  unfold runTask
  simp only
  split
  · split_ifs <;> exact ⟨rfl, rfl, rfl, rfl⟩
  · exact ⟨rfl, rfl, rfl, rfl⟩

/-- The error text of a failed result is the one held in `lastErr`. -/
theorem runTask_error_of_failure (env : TaskEnv) (task : Task) (workflowID : String)
    (e : String)
    (hl : (retryLoop env task.Command (maxRetriesOf task) (maxRetriesOf task).toNat 0
          (initialState task workflowID)).lastErr = some e)
    (hf : (retryLoop env task.Command (maxRetriesOf task) (maxRetriesOf task).toNat 0
          (initialState task workflowID)).result.Success = false) :
    (runTask env task workflowID).result.Error = e := by
  unfold runTask
  simp only
  split
  · rename_i e1 he1
    rw [hl] at he1
    simp only [Option.some.injEq] at he1
    simp [hf, he1]
  · rename_i he1
    rw [hl] at he1
    simp at he1

/-- The general shape of the result of `ExecuteTask` for `retry >= 0`. -/
theorem runTask_last_attempt (env : TaskEnv) (task : Task) (workflowID : String)
    (hretry : 0 ≤ task.Retry) :
    1 ≤ (runTask env task workflowID).attempts ∧
    ((runTask env task workflowID).attempts : Int) ≤ max task.Retry 1 ∧
    (ExecuteTask env task workflowID).ExitCode
      = (executeCommand (env.proc ((runTask env task workflowID).attempts - 1))
          task.Command).ExitCode ∧
    (ExecuteTask env task workflowID).Stdout
      = (executeCommand (env.proc ((runTask env task workflowID).attempts - 1))
          task.Command).Stdout ∧
    (ExecuteTask env task workflowID).Stderr
      = (executeCommand (env.proc ((runTask env task workflowID).attempts - 1))
          task.Command).Stderr ∧
    ((ExecuteTask env task workflowID).Success = true ↔
      (executeCommand (env.proc ((runTask env task workflowID).attempts - 1))
          task.Command).ExitCode = 0) ∧
    (ExecuteTask env task workflowID).RetryCount
      = ((runTask env task workflowID).attempts : Int) - 1 ∧
    ((ExecuteTask env task workflowID).Success = false →
      (ExecuteTask env task workflowID).Error
        = "command failed with exit code "
          ++ toString (executeCommand (env.proc ((runTask env task workflowID).attempts - 1))
              task.Command).ExitCode
          ++ ": " ++ (executeCommand (env.proc ((runTask env task workflowID).attempts - 1))
              task.Command).Error) := by
  have hm : maxRetriesOf task = max task.Retry 1 := by
    unfold maxRetriesOf
    split_ifs with h0
    · rw [h0]; rfl
    · rw [max_eq_left (by omega)]
  have hm1 : (1 : Int) ≤ max task.Retry 1 := le_max_right _ _
  obtain ⟨j, _, hj2, ha, hexit, hout, herr, hcount, hsucc, hlast⟩ :=
    retryLoop_last env task.Command (maxRetriesOf task) (maxRetriesOf task).toNat 0
      (initialState task workflowID)
      (by rw [hm, Int.toNat_of_nonneg (by omega)]; simp) (by rw [hm]; omega)
  have hatt : (runTask env task workflowID).attempts = j + 1 := by
    rw [runTask_attempts, ha]; simp [initialState]
  obtain ⟨f1, f2, f3, f4⟩ := runTask_result_fields env task workflowID
  have hs := runTask_success env task workflowID
  unfold ExecuteTask
  rw [hatt]
  simp only [Nat.add_sub_cancel]
  rw [hm] at hj2
  refine ⟨by omega, by push_cast; omega, by rw [f1, hexit], by rw [f2, hout], by rw [f3, herr],
    ?_, by rw [f4, hcount]; push_cast; omega, ?_⟩
  · rw [hs, hsucc]; simp
  · intro hfail
    rw [hs] at hfail
    have hne : (executeCommand (env.proc j) task.Command).ExitCode ≠ 0 := by
      intro h0
      rw [hsucc, h0] at hfail
      simp at hfail
    exact runTask_error_of_failure env task workflowID _ (hlast hne) hfail

/-- For `retry >= 0` a command of white space only gives a failed result with
exit code 1 and the error text composed from `empty command`. -/
theorem ExecuteTask_of_space (env : TaskEnv) (task : Task) (workflowID : String)
    (hretry : 0 ≤ task.Retry) (h : ∀ c ∈ task.Command.data, isSpace c = true) :
    (ExecuteTask env task workflowID).Success = false ∧
    (ExecuteTask env task workflowID).ExitCode = 1 ∧
    (ExecuteTask env task workflowID).Error = "command failed with exit code 1: empty command" := by
  obtain ⟨_, _, hexit, _, _, hsucc, _, herr⟩ := runTask_last_attempt env task workflowID hretry
  rw [executeCommand_of_space _ _ h] at hexit hsucc herr
  have hf : (ExecuteTask env task workflowID).Success = false := by
    cases hs : (ExecuteTask env task workflowID).Success with
    | false => rfl
    | true => exact absurd (hsucc.mp hs) (by decide)
  exact ⟨hf, hexit, by rw [herr hf]; rfl⟩

/-! ## The scheduler: first facts -/

/-- The execution the scheduler gets from the runner is the one `ExecuteWorkflow`
returns. -/
theorem ExecuteWorkflow_eq_runWorkflow (envs : Nat → TaskEnv) (w : Workflow) :
    ExecuteWorkflow envs w = some (runWorkflow envs w) := by
  cases h : ExecuteWorkflow envs w with
  | some e => simp [runWorkflow, h]
  | none =>
    exfalso
    unfold ExecuteWorkflow at h
    cases hs : sortTasksByDependencies w with
    | outOfFuel => exact absurd hs (sort_spec w).1
    | error msg => simp [hs] at h
    | order order => simp [hs] at h

theorem storeGet_storeSet_same (m : ExecutionStore) (key : String)
    (value : List WorkflowExecution) : storeGet (storeSet m key value) key = value := by
  induction m with
  | nil => simp [storeSet, storeGet]
  | cons p rest ih =>
    obtain ⟨k, v⟩ := p
    by_cases hk : k = key
    · simp [storeSet, storeGet, hk]
    · simp [storeSet, storeGet, hk, ih]

theorem storeGet_storeSet_other (m : ExecutionStore) (key other : String)
    (value : List WorkflowExecution) (h : other ≠ key) :
    storeGet (storeSet m key value) other = storeGet m other := by
  induction m with
  | nil => simp [storeSet, storeGet, Ne.symm h]
  | cons p rest ih =>
    obtain ⟨k, v⟩ := p
    by_cases hk : k = key
    · subst hk
      simp [storeSet, storeGet, Ne.symm h]
    · by_cases hko : k = other
      · subst hko
        simp [storeSet, storeGet, hk]
      · simp [storeSet, storeGet, hk, hko, ih]

theorem findWorkflow_eq_none (ws : List Workflow) (name : String) :
    findWorkflow ws name = none ↔ ∀ w ∈ ws, w.Name ≠ name := by
  induction ws with
  | nil => simp [findWorkflow]
  | cons w rest ih =>
    by_cases hw : w.Name = name
    · simp [findWorkflow, hw]
    · simp [findWorkflow, hw, ih]

theorem findWorkflow_of_first (pre post : List Workflow) (w : Workflow) (name : String)
    (hw : w.Name = name) (hpre : ∀ u ∈ pre, u.Name ≠ name) :
    findWorkflow (pre ++ w :: post) name = some w := by
  induction pre with
  | nil => simp [findWorkflow, hw]
  | cons u rest ih =>
    have hu := hpre u (List.mem_cons_self _ _)
    simp only [List.cons_append, findWorkflow, hu, ↓reduceIte]
    exact ih (fun x hx => hpre x (List.mem_cons_of_mem _ hx))

/-- A manual trigger of a name that the first registered workflow `w` of that
name carries: the execution of `w` is returned and stored under the name. -/
theorem ExecuteWorkflowNow_of_first (envs : Nat → TaskEnv) (s : Scheduler)
    (pre post : List Workflow) (w : Workflow) (name : String)
    (hs : s.workflows = pre ++ w :: post) (hw : w.Name = name)
    (hpre : ∀ u ∈ pre, u.Name ≠ name) :
    ExecuteWorkflowNow envs name s
      = (.ok (runWorkflow envs w), storeExecution name (runWorkflow envs w) s) := by
  unfold ExecuteWorkflowNow
  rw [hs, findWorkflow_of_first pre post w name hw hpre]

/-- A manual trigger of a name that no registered workflow carries. -/
theorem ExecuteWorkflowNow_of_absent (envs : Nat → TaskEnv) (s : Scheduler) (name : String)
    (h : ∀ w ∈ s.workflows, w.Name ≠ name) :
    ExecuteWorkflowNow envs name s = (.error ("workflow '" ++ name ++ "' not found"), s) := by
  unfold ExecuteWorkflowNow
  rw [(findWorkflow_eq_none s.workflows name).mpr h]

/-- The scheduled path on an open channel: the execution is stored, and queued
if the buffer has room. -/
theorem executeWorkflow_of_open (envs : Nat → TaskEnv) (w : Workflow) (s : Scheduler)
    (hopen : s.reportChan.closed = false) :
    executeWorkflow envs w s = .ok
      { storeExecution w.Name (runWorkflow envs w) s with
        reportChan :=
          if s.reportChan.buf.length < reportChanCapacity then
            { s.reportChan with buf := s.reportChan.buf ++ [runWorkflow envs w] }
          else s.reportChan } := by
  unfold executeWorkflow trySend
  simp only [storeExecution, hopen, Bool.false_eq_true, ↓reduceIte]
  split_ifs <;> rfl

/-- Scheduled executions on an open channel all complete, and the channel
takes them in order while it has room. -/
theorem runScheduled_of_open :
    ∀ (jobs : List (Workflow × (Nat → TaskEnv))) (s : Scheduler),
      s.reportChan.closed = false →
      ∃ s1, runScheduled jobs s = .ok s1 ∧ s1.reportChan.closed = false ∧
        s1.reportChan.buf = s.reportChan.buf ++
          (jobs.map (fun job => runWorkflow job.2 job.1)).take
            (reportChanCapacity - s.reportChan.buf.length) := by
  intro jobs
  induction jobs with
  | nil =>
    intro s hopen
    exact ⟨s, rfl, hopen, by simp⟩
  | cons job rest ih =>
    intro s hopen
    have hstep := executeWorkflow_of_open job.2 job.1 s hopen
    by_cases hroom : s.reportChan.buf.length < reportChanCapacity
    · simp only [hroom, ↓reduceIte] at hstep
      obtain ⟨s1, hrun, hcl, hbuf⟩ := ih _ (show ({ storeExecution job.1.Name
        (runWorkflow job.2 job.1) s with reportChan := { s.reportChan with
          buf := s.reportChan.buf ++ [runWorkflow job.2 job.1] } } : Scheduler).reportChan.closed
          = false from hopen)
      refine ⟨s1, by simp only [runScheduled, hstep]; exact hrun, hcl, ?_⟩
      rw [hbuf]
      simp only [List.length_append, List.length_singleton, List.map_cons, List.append_assoc,
        List.singleton_append]
      have : reportChanCapacity - s.reportChan.buf.length
          = (reportChanCapacity - (s.reportChan.buf.length + 1)) + 1 := by omega
      rw [this, List.take_succ_cons]
    · simp only [hroom, ↓reduceIte] at hstep
      obtain ⟨s1, hrun, hcl, hbuf⟩ := ih _ (show ({ storeExecution job.1.Name
        (runWorkflow job.2 job.1) s with reportChan := s.reportChan } : Scheduler).reportChan.closed
          = false from hopen)
      refine ⟨s1, by simp only [runScheduled, hstep]; exact hrun, hcl, ?_⟩
      rw [hbuf]
      have : reportChanCapacity - s.reportChan.buf.length = 0 := by omega
      simp [this]

/-- The registration loop touches nothing but the entries of the cron driver. -/
theorem addJobs_frame (parseStandard : String → Option String) :
    ∀ (batch : List Workflow) (s : Scheduler),
      (addJobs parseStandard batch s).2.workflows = s.workflows ∧
      (addJobs parseStandard batch s).2.executions = s.executions ∧
      (addJobs parseStandard batch s).2.reportChan = s.reportChan := by
  intro batch
  induction batch with
  | nil => intro s; exact ⟨rfl, rfl, rfl⟩
  | cons w rest ih =>
    intro s
    unfold addJobs cronAddFunc
    cases hp : parseStandard w.Schedule with
    | some err => exact ⟨rfl, rfl, rfl⟩
    | none => exact ih _

/-- A registration loop that returns no error has added one entry per workflow
of the batch to the cron driver. -/
theorem addJobs_of_none (parseStandard : String → Option String) :
    ∀ (batch : List Workflow) (s : Scheduler), (addJobs parseStandard batch s).1 = none →
      (addJobs parseStandard batch s).2 = { s with cronJobs := s.cronJobs ++ batch } := by
  intro batch
  induction batch with
  | nil => intro s _; simp [addJobs]
  | cons w rest ih =>
    intro s h
    unfold addJobs cronAddFunc at h ⊢
    cases hp : parseStandard w.Schedule with
    | some err => simp [hp] at h
    | none =>
      simp only [hp] at h ⊢
      rw [ih _ h]
      simp

/-- The registration loop returns an error exactly when some schedule of the
batch is malformed. -/
theorem addJobs_error_iff (parseStandard : String → Option String) :
    ∀ (batch : List Workflow) (s : Scheduler),
      (addJobs parseStandard batch s).1 ≠ none ↔
        ∃ w ∈ batch, parseStandard w.Schedule ≠ none := by
  intro batch
  induction batch with
  | nil => intro s; simp [addJobs]
  | cons w rest ih =>
    intro s
    unfold addJobs cronAddFunc
    cases hp : parseStandard w.Schedule with
    | some err => simp [hp]
    | none => simp [hp, ih]

/-- A call of `AddWorkflows` that returns no error appends the batch to the
entries of the cron driver and to the workflow list. -/
theorem AddWorkflows_of_none (parseStandard : String → Option String) (batch : List Workflow)
    (s : Scheduler) (h : (AddWorkflows parseStandard batch s).1 = none) :
    (AddWorkflows parseStandard batch s).2
      = { s with cronJobs := s.cronJobs ++ batch, workflows := s.workflows ++ batch } := by
  unfold AddWorkflows at h ⊢
  cases hj : addJobs parseStandard batch s with
  | mk err s1 =>
    cases err with
    | some e => simp [hj] at h
    | none =>
      have h1 := addJobs_of_none parseStandard batch s (by rw [hj])
      rw [hj] at h1
      simp only at h1
      simp [h1]

/-- A call of `AddWorkflows` that returns an error leaves the workflow list,
the store and the report channel as they were. -/
theorem AddWorkflows_of_error (parseStandard : String → Option String) (batch : List Workflow)
    (s : Scheduler) (h : (AddWorkflows parseStandard batch s).1 ≠ none) :
    (AddWorkflows parseStandard batch s).2.workflows = s.workflows ∧
    (AddWorkflows parseStandard batch s).2.executions = s.executions ∧
    (AddWorkflows parseStandard batch s).2.reportChan = s.reportChan := by
  have hf := addJobs_frame parseStandard batch s
  unfold AddWorkflows at h ⊢
  cases hj : addJobs parseStandard batch s with
  | mk err s1 =>
    rw [hj] at hf
    cases err with
    | some e => exact hf
    | none => simp [hj] at h

/-- A task that passes `ValidateTask` has a non-empty id. -/
theorem ValidateTask_id (parseDuration : String → Option String) (task : Task)
    (taskIndex workflowIndex : Nat)
    (h : ValidateTask parseDuration task taskIndex workflowIndex = none) : task.ID ≠ "" := by
  intro he
  simp [ValidateTask, he] at h

theorem validateTaskList_id (parseDuration : String → Option String) (workflowIndex : Nat) :
    ∀ (tasks : List Task) (i : Nat) (taskIDs taskIDs1 : String → Bool),
      validateTaskList parseDuration workflowIndex tasks i taskIDs = .ok taskIDs1 →
      ∀ t ∈ tasks, t.ID ≠ "" := by
  intro tasks
  induction tasks with
  | nil => intro _ _ _ _ t ht; simp at ht
  | cons task rest ih =>
    intro i taskIDs taskIDs1 h t ht
    unfold validateTaskList at h
    cases hv : ValidateTask parseDuration task i workflowIndex with
    | some err => simp [hv] at h
    | none =>
      simp only [hv] at h
      rcases List.mem_cons.mp ht with ht | ht
      · exact ht ▸ ValidateTask_id parseDuration task i workflowIndex hv
      · exact ih _ _ _ h t ht

theorem ValidateWorkflow_id (parseDuration : String → Option String) (workflow : Workflow)
    (index : Nat) (h : ValidateWorkflow parseDuration workflow index = none) :
    ∀ t ∈ workflow.Tasks, t.ID ≠ "" := by
  unfold ValidateWorkflow at h
  split_ifs at h
  cases hv : validateTaskList parseDuration index workflow.Tasks 0 (fun _ => false) with
  | error err => simp [hv] at h
  | ok taskIDs => exact validateTaskList_id parseDuration index _ _ _ _ hv

theorem validateWorkflows_id (parseDuration : String → Option String) :
    ∀ (ws : List Workflow) (i : Nat), validateWorkflows parseDuration ws i = none →
      ∀ w ∈ ws, ∀ t ∈ w.Tasks, t.ID ≠ "" := by
  intro ws
  induction ws with
  | nil => intro _ _ w hw; simp at hw
  | cons workflow rest ih =>
    intro i h w hw
    unfold validateWorkflows at h
    cases hv : ValidateWorkflow parseDuration workflow i with
    | some err => simp [hv] at h
    | none =>
      simp only [hv] at h
      rcases List.mem_cons.mp hw with hw | hw
      · exact hw ▸ ValidateWorkflow_id parseDuration workflow i hv
      · exact ih _ h w hw

/-! ## The scheduler: statistics -/

theorem countExecutions_eq : ∀ (executions : List WorkflowExecution) (stats : SchedulerStats),
    countExecutions executions stats =
      { stats with
        SuccessfulExecutions := stats.SuccessfulExecutions
          + executions.countP (fun e => decide (e.Status = "completed"))
        FailedExecutions := stats.FailedExecutions
          + executions.countP (fun e => !decide (e.Status = "completed")) } := by
  intro executions
  induction executions with
  | nil => intro stats; simp [countExecutions]
  | cons e rest ih =>
    intro stats
    unfold countExecutions
    by_cases he : e.Status = "completed"
    · simp only [he, ↓reduceIte, ih, List.countP_cons, decide_True, Bool.not_true,
        Bool.false_eq_true]
      simp only [SchedulerStats.mk.injEq, true_and]
      omega
    · simp only [he, ↓reduceIte, ih, List.countP_cons, decide_False, Bool.not_false,
        Bool.false_eq_true]
      simp only [SchedulerStats.mk.injEq, true_and]
      omega

theorem statsLoop_eq (store : ExecutionStore) :
    ∀ (ws : List Workflow) (stats : SchedulerStats),
      statsLoop store ws stats =
        { TotalWorkflows := stats.TotalWorkflows
          TotalExecutions := stats.TotalExecutions
            + (ws.map (fun w => (storeGet store w.Name).length)).sum
          SuccessfulExecutions := stats.SuccessfulExecutions
            + (ws.map (fun w => (storeGet store w.Name).countP
                (fun e => decide (e.Status = "completed")))).sum
          FailedExecutions := stats.FailedExecutions
            + (ws.map (fun w => (storeGet store w.Name).countP
                (fun e => !decide (e.Status = "completed")))).sum } := by
  intro ws
  induction ws with
  | nil => intro stats; simp [statsLoop]
  | cons w rest ih =>
    intro stats
    unfold statsLoop
    simp only [ih, countExecutions_eq, List.map_cons, List.sum_cons, SchedulerStats.mk.injEq,
      true_and]
    omega

theorem sum_map_update (g h : String → Nat) (k : String) :
    ∀ ns : List String, ns.Nodup → k ∈ ns → (∀ n, n ≠ k → g n = h n) → h k = 0 →
      (ns.map g).sum = g k + (ns.map h).sum := by
  intro ns
  induction ns with
  | nil => intro _ hk; simp at hk
  | cons a t ih =>
    intro hnd hk hgh hk0
    have hnd1 := (List.nodup_cons.mp hnd).2
    have hat := (List.nodup_cons.mp hnd).1
    by_cases hak : a = k
    · subst hak
      have hmap : t.map g = t.map h := by
        apply List.map_congr_left
        intro n hn
        exact hgh n (fun he => hat (he ▸ hn))
      simp [hmap, hk0]
    · have hkt : k ∈ t := by
        rcases List.mem_cons.mp hk with h1 | h1
        · exact absurd h1.symm hak
        · exact h1
      simp only [List.map_cons, List.sum_cons, ih hnd1 hkt hgh hk0, hgh a hak]
      omega

theorem storeGet_of_not_mem : ∀ (m : ExecutionStore) (key : String),
    key ∉ storeKeys m → storeGet m key = [] := by
  intro m
  induction m with
  | nil => intro _ _; rfl
  | cons p rest ih =>
    intro key h
    obtain ⟨k, v⟩ := p
    simp only [storeKeys, List.map_cons, List.mem_cons, not_or] at h
    simp only [storeGet, Ne.symm h.1, ↓reduceIte]
    exact ih key h.2

/-- Summing a measure of the histories over pairwise distinct names that
include every key of the store gives the sum over the entries of the store. -/
theorem store_sum (f : List WorkflowExecution → Nat) (hf : f [] = 0) :
    ∀ (m : ExecutionStore) (ns : List String), ns.Nodup → (storeKeys m).Nodup →
      (∀ k ∈ storeKeys m, k ∈ ns) →
      (ns.map (fun n => f (storeGet m n))).sum = (m.map (fun p => f p.2)).sum := by
  intro m
  induction m with
  | nil =>
    intro ns _ _ _
    simp [storeGet, hf]
  | cons p rest ih =>
    intro ns hnd hkeys hsub
    obtain ⟨k, v⟩ := p
    simp only [storeKeys, List.map_cons, List.nodup_cons] at hkeys
    have hk : k ∈ ns := hsub k (by simp [storeKeys])
    have hrest := ih ns hnd hkeys.2 (fun x hx => hsub x (by
      simp only [storeKeys, List.map_cons, List.mem_cons]
      exact Or.inr hx))
    have key := sum_map_update (fun n => f (storeGet ((k, v) :: rest) n))
      (fun n => f (storeGet rest n)) k ns hnd hk
      (by
        intro n hn
        simp [storeGet, Ne.symm hn])
      (by
        show f (storeGet rest k) = 0
        rw [storeGet_of_not_mem rest k hkeys.1, hf])
    rw [key, hrest]
    simp [storeGet]

theorem storeRecords_length : ∀ m : ExecutionStore,
    (storeRecords m).length = (m.map (fun p => p.2.length)).sum := by
  intro m
  induction m with
  | nil => rfl
  | cons p rest ih =>
    obtain ⟨k, v⟩ := p
    simp [storeRecords, ih]

theorem storeRecords_countP (q : WorkflowExecution → Bool) : ∀ m : ExecutionStore,
    (storeRecords m).countP q = (m.map (fun p => p.2.countP q)).sum := by
  intro m
  induction m with
  | nil => rfl
  | cons p rest ih =>
    obtain ⟨k, v⟩ := p
    simp [storeRecords, ih]

theorem storeKeys_storeSet : ∀ (m : ExecutionStore) (key : String)
    (value : List WorkflowExecution),
    storeKeys (storeSet m key value)
      = if key ∈ storeKeys m then storeKeys m else storeKeys m ++ [key] := by
  intro m
  induction m with
  | nil => intro key value; simp [storeSet, storeKeys]
  | cons p rest ih =>
    intro key value
    obtain ⟨k, v⟩ := p
    have ih1 := ih key value
    simp only [storeKeys] at ih1 ⊢
    by_cases hk : k = key
    · simp [storeSet, hk]
    · have hk1 : ¬ key = k := fun h => hk h.symm
      simp only [storeSet, hk, ↓reduceIte, List.map_cons, ih1, List.mem_cons, hk1, false_or]
      split_ifs <;> simp

/-- What `GetStats` reports when the registered names are pairwise distinct
and every key of the store is a registered name. -/
theorem GetStats_of_distinct (s : Scheduler) (hnd : (s.workflows.map Workflow.Name).Nodup)
    (hkeys : (storeKeys s.executions).Nodup)
    (hsub : ∀ k ∈ storeKeys s.executions, k ∈ s.workflows.map Workflow.Name) :
    GetStats s =
      { TotalWorkflows := s.workflows.length
        TotalExecutions := (storeRecords s.executions).length
        SuccessfulExecutions :=
          (storeRecords s.executions).countP (fun e => decide (e.Status = "completed"))
        FailedExecutions :=
          (storeRecords s.executions).countP (fun e => !decide (e.Status = "completed")) } := by
  unfold GetStats
  rw [statsLoop_eq]
  have h1 := store_sum (fun l => l.length) rfl s.executions _ hnd hkeys hsub
  have h2 := store_sum (fun l => l.countP (fun e => decide (e.Status = "completed"))) rfl
    s.executions _ hnd hkeys hsub
  have h3 := store_sum (fun l => l.countP (fun e => !decide (e.Status = "completed"))) rfl
    s.executions _ hnd hkeys hsub
  simp only [List.map_map] at h1 h2 h3
  simp only [Nat.zero_add, storeRecords_length, storeRecords_countP, SchedulerStats.mk.injEq,
    true_and]
  exact ⟨h1, h2, h3⟩

theorem findWorkflow_some : ∀ (ws : List Workflow) (name : String) (w : Workflow),
    findWorkflow ws name = some w → w ∈ ws ∧ w.Name = name := by
  intro ws
  induction ws with
  | nil => intro _ _ h; simp [findWorkflow] at h
  | cons u rest ih =>
    intro name w h
    unfold findWorkflow at h
    split_ifs at h with hu
    · simp only [Option.some.injEq] at h
      subst h
      exact ⟨List.mem_cons_self _ _, hu⟩
    · exact ⟨List.mem_cons_of_mem _ (ih name w h).1, (ih name w h).2⟩

theorem storeSet_keys (m : ExecutionStore) (ns : List String) (name : String)
    (value : List WorkflowExecution) (hnd : (storeKeys m).Nodup)
    (hsub : ∀ k ∈ storeKeys m, k ∈ ns) (hname : name ∈ ns) :
    (storeKeys (storeSet m name value)).Nodup ∧
    ∀ k ∈ storeKeys (storeSet m name value), k ∈ ns := by
  rw [storeKeys_storeSet]
  split_ifs with hmem
  · exact ⟨hnd, hsub⟩
  · refine ⟨List.nodup_append.mpr ⟨hnd, List.nodup_singleton _, ?_⟩, ?_⟩
    · intro a ha hb
      rw [List.mem_singleton] at hb
      exact hmem (hb ▸ ha)
    · intro k hk
      rcases List.mem_append.mp hk with hk | hk
      · exact hsub k hk
      · rw [List.mem_singleton] at hk
        exact hk ▸ hname

/-- A scheduled run that completes leaves the workflow list and the cron
entries as they were and stores the execution under the name of the workflow. -/
theorem executeWorkflow_ok (envs : Nat → TaskEnv) (w : Workflow) (s s1 : Scheduler)
    (h : executeWorkflow envs w s = .ok s1) :
    s1.workflows = s.workflows ∧ s1.cronJobs = s.cronJobs ∧
    s1.executions = storeSet s.executions w.Name
      (storeGet s.executions w.Name ++ [runWorkflow envs w]) := by
  unfold executeWorkflow at h
  simp only at h
  cases ht : trySend (storeExecution w.Name (runWorkflow envs w) s).reportChan
      (runWorkflow envs w) with
  | panic msg => simp [ht] at h
  | ok ch =>
    simp only [ht, Outcome.ok.injEq] at h
    subst h
    exact ⟨rfl, rfl, rfl⟩

/-- In every reached state the jobs of the cron driver are registered
workflows, and the keys of the store are pairwise distinct registered names. -/
theorem Reached_inv (parseStandard : String → Option String) (s : Scheduler)
    (h : Reached parseStandard s) :
    (∀ w ∈ s.cronJobs, w ∈ s.workflows) ∧ (storeKeys s.executions).Nodup ∧
    ∀ k ∈ storeKeys s.executions, k ∈ s.workflows.map Workflow.Name := by
  induction h with
  | init => simp [NewScheduler, storeKeys]
  | add s batch _ hok ih =>
    obtain ⟨h1, h2, h3⟩ := ih
    rw [AddWorkflows_of_none parseStandard batch s hok]
    refine ⟨?_, h2, ?_⟩
    · intro w hw
      rcases List.mem_append.mp hw with hw | hw
      · exact List.mem_append_left _ (h1 w hw)
      · exact List.mem_append_right _ hw
    · intro k hk
      simp only [List.map_append, List.mem_append]
      exact Or.inl (h3 k hk)
  | fire s s1 envs w _ hw hrun ih =>
    obtain ⟨h1, h2, h3⟩ := ih
    obtain ⟨e1, e2, e3⟩ := executeWorkflow_ok envs w s s1 hrun
    rw [e1, e2, e3]
    have hname : w.Name ∈ s.workflows.map Workflow.Name := List.mem_map_of_mem _ (h1 w hw)
    exact ⟨h1, storeSet_keys _ _ _ _ h2 h3 hname⟩
  | now s envs name _ ih =>
    obtain ⟨h1, h2, h3⟩ := ih
    unfold ExecuteWorkflowNow
    cases hf : findWorkflow s.workflows name with
    | none => exact ⟨h1, h2, h3⟩
    | some w =>
      obtain ⟨hw, hn⟩ := findWorkflow_some s.workflows name w hf
      have hname : name ∈ s.workflows.map Workflow.Name := hn ▸ List.mem_map_of_mem _ hw
      exact ⟨h1, storeSet_keys _ _ _ _ h2 h3 hname⟩

/-! ## Helper facts for the claims on validation and on the dependency check -/

/-- The scan yields a field as soon as one is being read or a character that
is not white space is still to come. -/
theorem fieldsFrom_ne_nil : ∀ (cs cur : List Char),
    (cur ≠ [] ∨ ∃ c ∈ cs, isSpace c = false) → fieldsFrom cs cur ≠ [] := by
  intro cs
  induction cs with
  | nil =>
    intro cur h
    rcases h with h | ⟨c, hc, _⟩
    · simp [fieldsFrom, h]
    · simp at hc
  | cons c rest ih =>
    intro cur h
    unfold fieldsFrom
    by_cases hsp : isSpace c = true
    · simp only [hsp, ↓reduceIte]
      by_cases hcur : cur = []
      · simp only [hcur, ↓reduceIte]
        apply ih
        right
        rcases h with h | ⟨d, hd, hdn⟩
        · exact absurd hcur h
        · rcases List.mem_cons.mp hd with hd | hd
          · rw [hd, hsp] at hdn
            exact absurd hdn (by simp)
          · exact ⟨d, hd, hdn⟩
      · simp [hcur]
    · simp only [hsp, Bool.false_eq_true, ↓reduceIte]
      apply ih
      left
      simp

/-- A command splits into at least one token exactly when it has a character
that is not white space. -/
theorem fields_ne_nil_iff (command : String) :
    fields command ≠ [] ↔ ∃ c ∈ command.data, isSpace c = false := by
  constructor
  · intro h
    by_contra hn
    apply h
    unfold fields
    apply fieldsFrom_of_space
    intro c hc
    cases hs : isSpace c with
    | true => rfl
    | false => exact absurd ⟨c, hc, hs⟩ hn
  · intro h
    exact fieldsFrom_ne_nil _ _ (Or.inr h)

/-- The dependency check of the loop of `ExecuteWorkflow` passes for the next
task of a resolved order when the tasks before it have all run with success. -/
theorem dependency_check_passes (envs : Nat → TaskEnv) (name : String)
    (pre rest : List Task) (t : Task) (c : String → Bool)
    (hdeps : DepsEarlier (pre ++ t :: rest))
    (hc : ∀ x, c x = true ↔ x ∈ pre.map Task.ID)
    (hpre : ∀ r ∈ allResults envs name pre 0, r.Success = true) :
    areDependenciesCompleted t c = true := by
  unfold areDependenciesCompleted
  apply dependenciesCompleted_eq_true
  intro d hd
  obtain ⟨u, hu, hud⟩ := hdeps pre t rest rfl d hd
  rcases hud with hud | hud
  · exact (hc d).mpr (hud ▸ List.mem_map_of_mem _ hu)
  · exfalso
    subst hud
    obtain ⟨p1, p2, hp⟩ := List.append_of_mem hu
    have hmem : ExecuteTask (envs p1.length) Task.zero name ∈ allResults envs name pre 0 := by
      rw [hp, allResults_append]
      simp [allResults]
    have := hpre _ hmem
    rw [ExecuteTask_zero] at this
    exact Bool.false_ne_true this

/-- The error message the loop of `ExecuteWorkflow` leaves on a resolved order:
the one it started with, or the one of a failed task. -/
theorem runTasks_errorMessage (envs : Nat → TaskEnv) (name : String) :
    ∀ (rest pre : List Task) (completedTasks : String → Bool) (e : WorkflowExecution),
      DepsEarlier (pre ++ rest) →
      (∀ x, completedTasks x = true ↔ x ∈ pre.map Task.ID) →
      (∀ r ∈ allResults envs name pre 0, r.Success = true) →
      (runTasks envs name rest pre.length completedTasks e).ErrorMessage = e.ErrorMessage ∨
      ∃ id err, (runTasks envs name rest pre.length completedTasks e).ErrorMessage
        = "task '" ++ id ++ "' failed: " ++ err := by
  intro rest
  induction rest with
  | nil =>
    intro pre c e _ _ _
    exact Or.inl rfl
  | cons t rest ih =>
    intro pre c e hdeps hc hpre
    have hcheck := dependency_check_passes envs name pre rest t c hdeps hc hpre
    by_cases hsucc : (ExecuteTask (envs pre.length) t name).Success = false
    · right
      refine ⟨t.ID, (ExecuteTask (envs pre.length) t name).Error, ?_⟩
      simp [runTasks, hcheck, hsucc]
    · have hsucc' : (ExecuteTask (envs pre.length) t name).Success = true := by
        simpa using hsucc
      have hdeps' : DepsEarlier ((pre ++ [t]) ++ rest) := by simpa using hdeps
      have hc' : ∀ x, Function.update c t.ID true x = true ↔ x ∈ (pre ++ [t]).map Task.ID := by
        intro x
        by_cases hx : x = t.ID
        · subst hx; simp
        · simp [Function.update_noteq hx, hc x, hx]
      have hpre' : ∀ r ∈ allResults envs name (pre ++ [t]) 0, r.Success = true := by
        intro r hr
        rw [allResults_append] at hr
        rcases List.mem_append.mp hr with hr | hr
        · exact hpre r hr
        · simp only [allResults, zero_add, List.mem_singleton] at hr
          exact hr ▸ hsucc'
      have hlen : (pre ++ [t]).length = pre.length + 1 := by simp
      have key := ih (pre ++ [t]) (Function.update c t.ID true)
        { e with TaskResults := e.TaskResults ++ [ExecuteTask (envs pre.length) t name] }
        hdeps' hc' hpre'
      rw [hlen] at key
      simpa [runTasks, hcheck, hsucc'] using key

/-- Two texts that start with different characters are different. -/
theorem append_ne_of_head (c1 c2 : Char) (s1 s2 r1 r2 : String) (hc : c1 ≠ c2)
    (h1 : s1.data.head? = some c1) (h2 : s2.data.head? = some c2) :
    s1 ++ r1 ≠ s2 ++ r2 := by
  intro h
  have hd := congrArg String.data h
  simp only [String.data_append] at hd
  have hh := congrArg List.head? hd
  cases hs1 : s1.data with
  | nil => simp [hs1] at h1
  | cons a t1 =>
    cases hs2 : s2.data with
    | nil => simp [hs2] at h2
    | cons b t2 =>
      simp only [hs1, hs2, List.cons_append, List.head?_cons, Option.some.injEq] at hh h1 h2
      exact hc (h1 ▸ h2 ▸ hh)

/-! ## Validation: acceptance and the workflow named by an error -/

theorem taskPath_names (workflowIndex taskIndex : Nat) (msg : String) :
    NamesWorkflow workflowIndex (taskPath workflowIndex taskIndex ++ msg) := by
  refine ⟨".task[" ++ toString taskIndex ++ "]" ++ msg, ?_⟩
  unfold taskPath
  simp only [String.append_assoc]
  rw [show ("].task[" : String) = "]" ++ ".task[" from by decide]
  simp only [String.append_assoc]

theorem ValidateTask_none_iff (parseDuration : String → Option String) (task : Task)
    (taskIndex workflowIndex : Nat) :
    ValidateTask parseDuration task taskIndex workflowIndex = none ↔
      TaskAcceptable parseDuration task := by
  by_cases h1 : task.ID = ""
  · exact ⟨fun h => by simp [ValidateTask, h1] at h, fun h => absurd h1 h.1⟩
  · by_cases h2 : task.Command = ""
    · exact ⟨fun h => by simp [ValidateTask, h1, h2] at h, fun h => absurd h2 h.2.1⟩
    · by_cases h3 : task.Retry < 0
      · exact ⟨fun h => by simp [ValidateTask, h1, h2, h3] at h,
          fun h => absurd h.2.2.1 (not_le.mpr h3)⟩
      · by_cases h4 : task.Timeout = ""
        · exact ⟨fun _ => ⟨h1, h2, not_lt.mp h3, Or.inl h4⟩,
            fun _ => by simp [ValidateTask, h1, h2, h3, h4]⟩
        · cases hp : parseDuration task.Timeout with
          | none =>
            exact ⟨fun _ => ⟨h1, h2, not_lt.mp h3, Or.inr hp⟩,
              fun _ => by simp [ValidateTask, h1, h2, h3, h4, hp]⟩
          | some err =>
            refine ⟨fun h => by simp [ValidateTask, h1, h2, h3, h4, hp] at h, fun h => ?_⟩
            rcases h.2.2.2 with h5 | h5
            · exact absurd h5 h4
            · rw [hp] at h5
              exact absurd h5 (by simp)

theorem ValidateTask_names (parseDuration : String → Option String) (task : Task)
    (taskIndex workflowIndex : Nat) (msg : String)
    (h : ValidateTask parseDuration task taskIndex workflowIndex = some msg) :
    NamesWorkflow workflowIndex msg := by
  unfold ValidateTask at h
  split_ifs at h with h1 h2 h3 h4
  · simp only [Option.some.injEq] at h
    exact h ▸ taskPath_names _ _ _
  · simp only [Option.some.injEq] at h
    exact h ▸ taskPath_names _ _ _
  · simp only [Option.some.injEq] at h
    exact h ▸ taskPath_names _ _ _
  · cases hp : parseDuration task.Timeout with
    | none => simp [hp] at h
    | some err =>
      simp only [hp, Option.some.injEq] at h
      rw [← h, String.append_assoc, String.append_assoc, String.append_assoc]
      exact taskPath_names _ _ _

/-- The first loop of `ValidateWorkflow`: it succeeds exactly when every task
is acceptable, then with the ids of the tasks added to the set; its error names
the workflow. -/
theorem validateTaskList_spec (parseDuration : String → Option String) (workflowIndex : Nat) :
    ∀ (tasks : List Task) (i : Nat) (taskIDs : String → Bool),
      ((∃ ids1, validateTaskList parseDuration workflowIndex tasks i taskIDs = .ok ids1) ↔
        ∀ t ∈ tasks, TaskAcceptable parseDuration t) ∧
      (∀ ids1, validateTaskList parseDuration workflowIndex tasks i taskIDs = .ok ids1 →
        ∀ x, ids1 x = true ↔ (taskIDs x = true ∨ x ∈ tasks.map Task.ID)) ∧
      (∀ msg, validateTaskList parseDuration workflowIndex tasks i taskIDs = .error msg →
        NamesWorkflow workflowIndex msg) := by
  intro tasks
  induction tasks with
  | nil =>
    intro i taskIDs
    refine ⟨by simp [validateTaskList], ?_, by simp [validateTaskList]⟩
    intro ids1 h
    simp only [validateTaskList, Except.ok.injEq] at h
    subst h
    simp
  | cons task rest ih =>
    intro i taskIDs
    unfold validateTaskList
    cases hv : ValidateTask parseDuration task i workflowIndex with
    | some err =>
      have hna : ¬ TaskAcceptable parseDuration task := by
        rw [← ValidateTask_none_iff parseDuration task i workflowIndex, hv]
        simp
      refine ⟨?_, by simp, ?_⟩
      · simp only [reduceCtorEq, exists_false, List.mem_cons, forall_eq_or_imp, false_iff,
          not_and]
        intro h
        exact absurd h hna
      · intro msg hmsg
        simp only [Except.error.injEq] at hmsg
        exact hmsg ▸ ValidateTask_names parseDuration task i workflowIndex err hv
    | none =>
      have ha : TaskAcceptable parseDuration task :=
        (ValidateTask_none_iff parseDuration task i workflowIndex).mp hv
      obtain ⟨h1, h2, h3⟩ := ih (i + 1) (Function.update taskIDs task.ID true)
      refine ⟨?_, ?_, h3⟩
      · rw [h1]
        simp [ha]
      · intro ids1 hok x
        rw [h2 ids1 hok x]
        by_cases hx : x = task.ID
        · subst hx; simp
        · simp [Function.update_noteq hx, hx]

theorem validateDependsOn_spec (workflowIndex i : Nat) (taskIDs : String → Bool) :
    ∀ ds : List String,
      (validateDependsOn workflowIndex i taskIDs ds = none ↔ ∀ d ∈ ds, taskIDs d = true) ∧
      (∀ msg, validateDependsOn workflowIndex i taskIDs ds = some msg →
        NamesWorkflow workflowIndex msg) := by
  intro ds
  induction ds with
  | nil => simp [validateDependsOn]
  | cons d rest ih =>
    unfold validateDependsOn
    by_cases hd : taskIDs d = false
    · simp only [hd, ↓reduceIte, reduceCtorEq, List.mem_cons, forall_eq_or_imp,
        Bool.false_eq_true, false_and, Option.some.injEq, forall_eq', true_and]
      rw [String.append_assoc, String.append_assoc]
      exact taskPath_names _ _ _
    · have hd1 : taskIDs d = true := by simpa using hd
      simp only [hd1, Bool.true_eq_false, ↓reduceIte, List.mem_cons, forall_eq_or_imp, true_and]
      exact ih

theorem validateDependencies_spec (workflowIndex : Nat) (taskIDs : String → Bool) :
    ∀ (tasks : List Task) (i : Nat),
      (validateDependencies workflowIndex taskIDs tasks i = none ↔
        ∀ t ∈ tasks, ∀ d ∈ t.DependsOn, taskIDs d = true) ∧
      (∀ msg, validateDependencies workflowIndex taskIDs tasks i = some msg →
        NamesWorkflow workflowIndex msg) := by
  intro tasks
  induction tasks with
  | nil => intro i; simp [validateDependencies]
  | cons task rest ih =>
    intro i
    unfold validateDependencies
    obtain ⟨g1, g2⟩ := validateDependsOn_spec workflowIndex i taskIDs task.DependsOn
    cases hv : validateDependsOn workflowIndex i taskIDs task.DependsOn with
    | some err =>
      have hn : ¬ ∀ d ∈ task.DependsOn, taskIDs d = true := by
        rw [← g1, hv]; simp
      refine ⟨?_, ?_⟩
      · simp only [reduceCtorEq, List.mem_cons, forall_eq_or_imp, false_iff, not_and]
        intro h
        exact absurd h hn
      · intro msg hmsg
        simp only [Option.some.injEq] at hmsg
        exact hmsg ▸ g2 err hv
    | none =>
      have hy := g1.mp hv
      obtain ⟨h1, h2⟩ := ih (i + 1)
      refine ⟨?_, h2⟩
      simp only [h1, List.mem_cons, forall_eq_or_imp]
      exact ⟨fun h => ⟨hy, h⟩, fun h => h.2⟩

theorem workflowIndex_names (index : Nat) (text tail : String) (h : text = "]" ++ tail) :
    NamesWorkflow index ("workflow[" ++ toString index ++ text) :=
  ⟨tail, by rw [h]; simp only [String.append_assoc]⟩

/-- `ValidateWorkflow` accepts exactly the acceptable workflows, and its error
names the workflow. -/
theorem ValidateWorkflow_spec (parseDuration : String → Option String) (workflow : Workflow)
    (index : Nat) :
    (ValidateWorkflow parseDuration workflow index = none ↔
      WorkflowAcceptable parseDuration workflow) ∧
    (∀ msg, ValidateWorkflow parseDuration workflow index = some msg →
      NamesWorkflow index msg) := by
  by_cases h1 : workflow.Name = ""
  · have hv : ValidateWorkflow parseDuration workflow index
        = some ("workflow[" ++ toString index ++ "]: name is required") := by
      simp [ValidateWorkflow, h1]
    rw [hv]
    refine ⟨⟨fun h => by simp at h, fun h => absurd h1 h.1⟩, ?_⟩
    intro msg hmsg
    simp only [Option.some.injEq] at hmsg
    exact hmsg ▸ workflowIndex_names index _ ": name is required" (by decide)
  by_cases h2 : workflow.Schedule = ""
  · have hv : ValidateWorkflow parseDuration workflow index
        = some ("workflow[" ++ toString index ++ "]: schedule is required") := by
      simp [ValidateWorkflow, h1, h2]
    rw [hv]
    refine ⟨⟨fun h => by simp at h, fun h => absurd h2 h.2.1⟩, ?_⟩
    intro msg hmsg
    simp only [Option.some.injEq] at hmsg
    exact hmsg ▸ workflowIndex_names index _ ": schedule is required" (by decide)
  by_cases h3 : workflow.Tasks.length = 0
  · have hv : ValidateWorkflow parseDuration workflow index
        = some ("workflow[" ++ toString index ++ "]: at least one task is required") := by
      simp [ValidateWorkflow, h1, h2, h3]
    rw [hv]
    refine ⟨⟨fun h => by simp at h, fun h => absurd (List.length_eq_zero.mp h3) h.2.2.1⟩, ?_⟩
    intro msg hmsg
    simp only [Option.some.injEq] at hmsg
    exact hmsg ▸ workflowIndex_names index _ ": at least one task is required" (by decide)
  have h3' : workflow.Tasks ≠ [] := fun h => h3 (by rw [h]; rfl)
  obtain ⟨g1, g2, g3⟩ := validateTaskList_spec parseDuration index workflow.Tasks 0
    (fun _ => false)
  cases hl : validateTaskList parseDuration index workflow.Tasks 0 (fun _ => false) with
  | error err =>
    have hv : ValidateWorkflow parseDuration workflow index = some err := by
      simp [ValidateWorkflow, h1, h2, h3, hl]
    have hn : ¬ ∀ t ∈ workflow.Tasks, TaskAcceptable parseDuration t := by
      rw [← g1, hl]; simp
    rw [hv]
    refine ⟨⟨fun h => by simp at h, fun h => absurd h.2.2.2.1 hn⟩, ?_⟩
    intro msg hmsg
    simp only [Option.some.injEq] at hmsg
    exact hmsg ▸ g3 err hl
  | ok taskIDs =>
    have hv : ValidateWorkflow parseDuration workflow index
        = validateDependencies index taskIDs workflow.Tasks 0 := by
      simp [ValidateWorkflow, h1, h2, h3, hl]
    have hall : ∀ t ∈ workflow.Tasks, TaskAcceptable parseDuration t := g1.mp ⟨taskIDs, hl⟩
    have hids := g2 taskIDs hl
    obtain ⟨k1, k2⟩ := validateDependencies_spec index taskIDs workflow.Tasks 0
    rw [hv]
    refine ⟨?_, k2⟩
    rw [k1]
    constructor
    · intro h
      refine ⟨h1, h2, h3', hall, ?_⟩
      intro t ht d hd
      have := (hids d).mp (h t ht d hd)
      simp only [Bool.false_eq_true, false_or] at this
      obtain ⟨u, hu, hud⟩ := List.mem_map.mp this
      exact ⟨u, hu, hud⟩
    · rintro ⟨_, _, _, _, h⟩ t ht d hd
      obtain ⟨u, hu, hud⟩ := h t ht d hd
      exact (hids d).mpr (Or.inr (hud ▸ List.mem_map_of_mem _ hu))

/-- The loop of `ValidateConfig` accepts exactly the lists of acceptable
workflows, and its error names the first workflow that is not acceptable. -/
theorem validateWorkflows_spec (parseDuration : String → Option String) :
    ∀ (ws : List Workflow) (i : Nat),
      (validateWorkflows parseDuration ws i = none ↔
        ∀ w ∈ ws, WorkflowAcceptable parseDuration w) ∧
      (∀ pre w post, ws = pre ++ w :: post →
        (∀ u ∈ pre, WorkflowAcceptable parseDuration u) →
        ¬ WorkflowAcceptable parseDuration w →
        ∃ msg, validateWorkflows parseDuration ws i = some msg ∧
          NamesWorkflow (i + pre.length) msg) := by
  intro ws
  induction ws with
  | nil =>
    intro i
    refine ⟨by simp [validateWorkflows], ?_⟩
    intro pre w post h
    simp at h
  | cons workflow rest ih =>
    intro i
    obtain ⟨g1, g2⟩ := ValidateWorkflow_spec parseDuration workflow i
    obtain ⟨h1, h2⟩ := ih (i + 1)
    unfold validateWorkflows
    cases hv : ValidateWorkflow parseDuration workflow i with
    | some err =>
      have hna : ¬ WorkflowAcceptable parseDuration workflow := by
        rw [← g1, hv]; simp
      refine ⟨?_, ?_⟩
      · simp only [reduceCtorEq, List.mem_cons, forall_eq_or_imp, false_iff, not_and]
        intro h
        exact absurd h hna
      · intro pre w post hsplit hpre _
        cases pre with
        | nil => exact ⟨err, rfl, by simpa using g2 err hv⟩
        | cons u pre1 =>
          simp only [List.cons_append, List.cons.injEq] at hsplit
          exact absurd (hsplit.1 ▸ hpre u (List.mem_cons_self _ _)) hna
    | none =>
      have ha := g1.mp hv
      refine ⟨?_, ?_⟩
      · simp only [h1, List.mem_cons, forall_eq_or_imp]
        exact ⟨fun h => ⟨ha, h⟩, fun h => h.2⟩
      · intro pre w post hsplit hpre hw
        cases pre with
        | nil =>
          simp only [List.nil_append, List.cons.injEq] at hsplit
          exact absurd (hsplit.1 ▸ ha) hw
        | cons u pre1 =>
          simp only [List.cons_append, List.cons.injEq] at hsplit
          obtain ⟨msg, hm1, hm2⟩ := h2 pre1 w post hsplit.2
            (fun x hx => hpre x (List.mem_cons_of_mem _ hx)) hw
          refine ⟨msg, hm1, ?_⟩
          rw [List.length_cons, show i + (pre1.length + 1) = i + 1 + pre1.length by omega]
          exact hm2

/-- The scheduled path is the call of the runner followed by
`finishExecution`. -/
theorem executeWorkflow_eq_finishExecution (envs : Nat → TaskEnv) (workflow : Workflow)
    (s : Scheduler) :
    executeWorkflow envs workflow s = finishExecution workflow (runWorkflow envs workflow) s :=
  rfl

/-- On a closed report channel `Stop` panics. -/
theorem Stop_of_closed (s : Scheduler) (h : s.reportChan.closed = true) :
    Stop s = .panic "close of closed channel" := by
  simp [Stop, closeChan, h]

/-- On a closed report channel the end of a scheduled execution panics. -/
theorem finishExecution_of_closed (workflow : Workflow) (execution : WorkflowExecution)
    (s : Scheduler) (h : s.reportChan.closed = true) :
    finishExecution workflow execution s = .panic "send on closed channel" := by
  simp [finishExecution, storeExecution, trySend, h]

/-- A first `Stop` closes the report channel. -/
theorem Stop_of_open (s : Scheduler) (h : s.reportChan.closed = false) :
    Stop s = .ok { s with cronRunning := false, cancelled := true
                          reportChan := { s.reportChan with closed := true } } := by
  simp [Stop, closeChan, h]

/-! ## The parser's copy of the resolver -/

theorem GetTaskDependencies_eq (w : Workflow) : GetTaskDependencies w = depsOf w.Tasks := rfl

theorem visitDeps_congr (v1 v2 : String → SortState → VisitOutcome) :
    ∀ (ds : List String), (∀ d ∈ ds, ∀ s, v1 d s = v2 d s) →
      ∀ s, visitDeps v1 ds s = visitDeps v2 ds s := by
  intro ds
  induction ds with
  | nil => intro _ s; rfl
  | cons d rest ih =>
    intro h s
    simp only [visitDeps]
    rw [h d (List.mem_cons_self _ _) s]
    cases v2 d s with
    | done s1 => exact ih (fun x hx => h x (List.mem_cons_of_mem _ hx)) s1
    | failed msg => rfl
    | outOfFuel => rfl

theorem visitDeps_of_done (v : String → SortState → VisitOutcome) (s : SortState) :
    ∀ (ds : List String), (∀ d ∈ ds, v d s = .done s) → visitDeps v ds s = .done s := by
  intro ds
  induction ds with
  | nil => intro _; rfl
  | cons d rest ih =>
    intro h
    simp only [visitDeps]
    rw [h d (List.mem_cons_self _ _)]
    exact ih (fun x hx => h x (List.mem_cons_of_mem _ hx))

/-- With pairwise distinct ids the parser's search finds the task itself. -/
theorem appendTask_of_nodup (result : List Task) :
    ∀ (tasks : List Task), (tasks.map Task.ID).Nodup → ∀ t ∈ tasks,
      appendTask t.ID tasks result = result ++ [t] := by
  intro tasks
  induction tasks with
  | nil => intro _ t ht; simp at ht
  | cons u rest ih =>
    intro hnd t ht
    simp only [List.map_cons, List.nodup_cons] at hnd
    simp only [appendTask]
    rcases List.mem_cons.mp ht with rfl | hmem
    · simp
    · have hne : u.ID ≠ t.ID := fun he => hnd.1 (he ▸ List.mem_map_of_mem _ hmem)
      rw [if_neg hne]
      exact ih hnd.2 t hmem

/-- An id that no task carries makes the parser's search add nothing. -/
theorem appendTask_of_not_mem (taskID : String) (result : List Task) :
    ∀ (tasks : List Task), taskID ∉ tasks.map Task.ID →
      appendTask taskID tasks result = result := by
  intro tasks
  induction tasks with
  | nil => intro _; rfl
  | cons u rest ih =>
    intro h
    simp only [List.map_cons, List.mem_cons, not_or] at h
    simp only [appendTask]
    rw [if_neg (fun he => h.1 he.symm)]
    exact ih h.2

/-- The two closures agree on a set of ids that is closed under the recorded
dependencies and on which the parser's search adds what the executor's map
holds. -/
theorem TopologicalSort_visit_eq (deps : String → List String) (tasks : List Task)
    (taskMap : String → Task) (K : String → Prop)
    (hK : ∀ x, K x → (∀ r, appendTask x tasks r = r ++ [taskMap x]) ∧ ∀ d ∈ deps x, K d) :
    ∀ (fuel : Nat) (taskID : String) (s : SortState), K taskID →
      TopologicalSort.visit deps tasks fuel taskID s = visit deps taskMap fuel taskID s := by
  intro fuel
  induction fuel with
  | zero => intro taskID s _; rfl
  | succ f ih =>
    intro taskID s hid
    obtain ⟨happ, hdeps⟩ := hK taskID hid
    have hd : ∀ s0, visitDeps (TopologicalSort.visit deps tasks f) (deps taskID) s0
        = visitDeps (visit deps taskMap f) (deps taskID) s0 :=
      visitDeps_congr _ _ _ (fun d hd s0 => ih d s0 (hdeps d hd))
    simp only [TopologicalSort.visit, visit, hd, happ]

theorem TopologicalSort_visitTasks_eq (deps : String → List String) (tasks : List Task)
    (taskMap : String → Task) (K : String → Prop)
    (hK : ∀ x, K x → (∀ r, appendTask x tasks r = r ++ [taskMap x]) ∧ ∀ d ∈ deps x, K d)
    (fuel : Nat) :
    ∀ (l : List Task) (s : SortState), (∀ t ∈ l, K t.ID) →
      TopologicalSort.visitTasks deps tasks fuel l s = visitTasks deps taskMap fuel l s := by
  intro l
  induction l with
  | nil => intro s _; rfl
  | cons t rest ih =>
    intro s h
    have hrest : ∀ u ∈ rest, K u.ID := fun u hu => h u (List.mem_cons_of_mem _ hu)
    simp only [TopologicalSort.visitTasks, visitTasks]
    rw [TopologicalSort_visit_eq deps tasks taskMap K hK fuel t.ID s
      (h t (List.mem_cons_self _ _))]
    by_cases hv : s.visited t.ID = true
    · rw [if_pos hv, if_pos hv]
      exact ih s hrest
    · rw [if_neg hv, if_neg hv]
      cases visit deps taskMap fuel t.ID s with
      | done s1 => exact ih s1 hrest
      | failed msg => rfl
      | outOfFuel => rfl

/-- The two resolvers return the same result on a workflow with pairwise
distinct task ids in which every dependency is the id of a task. -/
theorem TopologicalSort_eq_sort (w : Workflow) (hnd : (w.Tasks.map Task.ID).Nodup)
    (hclosed : ∀ t ∈ w.Tasks, ∀ d ∈ t.DependsOn, d ∈ w.Tasks.map Task.ID) :
    TopologicalSort w = sortTasksByDependencies w := by
  have hK : ∀ x, x ∈ w.Tasks.map Task.ID →
      (∀ r, appendTask x w.Tasks r = r ++ [taskMapOf w.Tasks x]) ∧
      ∀ d ∈ depsOf w.Tasks x, d ∈ w.Tasks.map Task.ID := by
    intro x hx
    obtain ⟨t, ht, rfl⟩ := List.mem_map.mp hx
    refine ⟨fun r => ?_, fun d hd => ?_⟩
    · rw [taskMapOf_of_nodup w.Tasks hnd t ht]
      exact appendTask_of_nodup r w.Tasks hnd t ht
    · rw [depsOf_of_nodup w.Tasks hnd t ht] at hd
      exact hclosed t ht d hd
  unfold TopologicalSort sortTasksByDependencies
  rw [GetTaskDependencies_eq,
    TopologicalSort_visitTasks_eq (depsOf w.Tasks) w.Tasks (taskMapOf w.Tasks)
      (fun x => x ∈ w.Tasks.map Task.ID) hK (sortFuel w) w.Tasks _
      (fun t ht => List.mem_map_of_mem _ ht)]

/-- On an input in which every task stands after its dependencies, the loop
of the resolver visits the tasks one by one and finds every dependency done. -/
theorem visitTasks_of_ordered (tasks : List Task) (hnd : (tasks.map Task.ID).Nodup)
    (hord : DependenciesEarlier tasks) :
    ∀ (post pre : List Task) (s : SortState), tasks = pre ++ post →
      (∀ x, s.visited x = true ↔ x ∈ pre.map Task.ID) → (∀ x, s.temp x = false) →
      s.result = pre →
      ∃ s1, visitTasks (depsOf tasks) (taskMapOf tasks) (tasks.length + 1) post s = .done s1 ∧
        s1.result = tasks := by
  intro post
  induction post with
  | nil =>
    intro pre s hsplit _ _ hres
    refine ⟨s, rfl, ?_⟩
    rw [hres, hsplit, List.append_nil]
  | cons t rest ih =>
    intro pre s hsplit hvis htemp hres
    have ht : t ∈ tasks := by rw [hsplit]; simp
    have hnd2 : (pre.map Task.ID ++ t.ID :: rest.map Task.ID).Nodup := by
      have := hnd
      rw [hsplit] at this
      simpa using this
    have hnotpre : t.ID ∉ pre.map Task.ID := by
      intro hmem
      exact (List.nodup_append.mp hnd2).2.2 hmem (List.mem_cons_self _ _)
    have hv : ¬ s.visited t.ID = true := fun h => hnotpre ((hvis t.ID).mp h)
    have hlen : tasks.length = (pre.length + rest.length) + 1 := by
      rw [hsplit]; simp; omega
    have hdeps : depsOf tasks t.ID = t.DependsOn := depsOf_of_nodup tasks hnd t ht
    have hmap : taskMapOf tasks t.ID = t := taskMapOf_of_nodup tasks hnd t ht
    have hinner : ∀ d ∈ t.DependsOn,
        visit (depsOf tasks) (taskMapOf tasks) (pre.length + rest.length + 1) d
          { s with temp := Function.update s.temp t.ID true }
        = .done { s with temp := Function.update s.temp t.ID true } := by
      intro d hd
      have hdpre : d ∈ pre.map Task.ID := hord pre t rest hsplit d hd
      have hne : d ≠ t.ID := fun he => hnotpre (he ▸ hdpre)
      rw [visit]
      simp only [Function.update_noteq hne, htemp d, Bool.false_eq_true, if_false,
        (hvis d).mpr hdpre, if_true]
    have hvisit : visit (depsOf tasks) (taskMapOf tasks) (tasks.length + 1) t.ID s
        = .done { temp := Function.update (Function.update s.temp t.ID true) t.ID false
                  visited := Function.update s.visited t.ID true
                  result := s.result ++ [t] } := by
      rw [hlen, visit]
      simp only [htemp t.ID, Bool.false_eq_true, if_false, hv, hdeps]
      rw [visitDeps_of_done _ _ t.DependsOn hinner]
      simp only [hmap]
    simp only [visitTasks, if_neg hv, hvisit]
    apply ih (pre ++ [t])
    · rw [hsplit]; simp
    · intro x
      simp only [List.map_append, List.map_cons, List.map_nil, List.mem_append,
        List.mem_singleton]
      by_cases hx : x = t.ID
      · subst hx
        simp
      · show Function.update s.visited t.ID true x = true ↔ _
        rw [Function.update_noteq hx, hvis x]
        simp [hx]
    · intro x
      by_cases hx : x = t.ID
      · subst hx
        simp
      · show Function.update (Function.update s.temp t.ID true) t.ID false x = false
        rw [Function.update_noteq hx, Function.update_noteq hx]
        exact htemp x
    · simp only [hres]

/-- The executor's resolver leaves an already ordered input unchanged. -/
theorem sort_of_ordered (w : Workflow) (hnd : (w.Tasks.map Task.ID).Nodup)
    (hord : DependenciesEarlier w.Tasks) :
    sortTasksByDependencies w = .order w.Tasks := by
  obtain ⟨s1, h1, h2⟩ := visitTasks_of_ordered w.Tasks hnd hord w.Tasks []
    { visited := fun _ => false, temp := fun _ => false, result := [] }
    rfl (fun x => by simp) (fun _ => rfl) rfl
  unfold sortTasksByDependencies sortFuel
  rw [h1]
  simp only [h2]

/-- In an input in which every task stands after its dependencies, every
dependency is the id of a task. -/
theorem closed_of_ordered (tasks : List Task) (hord : DependenciesEarlier tasks) :
    ∀ t ∈ tasks, ∀ d ∈ t.DependsOn, d ∈ tasks.map Task.ID := by
  intro t ht d hd
  obtain ⟨pre, post, hsplit⟩ := List.append_of_mem ht
  have := hord pre t post hsplit d hd
  rw [hsplit]
  simp only [List.map_append, List.mem_append]
  exact Or.inl this

/-- The tasks of `chainWorkflow` stand after their dependencies. -/
theorem chainWorkflow_ordered : DependenciesEarlier chainWorkflow.Tasks := by
  intro pre t post hsplit d hd
  have h : chainWorkflow.Tasks = [task1, task2, task3] := rfl
  rw [h] at hsplit
  match pre, hsplit with
  | [], hs =>
    simp only [List.nil_append, List.cons.injEq] at hs
    rw [← hs.1] at hd
    simp [task1] at hd
  | [a], hs =>
    simp only [List.singleton_append, List.cons.injEq] at hs
    rw [← hs.2.1] at hd
    rw [← hs.1]
    simp [task2] at hd
    simp [hd, task1]
  | [a, b], hs =>
    simp only [List.cons_append, List.nil_append, List.cons.injEq] at hs
    rw [← hs.2.2.1] at hd
    rw [← hs.1, ← hs.2.1]
    simp [task3] at hd
    simp [hd, task2]
  | a :: b :: c :: rest, hs =>
    simp at hs

/-! ## The queries with slices in memory -/

/-- The slice returned by `GetExecutions` is a new one with the contents of the
stored history, and the stored history reads as before. -/
theorem Memory_GetExecutions_read (m : Memory) (executions : List (String × Nat))
    (workflowName : String) (a : Nat) (h : headerOf executions workflowName = some a)
    (hlt : a < m.next) :
    (m.GetExecutions executions workflowName).1 = m.next ∧
    (m.GetExecutions executions workflowName).2.read (m.GetExecutions executions workflowName).1
      = m.read a ∧
    (m.GetExecutions executions workflowName).2.read a = m.read a := by
  have hne : a ≠ m.next := Nat.ne_of_lt hlt
  simp [Memory.GetExecutions, Memory.copyCells, Memory.read, Memory.cellsAt, h,
    Function.update_noteq hne]

/-- Replacing an element of a slice leaves every other slice as it was. -/
theorem Memory_setExecution_read (m : Memory) (a b i : Nat) (c : ExecutionCell) (h : b ≠ a) :
    (m.setExecution a i c).read b = m.read b := by
  simp [Memory.setExecution, Memory.read, Function.update_noteq h]

/-! ## The declared graph -/

/-- For pairwise distinct task ids the declared graph and the recorded graph
have the same paths. -/
theorem transGen_declares_iff (w : Workflow) (hnd : (w.Tasks.map Task.ID).Nodup)
    (a b : String) :
    Relation.TransGen (Declares w) a b ↔ Relation.TransGen (DependsOn w) a b :=
  ⟨Relation.TransGen.mono (fun x y h => (dependsOn_iff_of_nodup w hnd x y).mpr h),
    Relation.TransGen.mono (fun x y h => (dependsOn_iff_of_nodup w hnd x y).mp h)⟩

/-- With pairwise distinct ids and dependencies that all name tasks, an order
returned by the resolver holds every task of the workflow exactly once. -/
theorem sort_perm (w : Workflow) (hnd : (w.Tasks.map Task.ID).Nodup)
    (hclosed : ∀ t ∈ w.Tasks, ∀ d ∈ t.DependsOn, d ∈ w.Tasks.map Task.ID)
    (order : List Task) (hs : sortTasksByDependencies w = .order order) :
    order.Perm w.Tasks := by
  obtain ⟨ids, hres, hnodup, _, hall, horigin⟩ := (sort_spec w).2.2 order hs
  have hsub := ids_subset_keys w hclosed ids horigin
  have hperm : ids.Perm (w.Tasks.map Task.ID) := by
    rw [List.perm_ext_iff_of_nodup hnodup hnd]
    intro x
    constructor
    · exact hsub x
    · intro hx
      obtain ⟨t, ht, hte⟩ := List.mem_map.mp hx
      exact hte ▸ hall t ht
  have hmap : (w.Tasks.map Task.ID).map (taskMapOf w.Tasks) = w.Tasks := by
    rw [List.map_map]
    conv_rhs => rw [← List.map_id w.Tasks]
    apply List.map_congr_left
    intro t ht
    exact taskMapOf_of_nodup w.Tasks hnd t ht
  have hp := hperm.map (taskMapOf w.Tasks)
  rw [hmap] at hp
  rw [hres]
  exact hp

/-- The declared graph of `circularWorkflow` has a cycle through `task1`. -/
theorem circularWorkflow_cycle :
    Relation.TransGen (Declares circularWorkflow) "task1" "task1" :=
  Relation.TransGen.tail
    (Relation.TransGen.single
      (show Declares circularWorkflow "task1" "task2" from
        ⟨{ task1 with DependsOn := ["task2"] }, by decide, rfl, by decide⟩))
    (show Declares circularWorkflow "task2" "task1" from
      ⟨{ task2 with DependsOn := ["task1"] }, by decide, rfl, by decide⟩)

/-- In `shadowedCycleWorkflow` the first task declares a dependency on itself. -/
theorem shadowedCycleWorkflow_cycle :
    Relation.TransGen (Declares shadowedCycleWorkflow) "task1" "task1" :=
  Relation.TransGen.single ⟨selfTask, by decide, rfl, by decide⟩

/-! ## The claims -/

/-- C1: for a workflow with pairwise distinct task ids, whose dependencies all
name tasks of the workflow and whose dependency graph has no cycle,
`sortTasksByDependencies` returns an order; that order holds every task of the
workflow exactly once, and in it every task comes after every task it depends
on, directly or transitively. -/
theorem sortTasksByDependencies_respects_dependencies (w : Workflow)
    (hdistinct : (w.Tasks.map Task.ID).Nodup)
    (hclosed : ∀ t ∈ w.Tasks, ∀ d ∈ t.DependsOn, d ∈ w.Tasks.map Task.ID)
    (hacyc : ∀ a, ¬ Relation.TransGen (Declares w) a a) :
    ∃ order, sortTasksByDependencies w = .order order ∧ order.Perm w.Tasks ∧
      ∀ (i : Nat) (hi : i < order.length) (d : String),
        Relation.TransGen (Declares w) (order.get ⟨i, hi⟩).ID d →
        ∃ (j : Nat) (hj : j < order.length), j < i ∧ (order.get ⟨j, hj⟩).ID = d := by
  obtain ⟨h1, h2, h3⟩ := sort_spec w
  cases hs : sortTasksByDependencies w with
  | outOfFuel => exact absurd hs h1
  | error msg =>
    obtain ⟨c, _, hc⟩ := h2 msg hs
    exact absurd ((transGen_declares_iff w hdistinct c c).mpr hc) (hacyc c)
  | order order =>
    refine ⟨order, rfl, sort_perm w hdistinct hclosed order hs, ?_⟩
    obtain ⟨ids, hres, hnodup, htopo, hall, horigin⟩ := h3 order hs
    have hsub := ids_subset_keys w hclosed ids horigin
    subst hres
    intro i hi d hd
    have hd := (transGen_declares_iff w hdistinct _ _).mp hd
    have hi' : i < ids.length := by simpa using hi
    have hidi : ((ids.map (taskMapOf w.Tasks)).get ⟨i, hi⟩).ID = ids.get ⟨i, hi'⟩ := by
      simp only [List.get_eq_getElem, List.getElem_map]
      exact (taskMapOf_of_mem w.Tasks _ (hsub _ (List.getElem_mem _))).2
    rw [hidi] at hd
    have hlt := indexOf_lt_of_transGen w ids htopo hall _ _ hd
    have hii : ids.indexOf (ids.get ⟨i, hi'⟩) = i := by
      simpa using List.indexOf_getElem hnodup i hi'
    rw [hii] at hlt
    have hj' : ids.indexOf d < ids.length := lt_trans hlt hi'
    refine ⟨ids.indexOf d, by simpa using hj', hlt, ?_⟩
    simp only [List.get_eq_getElem, List.getElem_map]
    rw [List.getElem_indexOf hj']
    exact (taskMapOf_of_mem w.Tasks d (hsub d (List.indexOf_lt_length.mp hj'))).2

/-- C1 at the workflow of `TestTaskRunner_ExecuteWorkflow`. -/
theorem sortTasksByDependencies_respects_dependencies_witness :
    ∃ order, sortTasksByDependencies testWorkflow = .order order ∧
      order.Perm testWorkflow.Tasks ∧
      ∀ (i : Nat) (hi : i < order.length) (d : String),
        Relation.TransGen (Declares testWorkflow) (order.get ⟨i, hi⟩).ID d →
        ∃ (j : Nat) (hj : j < order.length), j < i ∧ (order.get ⟨j, hj⟩).ID = d :=
  sortTasksByDependencies_respects_dependencies testWorkflow (by decide) (by decide)
    (fun a h => testWorkflow_acyclic a ((transGen_declares_iff testWorkflow (by decide) a a).mp h))

/-- C2: for a workflow with pairwise distinct task ids, whose dependencies all
name tasks of the workflow and whose dependency graph has no cycle, the order
returned by `sortTasksByDependencies` is a permutation of `workflow.Tasks`. -/
theorem sortTasksByDependencies_perm (w : Workflow)
    (hnd : (w.Tasks.map Task.ID).Nodup)
    (hclosed : ∀ t ∈ w.Tasks, ∀ d ∈ t.DependsOn, d ∈ w.Tasks.map Task.ID)
    (hacyc : ∀ a, ¬ Relation.TransGen (DependsOn w) a a) :
    ∃ order, sortTasksByDependencies w = .order order ∧ order.Perm w.Tasks := by
  obtain ⟨h1, h2, h3⟩ := sort_spec w
  cases hs : sortTasksByDependencies w with
  | outOfFuel => exact absurd hs h1
  | error msg =>
    obtain ⟨c, _, hc⟩ := h2 msg hs
    exact absurd hc (hacyc c)
  | order order =>
    refine ⟨order, rfl, ?_⟩
    obtain ⟨ids, hres, hnodup, _, hall, horigin⟩ := h3 order hs
    have hsub := ids_subset_keys w hclosed ids horigin
    have hperm : ids.Perm (w.Tasks.map Task.ID) := by
      rw [List.perm_ext_iff_of_nodup hnodup hnd]
      intro x
      constructor
      · exact hsub x
      · intro hx
        obtain ⟨t, ht, hte⟩ := List.mem_map.mp hx
        exact hte ▸ hall t ht
    have hmap : (w.Tasks.map Task.ID).map (taskMapOf w.Tasks) = w.Tasks := by
      rw [List.map_map]
      conv_rhs => rw [← List.map_id w.Tasks]
      apply List.map_congr_left
      intro t ht
      exact taskMapOf_of_nodup w.Tasks hnd t ht
    have hp := hperm.map (taskMapOf w.Tasks)
    rw [hmap] at hp
    rw [hres]
    exact hp

/-- C2 at the workflow of `TestTaskRunner_ExecuteWorkflow`. -/
theorem sortTasksByDependencies_perm_witness :
    ∃ order, sortTasksByDependencies testWorkflow = .order order ∧
      order.Perm testWorkflow.Tasks :=
  sortTasksByDependencies_perm testWorkflow (by decide) (by decide) testWorkflow_acyclic

/-- C3 fails on the code when two tasks share an id: `shadowedCycleWorkflow`
is accepted by `ValidateWorkflow` and its first task depends on itself, but the
second task overwrites the recorded dependencies of the id, and
`sortTasksByDependencies` returns an order and no error. -/
theorem sortTasksByDependencies_misses_declared_cycle :
    ValidateWorkflow (fun _ => none) shadowedCycleWorkflow 0 = none ∧
    Relation.TransGen (Declares shadowedCycleWorkflow) "task1" "task1" ∧
    sortTasksByDependencies shadowedCycleWorkflow = .order [task1] :=
  ⟨by decide, shadowedCycleWorkflow_cycle, by decide⟩

/-- C3 as amended: for a workflow with pairwise distinct task ids whose
dependency graph contains a cycle (some task depends on itself, directly or
transitively), `sortTasksByDependencies` returns the circular-dependency error,
hence no order, and the task id named in the message lies on a dependency
cycle. -/
theorem sortTasksByDependencies_cycle (w : Workflow)
    (hdistinct : (w.Tasks.map Task.ID).Nodup)
    (hcyc : ∃ a, Relation.TransGen (Declares w) a a) :
    ∃ c, sortTasksByDependencies w = .error (cycleError c) ∧
      Relation.TransGen (Declares w) c c := by
  obtain ⟨a, ha⟩ := hcyc
  obtain ⟨c, hs, hc⟩ := sort_error_of_cycle w ⟨a, (transGen_declares_iff w hdistinct a a).mp ha⟩
  exact ⟨c, hs, (transGen_declares_iff w hdistinct c c).mpr hc⟩

/-- C3 as amended, at the workflow of
`TestYAMLParser_TopologicalSort_CircularDependency`. -/
theorem sortTasksByDependencies_cycle_witness :
    (circularWorkflow.Tasks.map Task.ID).Nodup ∧
    ∃ c, sortTasksByDependencies circularWorkflow = .error (cycleError c) ∧
      Relation.TransGen (Declares circularWorkflow) c c :=
  ⟨by decide,
    sortTasksByDependencies_cycle circularWorkflow (by decide) ⟨"task1", circularWorkflow_cycle⟩⟩

/-- C4: when the task order resolves, the results in `TaskResults` are those
of the tasks of the resolved order up to and including the first one whose
result has `Success = false`, or of the whole order when none fails; so their
task ids are a prefix of the ids of the resolved order. -/
theorem ExecuteWorkflow_taskResults (envs : Nat → TaskEnv) (w : Workflow) (order : List Task)
    (hs : sortTasksByDependencies w = .order order) :
    ∃ e, ExecuteWorkflow envs w = some e ∧
      e.TaskResults = throughFirstFailure (allResults envs w.Name order 0) ∧
      e.TaskResults.map ExecutionResult.TaskID
        = (order.take e.TaskResults.length).map Task.ID := by
  refine ⟨_, ExecuteWorkflow_of_order envs w order hs, ?_⟩
  obtain ⟨h1, _, _⟩ := runTasks_of_order envs w order hs
    { WorkflowID := w.Name, Status := "running", TaskResults := [], ErrorMessage := "" }
  simp only [List.nil_append] at h1
  refine ⟨h1, ?_⟩
  rw [h1]
  have hp := throughFirstFailure_prefix (allResults envs w.Name order 0)
  conv_lhs => rw [List.prefix_iff_eq_take.mp hp]
  rw [List.map_take, List.map_take, allResults_map_taskID]

/-- C4 at the workflow of `TestTaskRunner_ExecuteWorkflow_WithFailure`, where
every command fails. -/
theorem ExecuteWorkflow_taskResults_witness :
    ∃ e, ExecuteWorkflow (fun _ => alwaysFailing) testWorkflow = some e ∧
      e.TaskResults = throughFirstFailure
        (allResults (fun _ => alwaysFailing) testWorkflow.Name [task1, task2] 0) ∧
      e.TaskResults.map ExecutionResult.TaskID
        = ([task1, task2].take e.TaskResults.length).map Task.ID :=
  ExecuteWorkflow_taskResults (fun _ => alwaysFailing) testWorkflow [task1, task2] (by decide)

/-- C5: the execution returned by `ExecuteWorkflow` has status `completed` if
and only if the task order resolved and `TaskResults` holds, for each task of
the resolved order in turn, a result of that task with `Success = true`; the
status is otherwise `failed`. -/
theorem ExecuteWorkflow_status (envs : Nat → TaskEnv) (w : Workflow) :
    ∃ e, ExecuteWorkflow envs w = some e ∧
      (e.Status = "completed" ↔
        ∃ order, sortTasksByDependencies w = .order order ∧
          List.Forall₂ (fun (t : Task) (r : ExecutionResult) =>
            r.TaskID = t.ID ∧ r.Success = true) order e.TaskResults) ∧
      (e.Status = "completed" ∨ e.Status = "failed") := by
  cases hs : sortTasksByDependencies w with
  | outOfFuel => exact absurd hs (sort_spec w).1
  | error msg =>
    refine ⟨_, ExecuteWorkflow_of_error envs w msg hs, ?_, Or.inr rfl⟩
    constructor
    · intro h
      exact absurd h (show ("failed" : String) ≠ "completed" by decide)
    · rintro ⟨order, ho, _⟩
      simp at ho
  | order order =>
    refine ⟨_, ExecuteWorkflow_of_order envs w order hs, ?_⟩
    obtain ⟨h1, h3, h4⟩ := runTasks_of_order envs w order hs
      { WorkflowID := w.Name, Status := "running", TaskResults := [], ErrorMessage := "" }
    simp only [List.nil_append] at h1
    by_cases hall : ∀ r ∈ allResults envs w.Name order 0, r.Success = true
    · refine ⟨?_, Or.inl (h3 hall)⟩
      constructor
      · intro _
        refine ⟨order, rfl, ?_⟩
        rw [h1, throughFirstFailure_of_success _ hall]
        exact allResults_forall₂ envs w.Name order 0 hall
      · intro _
        exact h3 hall
    · have hex : ∃ r ∈ allResults envs w.Name order 0, r.Success = false := by
        by_contra hn
        apply hall
        intro r hr
        cases hrs : r.Success with
        | true => rfl
        | false => exact absurd ⟨r, hr, hrs⟩ hn
      refine ⟨?_, Or.inr (h4 hex)⟩
      constructor
      · intro h
        rw [h4 hex] at h
        exact absurd h (show ("failed" : String) ≠ "completed" by decide)
      · rintro ⟨order1, ho, hf⟩
        simp only [SortResult.order.injEq] at ho
        subst ho
        exfalso
        apply hall
        rw [h1] at hf
        apply throughFirstFailure_length_eq _ _ (forall₂_success hf)
        rw [← hf.length_eq, allResults_length]

/-- C6: a task is run only after the tasks it depends on have run with success
in the same run: the results in `TaskResults` are, in order, results of the
first tasks of the resolved order, and for each of them every id in the
`dependsOn` of its task has an earlier result in `TaskResults` with
`Success = true`. When the order does not resolve, nothing is run. -/
theorem ExecuteWorkflow_dependencies_first (envs : Nat → TaskEnv) (w : Workflow) :
    ∃ e, ExecuteWorkflow envs w = some e ∧
      (((∃ msg, sortTasksByDependencies w = .error msg) ∧ e.TaskResults = []) ∨
        ∃ order, sortTasksByDependencies w = .order order ∧
          ∀ (i : Nat) (hi : i < e.TaskResults.length), ∃ ho : i < order.length,
            (e.TaskResults.get ⟨i, hi⟩).TaskID = (order.get ⟨i, ho⟩).ID ∧
            ∀ d ∈ (order.get ⟨i, ho⟩).DependsOn,
              ∃ (j : Nat) (hj : j < e.TaskResults.length), j < i ∧
                (e.TaskResults.get ⟨j, hj⟩).TaskID = d ∧
                (e.TaskResults.get ⟨j, hj⟩).Success = true) := by
  cases hs : sortTasksByDependencies w with
  | outOfFuel => exact absurd hs (sort_spec w).1
  | error msg =>
    exact ⟨_, ExecuteWorkflow_of_error envs w msg hs, Or.inl ⟨⟨msg, rfl⟩, rfl⟩⟩
  | order order =>
    refine ⟨_, ExecuteWorkflow_of_order envs w order hs, Or.inr ⟨order, rfl, ?_⟩⟩
    obtain ⟨h1, _, _⟩ := runTasks_of_order envs w order hs
      { WorkflowID := w.Name, Status := "running", TaskResults := [], ErrorMessage := "" }
    simp only [List.nil_append] at h1
    rw [h1]
    have hp := throughFirstFailure_prefix (allResults envs w.Name order 0)
    have hlen := hp.length_le
    rw [allResults_length] at hlen
    have hget : ∀ (j : Nat) (hj : j < (throughFirstFailure (allResults envs w.Name order 0)).length)
        (hjo : j < order.length),
        (throughFirstFailure (allResults envs w.Name order 0)).get ⟨j, hj⟩
          = ExecuteTask (envs j) (order.get ⟨j, hjo⟩) w.Name := by
      intro j hj hjo
      have h2 := allResults_getElem? envs w.Name order 0 j
      rw [List.getElem?_eq_getElem hjo, Option.map_some', zero_add] at h2
      have h3 := List.getElem?_eq_some.mp h2
      obtain ⟨hja, h3⟩ := h3
      rw [List.get_eq_getElem, hp.getElem hj, h3]
      rfl
    intro i hi
    have ho : i < order.length := lt_of_lt_of_le hi hlen
    refine ⟨ho, ?_, ?_⟩
    · rw [hget i hi ho, ExecuteTask_taskID]
    · intro d hd
      have hsplit : order = order.take i ++ order.get ⟨i, ho⟩ :: order.drop (i + 1) := by
        rw [List.get_eq_getElem, ← List.drop_eq_getElem_cons ho, List.take_append_drop]
      obtain ⟨u, hu, hud⟩ := sort_depsEarlier w order hs _ _ _ hsplit d hd
      obtain ⟨j, hjm, hju⟩ := List.mem_take_iff_getElem.mp hu
      have hji : j < i := lt_of_lt_of_le hjm (min_le_left _ _)
      have hjo : j < order.length := lt_trans hji ho
      have hj : j < (throughFirstFailure (allResults envs w.Name order 0)).length :=
        lt_trans hji hi
      have hsucc : ((throughFirstFailure (allResults envs w.Name order 0)).get ⟨j, hj⟩).Success
          = true :=
        throughFirstFailure_success_of_lt _ j _
          (by rw [List.getElem?_eq_getElem hj]; rfl) (by omega)
      refine ⟨j, hj, hji, ?_, hsucc⟩
      rw [hget j hj hjo] at hsucc ⊢
      rw [ExecuteTask_taskID]
      rcases hud with hud | hud
      · rw [← hud, ← hju]; rfl
      · exfalso
        have hz : order.get ⟨j, hjo⟩ = Task.zero := by
          rw [← hud, ← hju]; rfl
        rw [hz, ExecuteTask_zero] at hsucc
        exact Bool.false_ne_true hsucc

/-- C7: for a task with `retry >= 0` whose command fails on every attempt,
`ExecuteTask` calls the command exactly `max(retry, 1)` times and returns
`Success = false`, and the backoffs it computes are `calculateBackoff(i)` for
the attempts `i` but the last, in order; with `retry = 3` that is 3 attempts
and backoffs of 1 second then 2 seconds. (This holds whether or not the
context completes, so that hypothesis is not asked for.) -/
theorem ExecuteTask_all_attempts_fail (env : TaskEnv) (task : Task) (workflowID : String)
    (hretry : 0 ≤ task.Retry)
    (hfail : ∀ i, (executeCommand (env.proc i) task.Command).ExitCode ≠ 0) :
    (runTask env task workflowID).attempts = (max task.Retry 1).toNat ∧
    (ExecuteTask env task workflowID).Success = false ∧
    (runTask env task workflowID).backoffs
      = (List.range ((max task.Retry 1).toNat - 1)).map (fun i => calculateBackoff (i : Nat)) ∧
    (task.Retry = 3 →
      (runTask env task workflowID).attempts = 3 ∧
      (runTask env task workflowID).backoffs = [second, 2 * second]) := by
  have hm : maxRetriesOf task = max task.Retry 1 := by
    unfold maxRetriesOf
    split_ifs with h0
    · rw [h0]; rfl
    · rw [max_eq_left (by omega)]
  have hpos : 0 < (max task.Retry 1).toNat := by
    have : (1 : Int) ≤ max task.Retry 1 := le_max_right _ _
    omega
  obtain ⟨h1, h2, h3⟩ := retryLoop_all_fail env task.Command (max task.Retry 1) hfail
    (max task.Retry 1).toNat 0 (initialState task workflowID)
    (by
      have : (0 : Int) ≤ max task.Retry 1 := le_trans hretry (le_max_left _ _)
      rw [Int.toNat_of_nonneg this]; simp)
  have ha : (runTask env task workflowID).attempts = (max task.Retry 1).toNat := by
    rw [runTask_attempts, hm, h1]; simp [initialState]
  have hb : (runTask env task workflowID).backoffs
      = (List.range ((max task.Retry 1).toNat - 1)).map (fun i => calculateBackoff (i : Nat)) := by
    rw [runTask_backoffs, hm, h2, List.range_eq_range']; simp [initialState]
  refine ⟨ha, ?_, hb, ?_⟩
  · unfold ExecuteTask
    rw [runTask_success, hm]
    exact h3 hpos
  · intro h3r
    rw [ha, hb, h3r]
    decide

/-- C7 at a task with `retry = 3` whose processes all exit with code 1. -/
theorem ExecuteTask_all_attempts_fail_witness :
    (runTask alwaysFailing retryTask "test-workflow").attempts = (max retryTask.Retry 1).toNat ∧
    (ExecuteTask alwaysFailing retryTask "test-workflow").Success = false ∧
    (runTask alwaysFailing retryTask "test-workflow").backoffs
      = (List.range ((max retryTask.Retry 1).toNat - 1)).map
          (fun i => calculateBackoff (i : Nat)) ∧
    (retryTask.Retry = 3 →
      (runTask alwaysFailing retryTask "test-workflow").attempts = 3 ∧
      (runTask alwaysFailing retryTask "test-workflow").backoffs = [second, 2 * second]) :=
  ExecuteTask_all_attempts_fail alwaysFailing retryTask "test-workflow" (by decide)
    (by
      intro i
      show (executeCommand (ProcOutcome.exitError 1 "") retryTask.Command).ExitCode ≠ 0
      decide)

/-- C8 fails on the code: when the context completes during the first backoff
of a task with `retry = 3`, `ExecuteTask` still goes through the two remaining
attempts, and the error text it returns is that of the last failed command,
not `task cancelled or timed out`. -/
theorem ExecuteTask_timedOut_keeps_retrying :
    (runTask timedOut retryTask "test-workflow").attempts = 3 ∧
    (ExecuteTask timedOut retryTask "test-workflow").RetryCount = 2 ∧
    (ExecuteTask timedOut retryTask "test-workflow").Success = false ∧
    (ExecuteTask timedOut retryTask "test-workflow").Error
      = "command failed with exit code 1: context deadline exceeded" := by
  decide

/-- C9: if attempt `k` (counted from 0, `k < retry`) is the first whose exit
code is 0, `ExecuteTask` calls the command exactly `k + 1` times and returns
`Success = true`, `ExitCode = 0`, `RetryCount = k` and an empty error text. -/
theorem ExecuteTask_stops_at_first_success (env : TaskEnv) (task : Task) (workflowID : String)
    (k : Nat) (hk : (k : Int) < task.Retry)
    (hfail : ∀ i, i < k → (executeCommand (env.proc i) task.Command).ExitCode ≠ 0)
    (hsucc : (executeCommand (env.proc k) task.Command).ExitCode = 0) :
    (runTask env task workflowID).attempts = k + 1 ∧
    (ExecuteTask env task workflowID).Success = true ∧
    (ExecuteTask env task workflowID).ExitCode = 0 ∧
    (ExecuteTask env task workflowID).RetryCount = k ∧
    (ExecuteTask env task workflowID).Error = "" := by
  have hm : maxRetriesOf task = task.Retry := by
    unfold maxRetriesOf
    split_ifs with h0
    · omega
    · rfl
  obtain ⟨h1, h2⟩ := retryLoop_first_success env task.Command task.Retry k hk hsucc
    task.Retry.toNat 0 (initialState task workflowID)
    (by rw [Int.toNat_of_nonneg (by omega)]; simp) (Nat.zero_le _)
    (fun i _ hik => hfail i hik)
  have hres := runTask_result_of_success env task workflowID (by rw [hm, h2])
  rw [hm, h2] at hres
  refine ⟨by rw [runTask_attempts, hm, h1]; simp [initialState], ?_⟩
  unfold ExecuteTask
  rw [hres]
  exact ⟨rfl, rfl, rfl, executeCommand_error_of_exitCode_zero _ _ hsucc⟩

/-- C9 at the task `command with retry` when the first attempt fails and the
second succeeds. -/
theorem ExecuteTask_stops_at_first_success_witness :
    (runTask failingOnce retryTask "test-workflow").attempts = 1 + 1 ∧
    (ExecuteTask failingOnce retryTask "test-workflow").Success = true ∧
    (ExecuteTask failingOnce retryTask "test-workflow").ExitCode = 0 ∧
    (ExecuteTask failingOnce retryTask "test-workflow").RetryCount = (1 : Nat) ∧
    (ExecuteTask failingOnce retryTask "test-workflow").Error = "" :=
  ExecuteTask_stops_at_first_success failingOnce retryTask "test-workflow" 1 (by decide)
    (by
      intro i hi
      have : i = 0 := by omega
      subst this
      decide)
    (by decide)

/-- C10 fails on the code from attempt index 34 on: `2^34` seconds overflow the
64-bit duration, the product wraps to a negative value, and the cap does not
apply to it. -/
theorem calculateBackoff_overflow :
    calculateBackoff 34 = -1266874889709551616 ∧
    calculateBackoff 34 ≠ min (2 ^ 34 * second) (5 * minute) := by
  decide

/-- C13 fails on the code: a dependency that names no task is not rejected.
The workflow whose single task depends on the unknown id `missing` resolves,
to the zero-value task followed by the task. -/
theorem sortTasksByDependencies_accepts_unknown_dependency :
    (∃ t ∈ danglingWorkflow.Tasks, ∃ d ∈ t.DependsOn,
      d ∉ danglingWorkflow.Tasks.map Task.ID) ∧
    sortTasksByDependencies danglingWorkflow = .order [Task.zero, danglingTask] := by
  decide

/-- C13 as amended: in a workflow without a dependency cycle, a recorded
dependency that names no task does not make `sortTasksByDependencies` fail; it
returns an order, and the zero-value task is in it. -/
theorem sortTasksByDependencies_unknown_dependency (w : Workflow) (a d : String)
    (hd : DependsOn w a d) (hun : d ∉ w.Tasks.map Task.ID)
    (hacyc : ∀ c, ¬ Relation.TransGen (DependsOn w) c c) :
    ∃ order, sortTasksByDependencies w = .order order ∧ Task.zero ∈ order := by
  obtain ⟨order, hs⟩ := sort_order_of_acyclic w hacyc
  refine ⟨order, hs, ?_⟩
  obtain ⟨ids, hres, _, htopo, hall, _⟩ := (sort_spec w).2.2 order hs
  have hne : depsOf w.Tasks a ≠ [] := by
    intro he
    unfold DependsOn at hd
    rw [he] at hd
    simp at hd
  obtain ⟨t, ht, hte⟩ := List.mem_map.mp (depsOf_ne_nil w.Tasks a hne)
  have ha : a ∈ ids := hte ▸ hall t ht
  have hlt := htopo a ha d hd
  have hdm : d ∈ ids := List.indexOf_lt_length.mp (lt_of_lt_of_le hlt List.indexOf_le_length)
  rw [hres, ← taskMapOf_of_not_mem w.Tasks d hun]
  exact List.mem_map_of_mem _ hdm

/-- C13 as amended, at the workflow whose task depends on the unknown id
`missing`. -/
theorem sortTasksByDependencies_unknown_dependency_witness :
    ∃ order, sortTasksByDependencies danglingWorkflow = .order order ∧ Task.zero ∈ order :=
  sortTasksByDependencies_unknown_dependency danglingWorkflow "task1" "missing"
    (by decide) (by decide) danglingWorkflow_acyclic

/-- C14 fails on the code when two tasks share an id: in
`shadowedCycleWorkflow`, which `ValidateWorkflow` accepts, the first task
depends on itself, and `ExecuteWorkflow` runs the task recorded for the id and
returns an execution with status `completed` and one task result. -/
theorem ExecuteWorkflow_runs_declared_cycle :
    ValidateWorkflow (fun _ => none) shadowedCycleWorkflow 0 = none ∧
    Relation.TransGen (Declares shadowedCycleWorkflow) "task1" "task1" ∧
    ∃ e, ExecuteWorkflow (fun _ => alwaysOk) shadowedCycleWorkflow = some e ∧
      e.Status = "completed" ∧ e.ErrorMessage = "" ∧
      e.TaskResults.map ExecutionResult.TaskID = ["task1"] ∧
      e.TaskResults.map ExecutionResult.Success = [true] :=
  ⟨by decide, shadowedCycleWorkflow_cycle, _, rfl, by decide, by decide, by decide, by decide⟩

/-- C14 as amended: for a workflow with pairwise distinct task ids whose
dependency graph contains a cycle, `ExecuteWorkflow` returns, whatever the
outside world, an execution with status `failed`, no task result, and the error
message `failed to sort tasks: ` followed by the resolver's error message,
which names a task on a cycle. -/
theorem ExecuteWorkflow_cycle (envs : Nat → TaskEnv) (w : Workflow)
    (hdistinct : (w.Tasks.map Task.ID).Nodup)
    (hcyc : ∃ a, Relation.TransGen (Declares w) a a) :
    ∃ c, Relation.TransGen (Declares w) c c ∧
      sortTasksByDependencies w = .error (cycleError c) ∧
      ExecuteWorkflow envs w = some
        { WorkflowID := w.Name, Status := "failed", TaskResults := []
          ErrorMessage := "failed to sort tasks: " ++ cycleError c } := by
  obtain ⟨a, ha⟩ := hcyc
  obtain ⟨c, hs, hc⟩ := sort_error_of_cycle w ⟨a, (transGen_declares_iff w hdistinct a a).mp ha⟩
  exact ⟨c, (transGen_declares_iff w hdistinct c c).mpr hc, hs,
    ExecuteWorkflow_of_error envs w _ hs⟩

/-- C14 as amended, at the workflow of
`TestYAMLParser_TopologicalSort_CircularDependency`. -/
theorem ExecuteWorkflow_cycle_witness :
    (circularWorkflow.Tasks.map Task.ID).Nodup ∧
    ∃ c, Relation.TransGen (Declares circularWorkflow) c c ∧
      sortTasksByDependencies circularWorkflow = .error (cycleError c) ∧
      ExecuteWorkflow (fun _ => alwaysOk) circularWorkflow = some
        { WorkflowID := circularWorkflow.Name, Status := "failed", TaskResults := []
          ErrorMessage := "failed to sort tasks: " ++ cycleError c } :=
  ⟨by decide,
    ExecuteWorkflow_cycle (fun _ => alwaysOk) circularWorkflow (by decide)
      ⟨"task1", circularWorkflow_cycle⟩⟩

/-- C15: for a task with `retry >= 0` and any outcomes of the attempts, at
least one attempt is made, and the result of `ExecuteTask` carries the exit
code, stdout and stderr of the last attempt made, has `Success = true` exactly
when that exit code is 0, has `RetryCount` equal to the number of attempts made
minus one, and, when it is not a success, has the error text
`command failed with exit code <code>: <error>` composed from the last
attempt. -/
theorem ExecuteTask_carries_last_attempt (env : TaskEnv) (task : Task) (workflowID : String)
    (hretry : 0 ≤ task.Retry) :
    1 ≤ (runTask env task workflowID).attempts ∧
    ((runTask env task workflowID).attempts : Int) ≤ max task.Retry 1 ∧
    (ExecuteTask env task workflowID).ExitCode
      = (executeCommand (env.proc ((runTask env task workflowID).attempts - 1))
          task.Command).ExitCode ∧
    (ExecuteTask env task workflowID).Stdout
      = (executeCommand (env.proc ((runTask env task workflowID).attempts - 1))
          task.Command).Stdout ∧
    (ExecuteTask env task workflowID).Stderr
      = (executeCommand (env.proc ((runTask env task workflowID).attempts - 1))
          task.Command).Stderr ∧
    ((ExecuteTask env task workflowID).Success = true ↔
      (executeCommand (env.proc ((runTask env task workflowID).attempts - 1))
          task.Command).ExitCode = 0) ∧
    (ExecuteTask env task workflowID).RetryCount
      = ((runTask env task workflowID).attempts : Int) - 1 ∧
    ((ExecuteTask env task workflowID).Success = false →
      (ExecuteTask env task workflowID).Error
        = "command failed with exit code "
          ++ toString (executeCommand (env.proc ((runTask env task workflowID).attempts - 1))
              task.Command).ExitCode
          ++ ": " ++ (executeCommand (env.proc ((runTask env task workflowID).attempts - 1))
              task.Command).Error) :=
  runTask_last_attempt env task workflowID hretry

/-- C15 at the task `command with retry` when the context completes during the
first backoff. -/
theorem ExecuteTask_carries_last_attempt_witness :
    1 ≤ (runTask timedOut retryTask "w").attempts ∧
    ((runTask timedOut retryTask "w").attempts : Int) ≤ max retryTask.Retry 1 ∧
    (ExecuteTask timedOut retryTask "w").ExitCode
      = (executeCommand (timedOut.proc ((runTask timedOut retryTask "w").attempts - 1))
          retryTask.Command).ExitCode ∧
    (ExecuteTask timedOut retryTask "w").Stdout
      = (executeCommand (timedOut.proc ((runTask timedOut retryTask "w").attempts - 1))
          retryTask.Command).Stdout ∧
    (ExecuteTask timedOut retryTask "w").Stderr
      = (executeCommand (timedOut.proc ((runTask timedOut retryTask "w").attempts - 1))
          retryTask.Command).Stderr ∧
    ((ExecuteTask timedOut retryTask "w").Success = true ↔
      (executeCommand (timedOut.proc ((runTask timedOut retryTask "w").attempts - 1))
          retryTask.Command).ExitCode = 0) ∧
    (ExecuteTask timedOut retryTask "w").RetryCount
      = ((runTask timedOut retryTask "w").attempts : Int) - 1 ∧
    ((ExecuteTask timedOut retryTask "w").Success = false →
      (ExecuteTask timedOut retryTask "w").Error
        = "command failed with exit code "
          ++ toString (executeCommand (timedOut.proc ((runTask timedOut retryTask "w").attempts - 1))
              retryTask.Command).ExitCode
          ++ ": " ++ (executeCommand (timedOut.proc ((runTask timedOut retryTask "w").attempts - 1))
              retryTask.Command).Error) :=
  ExecuteTask_carries_last_attempt timedOut retryTask "w" (by decide)

/-- C16: for every task with `retry >= 0` whose command is empty or consists
of white space only, each attempt gives exit code 1 and the error
`empty command` whatever a process would do, so no process is spawned;
`ExecuteTask` returns `Success = false`, `ExitCode = 1` and the error text
`command failed with exit code 1: empty command`. -/
theorem ExecuteTask_empty_command (env : TaskEnv) (task : Task) (workflowID : String)
    (hretry : 0 ≤ task.Retry)
    (hblank : ∀ c ∈ task.Command.data, isSpace c = true) :
    (∀ proc, executeCommand proc task.Command
      = { ExitCode := 1, Stdout := "", Stderr := "", Error := "empty command" }) ∧
    1 ≤ (runTask env task workflowID).attempts ∧
    (ExecuteTask env task workflowID).Success = false ∧
    (ExecuteTask env task workflowID).ExitCode = 1 ∧
    (ExecuteTask env task workflowID).Error
      = "command failed with exit code 1: " ++ "empty command" := by
  obtain ⟨h1, h2, h3⟩ := ExecuteTask_of_space env task workflowID hretry hblank
  exact ⟨fun proc => executeCommand_of_space proc task.Command hblank,
    (runTask_last_attempt env task workflowID hretry).1, h1, h2, h3⟩

/-- C16 at a task whose command is white space, in an outside world in which
every process would succeed, and at the empty command with a process that
would print `hello`. -/
theorem ExecuteTask_empty_command_witness :
    (ExecuteTask alwaysOk blankTask "w").Success = false ∧
    (ExecuteTask alwaysOk blankTask "w").ExitCode = 1 ∧
    (ExecuteTask alwaysOk blankTask "w").Error
      = "command failed with exit code 1: " ++ "empty command" ∧
    executeCommand (.ok "hello") ""
      = { ExitCode := 1, Stdout := "", Stderr := "", Error := "empty command" } :=
  ⟨(ExecuteTask_empty_command alwaysOk blankTask "w" (by decide) (by decide)).2.2.1,
    (ExecuteTask_empty_command alwaysOk blankTask "w" (by decide) (by decide)).2.2.2.1,
    (ExecuteTask_empty_command alwaysOk blankTask "w" (by decide) (by decide)).2.2.2.2,
    (ExecuteTask_empty_command alwaysOk { blankTask with Command := "" } "w"
      (by decide) (by decide)).1 (.ok "hello")⟩

/-- C11 fails on the code: a batch whose second workflow has a malformed cron
expression makes `AddWorkflows` return an error and leave the workflow list as
it was, but the job of the first workflow stays registered with the cron
driver. -/
theorem AddWorkflows_partial_registration :
    AddWorkflows sampleParseStandard [test1, invalidCronWorkflow] NewScheduler
      = (some "invalid cron expression for workflow 'test': expected exactly 5 fields",
         { NewScheduler with cronJobs := [test1] }) := by
  decide

/-- C12 fails on the code: after the same registration, the scheduled path
queues the execution in the report channel and the manual trigger does not. -/
theorem ExecuteWorkflowNow_skips_reportChan :
    ∃ s1, executeWorkflow (fun _ => alwaysOk) test1
        (AddWorkflows sampleParseStandard [test1] NewScheduler).2 = .ok s1 ∧
      s1.reportChan.buf = [runWorkflow (fun _ => alwaysOk) test1] ∧
      (ExecuteWorkflowNow (fun _ => alwaysOk) "test1"
        (AddWorkflows sampleParseStandard [test1] NewScheduler).2).2.reportChan.buf = [] :=
  ⟨_, rfl, by decide, by decide⟩

/-- What the manual trigger shares with the scheduled path, and what it does
not: for the first registered workflow `w` of its name, `ExecuteWorkflowNow`
returns the execution of `w`, stores it exactly as the scheduled
`executeWorkflow` stores it (appended to the history under the name of the
workflow), and leaves the report channel as it was; the scheduled path on an
open channel queues the execution there when the buffer has room. -/
theorem ExecuteWorkflowNow_stores_like_scheduled (envs : Nat → TaskEnv) (s : Scheduler)
    (pre post : List Workflow) (w : Workflow)
    (hs : s.workflows = pre ++ w :: post) (hpre : ∀ u ∈ pre, u.Name ≠ w.Name)
    (hopen : s.reportChan.closed = false) :
    ∃ e s1, ExecuteWorkflow envs w = some e ∧
      ExecuteWorkflowNow envs w.Name s = (.ok e, storeExecution w.Name e s) ∧
      executeWorkflow envs w s = .ok s1 ∧
      s1.executions = (ExecuteWorkflowNow envs w.Name s).2.executions ∧
      (ExecuteWorkflowNow envs w.Name s).2.reportChan = s.reportChan ∧
      (s.reportChan.buf.length < reportChanCapacity →
        s1.reportChan.buf = s.reportChan.buf ++ [e]) := by
  have hnow := ExecuteWorkflowNow_of_first envs s pre post w w.Name hs rfl hpre
  refine ⟨runWorkflow envs w, _, ExecuteWorkflow_eq_runWorkflow envs w, hnow,
    executeWorkflow_of_open envs w s hopen, ?_, ?_, ?_⟩
  · rw [hnow]
  · rw [hnow]; rfl
  · intro hroom
    simp [hroom]

/-- C17: `ExecuteWorkflowNow(name)` returns an error exactly when no registered
workflow has that name, and then the scheduler is unchanged; otherwise it
returns the execution of the first registered workflow of that name and appends
that one execution to the history stored under the name, the histories stored
under other names and the rest of the scheduler being unchanged. -/
theorem ExecuteWorkflowNow_spec (envs : Nat → TaskEnv) (name : String) (s : Scheduler) :
    ((∃ msg, (ExecuteWorkflowNow envs name s).1 = .error msg) ↔
      ∀ w ∈ s.workflows, w.Name ≠ name) ∧
    ((∀ w ∈ s.workflows, w.Name ≠ name) →
      ExecuteWorkflowNow envs name s = (.error ("workflow '" ++ name ++ "' not found"), s)) ∧
    (∀ pre w post, s.workflows = pre ++ w :: post → w.Name = name →
      (∀ u ∈ pre, u.Name ≠ name) →
      ∃ e, ExecuteWorkflow envs w = some e ∧
        (ExecuteWorkflowNow envs name s).1 = .ok e ∧
        storeGet (ExecuteWorkflowNow envs name s).2.executions name
          = storeGet s.executions name ++ [e] ∧
        (∀ other, other ≠ name →
          storeGet (ExecuteWorkflowNow envs name s).2.executions other
            = storeGet s.executions other) ∧
        (ExecuteWorkflowNow envs name s).2.workflows = s.workflows ∧
        (ExecuteWorkflowNow envs name s).2.cronJobs = s.cronJobs ∧
        (ExecuteWorkflowNow envs name s).2.reportChan = s.reportChan) := by
  refine ⟨?_, ExecuteWorkflowNow_of_absent envs s name, ?_⟩
  · constructor
    · rintro ⟨msg, hmsg⟩
      rw [← findWorkflow_eq_none]
      unfold ExecuteWorkflowNow at hmsg
      cases hf : findWorkflow s.workflows name with
      | none => rfl
      | some w => simp [hf] at hmsg
    · intro h
      exact ⟨_, by rw [ExecuteWorkflowNow_of_absent envs s name h]⟩
  · intro pre w post hs hw hpre
    have hnow := ExecuteWorkflowNow_of_first envs s pre post w name hs hw hpre
    refine ⟨runWorkflow envs w, ExecuteWorkflow_eq_runWorkflow envs w, by rw [hnow], ?_, ?_,
      by rw [hnow]; rfl, by rw [hnow]; rfl, by rw [hnow]; rfl⟩
    · rw [hnow]
      exact storeGet_storeSet_same _ _ _
    · intro other ho
      rw [hnow]
      exact storeGet_storeSet_other _ _ _ _ ho

/-- C18: starting from an open, empty report channel that nobody reads, any
number of scheduled executions all complete, and the channel then holds the
first `min(n, 100)` of their executions in order; the others are skipped. With
101 executions the channel holds 100, so exactly one is dropped. -/
theorem runScheduled_reportChan (jobs : List (Workflow × (Nat → TaskEnv))) (s : Scheduler)
    (hopen : s.reportChan.closed = false) (hempty : s.reportChan.buf = []) :
    ∃ s1, runScheduled jobs s = .ok s1 ∧
      s1.reportChan.buf = (jobs.map (fun job => runWorkflow job.2 job.1)).take 100 ∧
      s1.reportChan.buf.length = min jobs.length 100 ∧
      (jobs.length = 101 → jobs.length - s1.reportChan.buf.length = 1) := by
  obtain ⟨s1, hrun, _, hbuf⟩ := runScheduled_of_open jobs s hopen
  rw [hempty] at hbuf
  simp only [List.nil_append, List.length_nil, Nat.sub_zero] at hbuf
  have hlen : s1.reportChan.buf.length = min jobs.length 100 := by
    rw [hbuf, List.length_take, List.length_map, reportChanCapacity, min_comm]
  refine ⟨s1, hrun, hbuf, hlen, ?_⟩
  intro h
  rw [hlen, h]
  rfl

/-- C18 at a new scheduler and one scheduled execution. -/
theorem runScheduled_reportChan_witness :
    ∃ s1, runScheduled [okJob] NewScheduler = .ok s1 ∧
      s1.reportChan.buf = ([okJob].map (fun job => runWorkflow job.2 job.1)).take 100 ∧
      s1.reportChan.buf.length = min [okJob].length 100 ∧
      ([okJob].length = 101 → [okJob].length - s1.reportChan.buf.length = 1) :=
  runScheduled_reportChan [okJob] NewScheduler rfl rfl

/-- C20 fails on the code: the configuration whose workflow has two tasks with
the id `task1` is accepted by `ValidateConfig`, whatever `time.ParseDuration`
does. -/
theorem ValidateConfig_accepts_duplicate_ids :
    (∀ parseDuration, ValidateConfig parseDuration duplicateIdConfig = none) ∧
    ∃ w ∈ duplicateIdConfig.Workflows, ¬ (w.Tasks.map Task.ID).Nodup :=
  ⟨fun _ => rfl, by decide⟩

/-- C20 as amended: every configuration accepted by `ValidateConfig` has, in
each of its workflows, task ids that are non-empty. -/
theorem ValidateConfig_ids_nonempty (parseDuration : String → Option String)
    (config : WorkflowConfig) (h : ValidateConfig parseDuration config = none) :
    ∀ w ∈ config.Workflows, ∀ t ∈ w.Tasks, t.ID ≠ "" := by
  unfold ValidateConfig at h
  split_ifs at h
  exact validateWorkflows_id parseDuration _ _ h

/-- C20 as amended, at the configuration `valid config` of
`TestYAMLParser_ValidateConfig`. -/
theorem ValidateConfig_ids_nonempty_witness :
    ValidateConfig (fun _ => none) validConfig = none ∧ task1.ID ≠ "" :=
  ⟨by decide,
    ValidateConfig_ids_nonempty (fun _ => none) validConfig (by decide)
      { Name := "test", Schedule := "0 0 * * *", Tasks := [task1] } (by decide)
      task1 (by decide)⟩

/-- C19 fails on the code: after the workflow `test1` was registered twice and
triggered once, the store holds one execution record and `GetStats` reports two
executions. -/
theorem GetStats_counts_history_twice :
    Reached sampleParseStandard duplicateNameState ∧
    (storeRecords duplicateNameState.executions).length = 1 ∧
    (GetStats duplicateNameState).TotalExecutions = 2 :=
  ⟨Reached.now _ _ _ (Reached.add _ _ Reached.init (by decide)), by decide, by decide⟩

/-- C19 as amended: in every scheduler state reached through calls of
`AddWorkflows` that return no error, scheduled runs and calls of
`ExecuteWorkflowNow`, if the registered workflows have pairwise distinct names
then `GetStats` reports the number of registered workflows, the number of
execution records held in the store, the number of those records with status
`completed`, and the number of the other records. -/
theorem GetStats_of_reached (parseStandard : String → Option String) (s : Scheduler)
    (h : Reached parseStandard s) (hnd : (s.workflows.map Workflow.Name).Nodup) :
    GetStats s =
      { TotalWorkflows := s.workflows.length
        TotalExecutions := (storeRecords s.executions).length
        SuccessfulExecutions :=
          (storeRecords s.executions).countP (fun e => decide (e.Status = "completed"))
        FailedExecutions :=
          (storeRecords s.executions).countP (fun e => !decide (e.Status = "completed")) } := by
  obtain ⟨_, h2, h3⟩ := Reached_inv parseStandard s h
  exact GetStats_of_distinct s hnd h2 h3

/-- C19 as amended, at the scheduler of `TestScheduler_GetStats`. -/
theorem GetStats_of_reached_witness :
    GetStats statsTestState =
      { TotalWorkflows := statsTestState.workflows.length
        TotalExecutions := (storeRecords statsTestState.executions).length
        SuccessfulExecutions :=
          (storeRecords statsTestState.executions).countP
            (fun e => decide (e.Status = "completed"))
        FailedExecutions :=
          (storeRecords statsTestState.executions).countP
            (fun e => !decide (e.Status = "completed")) } :=
  GetStats_of_reached sampleParseStandard statsTestState
    (Reached.now _ _ _ (Reached.add _ _ Reached.init (by decide))) (by decide)

/-- C23: for every attempt index `calculateBackoff` returns a duration of at
most 5 minutes, and at attempt index 10 it returns exactly 5 minutes. -/
theorem calculateBackoff_capped (attempt : Int) :
    calculateBackoff attempt ≤ 5 * minute ∧ calculateBackoff 10 = 5 * minute := by
  refine ⟨?_, by decide⟩
  unfold calculateBackoff
  simp only
  split_ifs with h
  · exact le_refl _
  · exact not_lt.mp h

/-- C27 fails on the code for a negative retry count: for the task with the
command `echo hello` and `retry = -1`, `ExecuteTask` returns without having
called the command once. -/
theorem ExecuteTask_negative_retry_no_attempt (env : TaskEnv) (workflowID : String) :
    (runTask env negativeRetryTask workflowID).attempts = 0 ∧
    (ExecuteTask env negativeRetryTask workflowID).Success = false ∧
    (ExecuteTask env negativeRetryTask workflowID).Error = "" :=
  ⟨rfl, rfl, rfl⟩

/-- C29 fails on the code: the task whose command is a single space is accepted
by `ValidateTask`, its command splits into no token, and executing it takes the
`empty command` branch whatever the process would do. -/
theorem ValidateTask_accepts_blank_command :
    (∀ parseDuration, ValidateTask parseDuration spaceTask 0 0 = none) ∧
    fields spaceTask.Command = [] ∧
    (∀ proc, executeCommand proc spaceTask.Command
      = { ExitCode := 1, Stdout := "", Stderr := "", Error := "empty command" }) :=
  ⟨fun _ => rfl, by decide, fun _ => rfl⟩

/-- C29 as amended: for every task accepted by `ValidateTask` whose command has
a character that is not white space, the command splits into at least one
token, so executing it does not take the `empty command` branch: a process
that succeeds gives exit code 0. -/
theorem ValidateTask_command_tokens (parseDuration : String → Option String) (task : Task)
    (taskIndex workflowIndex : Nat)
    (_haccepted : ValidateTask parseDuration task taskIndex workflowIndex = none)
    (hchar : ∃ c ∈ task.Command.data, isSpace c = false) :
    fields task.Command ≠ [] ∧
    ∀ stdout, executeCommand (.ok stdout) task.Command
      = { ExitCode := 0, Stdout := stdout, Stderr := "", Error := "" } := by
  have hne := (fields_ne_nil_iff task.Command).mpr hchar
  refine ⟨hne, ?_⟩
  intro stdout
  unfold executeCommand
  have hlen : (fields task.Command).length ≠ 0 := by
    intro h0
    exact hne (List.length_eq_zero.mp h0)
  simp [hlen]

/-- C29 as amended, at the first task of the test workflow. -/
theorem ValidateTask_command_tokens_witness :
    fields task1.Command ≠ [] ∧
    executeCommand (.ok "task1") task1.Command
      = { ExitCode := 0, Stdout := "task1", Stderr := "", Error := "" } :=
  ⟨(ValidateTask_command_tokens (fun _ => none) task1 0 0 (by decide)
      ⟨'e', by decide, by decide⟩).1,
    (ValidateTask_command_tokens (fun _ => none) task1 0 0 (by decide)
      ⟨'e', by decide, by decide⟩).2 "task1"⟩

/-- C25: for every workflow and every outcome of its tasks, `ExecuteWorkflow`
returns an execution, and its error message is never
`dependency check failed for task '<id>'`. -/
theorem ExecuteWorkflow_dependency_check_never_fails (envs : Nat → TaskEnv) (w : Workflow) :
    ∃ e, ExecuteWorkflow envs w = some e ∧
      ∀ id : String, e.ErrorMessage ≠ "dependency check failed for task '" ++ id ++ "'" := by
  cases hs : sortTasksByDependencies w with
  | outOfFuel => exact absurd hs (sort_spec w).1
  | error msg =>
    refine ⟨_, ExecuteWorkflow_of_error envs w msg hs, ?_⟩
    intro id
    show "failed to sort tasks: " ++ msg ≠ "dependency check failed for task '" ++ id ++ "'"
    rw [String.append_assoc]
    exact append_ne_of_head 'f' 'd' _ _ _ _ (by decide) (by decide) (by decide)
  | order order =>
    refine ⟨_, ExecuteWorkflow_of_order envs w order hs, ?_⟩
    intro id
    have key := runTasks_errorMessage envs w.Name order [] (fun _ => false)
      { WorkflowID := w.Name, Status := "running", TaskResults := [], ErrorMessage := "" }
      (by simpa using sort_depsEarlier w order hs) (by simp) (by simp [allResults])
    rcases key with key | ⟨t, err, key⟩
    · rw [show ([] : List Task).length = 0 from rfl] at key
      rw [key]
      intro h
      have hd := congrArg String.data h
      simp [String.data_append] at hd
    · rw [show ([] : List Task).length = 0 from rfl] at key
      rw [key, String.append_assoc, String.append_assoc, String.append_assoc]
      exact append_ne_of_head 't' 'd' _ _ _ _ (by decide) (by decide) (by decide)

/-- C21 fails on the code in its last part: the configuration with an empty
version whose only workflow has no name is rejected with the error
`version is required`, which names no workflow, although the workflow of
index 0 does not meet the conditions. -/
theorem ValidateConfig_version_error_names_no_workflow :
    ValidateConfig (fun _ => none) noVersionConfig = some "version is required" ∧
    (∃ w, noVersionConfig.Workflows = [] ++ w :: [] ∧
      ¬ WorkflowAcceptable (fun _ => none) w) ∧
    ¬ NamesWorkflow 0 "version is required" := by
  refine ⟨rfl, ⟨_, rfl, fun h => h.1 rfl⟩, ?_⟩
  rintro ⟨rest, h⟩
  rw [String.append_assoc, ← String.append_empty "version is required"] at h
  exact append_ne_of_head 'v' 'w' _ _ _ _ (by decide) (by decide) (by decide) h

/-- C21 as amended: `ValidateConfig` accepts a configuration if and only if its
version is non-empty, it has at least one workflow and every workflow is
acceptable (name, schedule, tasks, ids, commands, retry counts, timeouts and
`dependsOn` ids as the claim lists them); and when it rejects a configuration
with a non-empty version because of a workflow, the error starts with
`workflow[i]` for the index `i` of the first workflow that is not acceptable. -/
theorem ValidateConfig_accepts_iff (parseDuration : String → Option String)
    (config : WorkflowConfig) :
    (ValidateConfig parseDuration config = none ↔ ConfigAcceptable parseDuration config) ∧
    (config.Version ≠ "" → ∀ pre w post, config.Workflows = pre ++ w :: post →
      (∀ u ∈ pre, WorkflowAcceptable parseDuration u) →
      ¬ WorkflowAcceptable parseDuration w →
      ∃ msg, ValidateConfig parseDuration config = some msg ∧
        NamesWorkflow pre.length msg) := by
  obtain ⟨h1, h2⟩ := validateWorkflows_spec parseDuration config.Workflows 0
  by_cases hv : config.Version = ""
  · have he : ValidateConfig parseDuration config = some "version is required" := by
      simp [ValidateConfig, hv]
    rw [he]
    exact ⟨⟨fun h => by simp at h, fun h => absurd hv h.1⟩, fun h => absurd hv h⟩
  by_cases hw : config.Workflows.length = 0
  · have hw' : config.Workflows = [] := List.length_eq_zero.mp hw
    have he : ValidateConfig parseDuration config = some "at least one workflow is required" := by
      simp [ValidateConfig, hv, hw]
    rw [he]
    refine ⟨⟨fun h => by simp at h, fun h => absurd hw' h.2.1⟩, ?_⟩
    intro _ pre w post h
    rw [hw'] at h
    simp at h
  · have hw' : config.Workflows ≠ [] := fun h => hw (by rw [h]; rfl)
    have he : ValidateConfig parseDuration config
        = validateWorkflows parseDuration config.Workflows 0 := by
      simp [ValidateConfig, hv, hw]
    rw [he]
    refine ⟨?_, ?_⟩
    · rw [h1]
      exact ⟨fun h => ⟨hv, hw', h⟩, fun h => h.2.2⟩
    · intro _ pre w post hsplit hpre hnw
      obtain ⟨msg, hm1, hm2⟩ := h2 pre w post hsplit hpre hnw
      exact ⟨msg, hm1, by simpa using hm2⟩

/-- C21 as amended, at a configuration whose only workflow has no name: it is
rejected, and the error names the workflow of index 0. -/
theorem ValidateConfig_accepts_iff_witness :
    ¬ ConfigAcceptable (fun _ => none) namelessConfig ∧
    ValidateConfig (fun _ => none) namelessConfig ≠ none ∧
    ∃ msg, ValidateConfig (fun _ => none) namelessConfig = some msg ∧ NamesWorkflow 0 msg :=
  ⟨(ValidateConfig_accepts_iff (fun _ => none) namelessConfig).1.not.mp (by decide),
    by decide,
    (ValidateConfig_accepts_iff (fun _ => none) namelessConfig).2 (by decide)
      [] namelessWorkflow [] rfl (fun _ h => absurd h (List.not_mem_nil _))
      (fun h => h.1 rfl)⟩

/-- C30 fails on the code: the scheduler of `TestScheduler_StartStop` is
started and stopped; `Stop` returns with the report channel closed, and then a
second `Stop` panics with a close of the closed channel, and the end of a
scheduled execution of `test1` that was in flight panics with a send on the
closed channel. The same holds after any `Stop` that returns: in every state
with a closed report channel, `Stop` and the end of every scheduled execution
panic. -/
theorem Stop_is_not_terminal :
    (∃ stopped, Stop startedState = .ok stopped ∧ stopped.reportChan.closed = true ∧
      stopped.cancelled = true ∧
      Stop stopped = .panic "close of closed channel" ∧
      finishExecution test1 (runWorkflow (fun _ => alwaysOk) test1) stopped
        = .panic "send on closed channel" ∧
      executeWorkflow (fun _ => alwaysOk) test1 stopped = .panic "send on closed channel") ∧
    (∀ s s1, Stop s = .ok s1 →
      s1.reportChan.closed = true ∧ Stop s1 = .panic "close of closed channel" ∧
      ∀ workflow execution,
        finishExecution workflow execution s1 = .panic "send on closed channel") := by
  refine ⟨⟨_, rfl, by decide, by decide, by decide, by decide, by decide⟩, ?_⟩
  intro s s1 h
  have hc : s1.reportChan.closed = true := by
    by_cases hs : s.reportChan.closed = true
    · rw [Stop_of_closed s hs] at h
      cases h
    · have hs2 : s.reportChan.closed = false := by simpa using hs
      rw [Stop_of_open s hs2] at h
      cases h
      rfl
  exact ⟨hc, Stop_of_closed s1 hc, fun w e => finishExecution_of_closed w e s1 hc⟩

/-- C24 fails on the code: after `LoadConfig` and `Start`, `Run` performs one
execution of the workflow of the configuration, with status `completed`, and
leaves the instance as it was; afterwards `GetStats` reports no execution,
`GetExecutions` returns no record and `GenerateReport` hands an empty history
to the reporter. `Run` never changes the instance. -/
theorem Run_leaves_history_empty :
    (∃ performed,
      GoliteFlow.Run sampleParseStandard (fun _ _ => alwaysOk) startedInstance
        = (none, performed, startedInstance) ∧
      performed.map WorkflowExecution.Status = ["completed"] ∧
      GoliteFlow.GetStats startedInstance
        = some { TotalWorkflows := 1, TotalExecutions := 0
                 SuccessfulExecutions := 0, FailedExecutions := 0 } ∧
      GoliteFlow.GetExecutions startedInstance "test" = [] ∧
      GoliteFlow.GenerateReport startedInstance = .ok []) ∧
    (∀ (parseStandard : String → Option String) (envs : Nat → Nat → TaskEnv) (gf : GoliteFlow),
      (GoliteFlow.Run parseStandard envs gf).2.2 = gf) := by
  refine ⟨⟨_, rfl, by decide, by decide, by decide, rfl⟩, ?_⟩
  intro parseStandard envs gf
  unfold GoliteFlow.Run
  cases gf.config <;> rfl

/-- C26 fails on the code: the workflow `duplicateIdWorkflow`, whose two tasks
have the same id, is accepted by `ValidateWorkflow`; the parser's
`TopologicalSort` returns the first of the two tasks and the executor's
`sortTasksByDependencies` returns the second. -/
theorem TopologicalSort_differs_on_duplicate_ids :
    ValidateWorkflow (fun _ => none) duplicateIdWorkflow 0 = none ∧
    TopologicalSort duplicateIdWorkflow = .order [task1] ∧
    sortTasksByDependencies duplicateIdWorkflow = .order [task1Again] ∧
    TopologicalSort duplicateIdWorkflow ≠ sortTasksByDependencies duplicateIdWorkflow := by
  decide

/-- C26 as amended: for every workflow that `ValidateWorkflow` accepts and whose
task ids are pairwise distinct, the parser's `TopologicalSort` and the
executor's `sortTasksByDependencies` return the same result, the same sequence
of tasks or the same circular-dependency error, and neither runs out of its
recursion budget. -/
theorem TopologicalSort_agrees_with_executor (parseDuration : String → Option String)
    (w : Workflow) (index : Nat)
    (haccepted : ValidateWorkflow parseDuration w index = none)
    (hdistinct : (w.Tasks.map Task.ID).Nodup) :
    TopologicalSort w = sortTasksByDependencies w ∧ TopologicalSort w ≠ .outOfFuel := by
  have hacc := (ValidateWorkflow_spec parseDuration w index).1.mp haccepted
  have hclosed : ∀ t ∈ w.Tasks, ∀ d ∈ t.DependsOn, d ∈ w.Tasks.map Task.ID := by
    intro t ht d hd
    obtain ⟨u, hu, hud⟩ := hacc.2.2.2.2 t ht d hd
    exact hud ▸ List.mem_map_of_mem _ hu
  have heq := TopologicalSort_eq_sort w hdistinct hclosed
  exact ⟨heq, heq ▸ (sort_spec w).1⟩

/-- C26 as amended, at the workflow of `TestTaskRunner_ExecuteWorkflow`. -/
theorem TopologicalSort_agrees_with_executor_witness :
    ValidateWorkflow (fun _ => none) testWorkflow 0 = none ∧
    (testWorkflow.Tasks.map Task.ID).Nodup ∧
    TopologicalSort testWorkflow = sortTasksByDependencies testWorkflow ∧
    TopologicalSort testWorkflow ≠ .outOfFuel :=
  ⟨by decide, by decide,
    TopologicalSort_agrees_with_executor (fun _ => none) testWorkflow 0 (by decide) (by decide)⟩

/-- C28: for every workflow with pairwise distinct task ids in which the
dependencies of each task all stand earlier in `workflow.Tasks` than the task
itself, `TopologicalSort` returns the tasks in exactly their input order. -/
theorem TopologicalSort_of_ordered (w : Workflow)
    (hdistinct : (w.Tasks.map Task.ID).Nodup)
    (hordered : DependenciesEarlier w.Tasks) :
    TopologicalSort w = .order w.Tasks := by
  rw [TopologicalSort_eq_sort w hdistinct (closed_of_ordered w.Tasks hordered)]
  exact sort_of_ordered w hdistinct hordered

/-- C28 at the workflow of `TestYAMLParser_TopologicalSort`. -/
theorem TopologicalSort_of_ordered_witness :
    (chainWorkflow.Tasks.map Task.ID).Nodup ∧
    TopologicalSort chainWorkflow = .order [task1, task2, task3] :=
  ⟨by decide, TopologicalSort_of_ordered chainWorkflow (by decide) chainWorkflow_ordered⟩

/-- C22 fails on the code: a scheduler has stored one execution of `test1`.
`GetAllExecutions` returns a map whose slice for `test1` is a new one, at
address 2, with the contents of the stored history, and replacing an element
of that slice leaves the stored history as it was. But the element of the new
slice carries the header of the stored `TaskResults`: after the assignment
`result["test1"][0].TaskResults[0] = alteredResult` through the returned map,
the stored history holds the altered result, and so does the slice that a
later `GetExecutions` returns. -/
theorem GetAllExecutions_shares_TaskResults :
    (storedMemory.GetAllExecutions storedHeaders).1 = [("test1", 2)] ∧
    (storedMemory.GetAllExecutions storedHeaders).2.read 2 = storedMemory.read 1 ∧
    storedMemory.read 1
      = [{ WorkflowID := "test1", Status := "completed", TaskResults := [okResult]
           ErrorMessage := "" }] ∧
    (∀ c, ((storedMemory.GetAllExecutions storedHeaders).2.setExecution 2 0 c).read 1
      = storedMemory.read 1) ∧
    ((storedMemory.GetAllExecutions storedHeaders).2.setTaskResult 2 0 0 alteredResult).read 1
      = [{ WorkflowID := "test1", Status := "completed", TaskResults := [alteredResult]
           ErrorMessage := "" }] ∧
    (((storedMemory.GetAllExecutions storedHeaders).2.setTaskResult 2 0 0
        alteredResult).GetExecutions storedHeaders "test1").2.read 3
      = [{ WorkflowID := "test1", Status := "completed", TaskResults := [alteredResult]
           ErrorMessage := "" }] := by
  refine ⟨by decide, by decide, by decide, ?_, by decide, by decide⟩
  intro c
  exact Memory_setExecution_read _ 2 1 0 c (by decide)

end GoLiteFlow
